import Mathlib

/-!
# 3DViewer: mesh loader and affine transforms

A shallow embedding of `Viewer/model.h`, `Viewer/model.cc`, `Viewer/affine.h`
and `Viewer/affine.cc`.

Modelling conventions.

* `double` is an arbitrary linearly ordered field `α` with a floor function:
  arithmetic is exact, there is no rounding, no infinity and no NaN.  The
  definitions run on `ℚ`; the trigonometric functions are passed in, so that
  the rotation results can be read on `ℝ` with `Real.cos` and `Real.sin`.
* `unsigned int` is `Nat` reduced modulo `2 ^ 32` at every arithmetic step.
  `int` counters are `Nat`, and stepping one past `INT_MAX` has no result.
* Arrays are lists.  A read or write outside an allocation has no result: the
  functions that index with a running counter return `Option`.
* A division of doubles by zero has no result either (`setInCenter`).
* Freshly allocated storage holds whatever `Heap` says it holds.
* A file is `Option (List Char)`: `none` when the stream cannot be opened,
  otherwise its content; `getlines` cuts it the way `std::getline` does.
* The C library conversions (`sscanf` with `%lf`, `atof`) are modelled on the
  decimal notation (sign, digits, fraction, exponent); hexadecimal floats,
  `inf` and `nan` are not covered.
-/

namespace s21

/-- Modulus of `unsigned int` arithmetic. -/
def UINT_MOD : Nat := 2 ^ 32

/-- Largest value of `int`. -/
def INT_MAX : Nat := 2 ^ 31 - 1

/-- Vertices of one polygon: `struct Facets`. -/
structure Facets where
  vertexes : List Nat
  numbers_of_vertexes_for_polygon : Nat
deriving DecidableEq, Repr

/-- Vertex matrix: `struct MatrixStruct`. -/
structure MatrixStruct (α : Type) where
  matrix : List (List α)
  rows : Nat
  columns : Nat
deriving DecidableEq, Repr

/-- Model data: `struct Data`. -/
structure Data (α : Type) where
  count_of_vertexes : Nat
  count_of_polygons : Nat
  matrix_of_vertexes : MatrixStruct α
  array_of_polygon : List Facets
  minX : α
  minY : α
  minZ : α
  maxX : α
  maxY : α
  maxZ : α
deriving DecidableEq, Repr

/-- Contents of storage at the moment it is allocated. -/
structure Heap (α : Type) where
  /-- Entry `c` of the `new double[columns]` made for row `i`. -/
  dbl : Nat → Nat → α
  /-- Entry `e` of the `new unsigned int[n]` made for polygon `j`. -/
  uint : Nat → Nat → Nat
  /-- Entry `j` of the `new Facets[n]` array. -/
  facet : Nat → Facets

section Libc

variable {α : Type} [LinearOrderedField α] [FloorRing α]

/-- Largest finite `double`: `(2 ^ 53 - 1) * 2 ^ 971`. -/
def DBL_MAX : α := (2 ^ 53 - 1) * 2 ^ 971

/-- Smallest positive normalised `double`: `2 ^ (-1022)`. -/
def DBL_MIN : α := 1 / 2 ^ 1022

/-- The C function `fmax` on non-NaN arguments. -/
def fmax (x y : α) : α := if x < y then y else x

/-- The C function `fmin` on non-NaN arguments. -/
def fmin (x y : α) : α := if y < x then y else x

/-- The C predicate `isspace` in the "C" locale. -/
def isspace (c : Char) : Bool :=
  c = ' ' || c = '\t' || c = '\n' || c = '\r' || c.toNat = 11 || c.toNat = 12

/-- Decimal digit test, `isdigit`. -/
def isdigit (c : Char) : Bool := decide (48 ≤ c.toNat) && decide (c.toNat ≤ 57)

/-- Value of a run of decimal digits, most significant first. -/
def decValue (ds : List Char) : Nat :=
  ds.foldl (fun acc c => 10 * acc + (c.toNat - 48)) 0

/-- Optional sign in front of a number: `true` for a minus sign. -/
def readSign : List Char → Bool × List Char
  | '-' :: s => (true, s)
  | '+' :: s => (false, s)
  | s => (false, s)

/-- Optional exponent part `e[+-]ddd`; consumed only when a digit follows. -/
def readExponent (s : List Char) : Int × List Char :=
  match s with
  | [] => (0, s)
  | c :: t =>
    if c = 'e' ∨ c = 'E' then
      let sg := readSign t
      let ds := sg.2.takeWhile isdigit
      if ds = [] then (0, s)
      else ((if sg.1 then -(decValue ds : Int) else (decValue ds : Int)),
            sg.2.dropWhile isdigit)
    else (0, s)

/-- Optional fraction part `.ddd`. -/
def readFraction : List Char → List Char × List Char
  | '.' :: t => (t.takeWhile isdigit, t.dropWhile isdigit)
  | s => ([], s)

/-- The C function `strtod` on decimal notation: skips leading white space and
converts the longest decimal floating literal; gives the value and the rest of
the text, or `none` when no conversion can be made. -/
def strtod (s : List Char) : Option (α × List Char) :=
  let sg := readSign (s.dropWhile isspace)
  let ip := sg.2.takeWhile isdigit
  let fr := readFraction (sg.2.dropWhile isdigit)
  if ip = [] ∧ fr.1 = [] then none
  else
    let ex := readExponent fr.2
    let m : α := (decValue (ip ++ fr.1) : α) * (10 : α) ^ (ex.1 - (fr.1.length : Int))
    some ((if sg.1 then -m else m), ex.2)

/-- The C function `atof`: `strtod` without the end pointer, `0` when nothing
converts. -/
def atof (s : List Char) : α :=
  match (strtod s : Option (α × List Char)) with
  | some (v, _) => v
  | none => 0

/-- Conversion `double` to `unsigned int`: the fraction is discarded (rounding
toward zero) and the integer is reduced modulo `2 ^ 32`. -/
def toUInt (x : α) : Nat :=
  ((if 0 ≤ x then Int.floor x else Int.ceil x) % (UINT_MOD : Int)).toNat

/-- Successive `%lf` conversions of `sscanf`, separated by white space: the
values converted before the first failure, at most `n` of them. -/
def scanDoubles : Nat → List Char → List α
  | 0, _ => []
  | n + 1, s =>
    match (strtod (s.dropWhile isspace) : Option (α × List Char)) with
    | none => []
    | some (v, rest) => v :: scanDoubles n rest

/-- The member `c_str()`: the text up to the first NUL character. -/
def c_str (line : List Char) : List Char :=
  line.takeWhile (fun c => c != Char.ofNat 0)

/-- One scan of `strtok` with delimiter `" "`, right to left: the token being
built and the finished tokens. -/
def strtokScan : List Char → List Char × List (List Char)
  | [] => ([], [])
  | c :: cs =>
    let r := strtokScan cs
    if c = ' ' then ([], if r.1 = [] then r.2 else r.1 :: r.2)
    else (c :: r.1, r.2)

/-- All tokens that `strtok(tmp, " ")` followed by `strtok(NULL, " ")` until
`NULL` yields. -/
def strtokAll (s : List Char) : List (List Char) :=
  let r := strtokScan s
  if r.1 = [] then r.2 else r.1 :: r.2

/-- Lines that `std::getline` reads from a stream with this content; `cur` is
the line being read, last character first. -/
def getlinesFrom : List Char → List Char → List (List Char)
  | [], cur => if cur = [] then [] else [cur.reverse]
  | c :: cs, cur =>
    if c = '\n' then cur.reverse :: getlinesFrom cs []
    else getlinesFrom cs (c :: cur)

/-- Lines of a file content, as the `while (std::getline(f, line))` loop sees
them. -/
def getlines (content : List Char) : List (List Char) := getlinesFrom content []

end Libc

section Model

variable {α : Type} [LinearOrderedField α] [FloorRing α]

/-- Entry `matrix[i][c]` of the vertex matrix (`0` if there is no such entry). -/
def Data.coord (d : Data α) (i c : Nat) : α :=
  (d.matrix_of_vertexes.matrix.getD i []).getD c 0

/-- The method `Model::initialize` (the word is reserved here, hence the longer
name): every field is reset, whatever it held. -/
def initializeModel (_d : Data α) : Data α :=
  { count_of_polygons := 0
    count_of_vertexes := 0
    matrix_of_vertexes := { columns := 0, rows := 0, matrix := [] }
    array_of_polygon := []
    minX := DBL_MAX
    minY := DBL_MAX
    minZ := DBL_MAX
    maxX := DBL_MIN
    maxY := DBL_MIN
    maxZ := DBL_MIN }

/-- Test `line.compare(0, 2, "v ") == 0`. -/
def isVertexLine (line : List Char) : Bool := line.take 2 == ['v', ' ']

/-- Test `line.compare(0, 2, "f ") == 0`. -/
def isFaceLine (line : List Char) : Bool := line.take 2 == ['f', ' ']

/-- Body of the `while` loop of `Model::firstReadParser`. -/
def firstReadLine (d : Data α) (line : List Char) : Data α :=
  let d1 := if isVertexLine line then
      { d with count_of_vertexes := (d.count_of_vertexes + 1) % UINT_MOD } else d
  if isFaceLine line then
    { d1 with count_of_polygons := (d1.count_of_polygons + 1) % UINT_MOD } else d1

/-- The method `Model::firstReadParser`; nothing happens when the stream is not
open. -/
def firstReadParser (file : Option (List Char)) (d : Data α) : Data α :=
  match file with
  | none => d
  | some content => (getlines content).foldl firstReadLine d

/-- The method `Model::createMatrixOfVertexes`. -/
def createMatrixOfVertexes (heap : Heap α) (d : Data α) : Data α :=
  let rows := (d.count_of_vertexes + 1) % UINT_MOD
  { d with matrix_of_vertexes :=
      { columns := 3
        rows := rows
        matrix := (List.range rows).map fun i => (List.range 3).map (heap.dbl i) } }

/-- The method `Model::polygonMemoryAllocation`. -/
def polygonMemoryAllocation (heap : Heap α) (d : Data α) : Data α :=
  { d with array_of_polygon :=
      (List.range ((d.count_of_polygons + 1) % UINT_MOD)).map heap.facet }

/-- The method `Model::minMax`. -/
def minMax (d : Data α) (i : Nat) : Data α :=
  { d with
    maxX := fmax (d.coord i 0) d.maxX
    maxY := fmax (d.coord i 1) d.maxY
    maxZ := fmax (d.coord i 2) d.maxZ
    minX := fmin (d.coord i 0) d.minX
    minY := fmin (d.coord i 1) d.minY
    minZ := fmin (d.coord i 2) d.minZ }

/-- Stores of `sscanf`: the k-th converted value goes to `&matrix[i][k]`. -/
def storeScanned : List α → Nat → List α → List α
  | [], _, row => row
  | v :: vs, k, row => storeScanned vs (k + 1) (row.set k v)

/-- The call `sscanf(line.c_str(), "%c %lf %lf %lf", &ch, &m[i][0], &m[i][1],
&m[i][2])` as a function of the row `m[i]`: `%c` takes the first character,
then up to three numbers are converted and stored. -/
def sscanfVertex (line : List Char) (row : List α) : List α :=
  storeScanned (scanDoubles 3 ((c_str line).drop 1)) 0 row

/-- The vertex branch of `Model::secondReadParser` for row counter `i`. -/
def readVertex (d : Data α) (i : Nat) (line : List Char) : Option (Data α × Nat) :=
  match d.matrix_of_vertexes.matrix[i]? with
  | none => none
  | some row =>
    let m := d.matrix_of_vertexes.matrix.set i (sscanfVertex line row)
    let d1 := minMax { d with matrix_of_vertexes := { d.matrix_of_vertexes with matrix := m } } i
    if i + 1 ≤ INT_MAX then some (d1, i + 1) else none

/-- The method `Model::countVertexesForPolygon`: number of tokens minus one, in
`unsigned int` arithmetic. -/
def countVertexesForPolygon (str : List Char) : Nat :=
  ((strtokAll str).foldl (fun count _ => (count + 1) % UINT_MOD) 0 + (UINT_MOD - 1)) % UINT_MOD

/-- The method `Model::vertexesForPolygonMemoryAllocation` for polygon `j`. -/
def vertexesForPolygonMemoryAllocation (heap : Heap α) (j n : Nat) : List Nat :=
  (List.range n).map (heap.uint j)

/-- Body of the `while` loop of `Model::parserVertexesForPolygon`: the state is
the array `vertexes` and the counter `e`. -/
def storeIndex (st : List Nat × Nat) (tok : List Char) : Option (List Nat × Nat) :=
  let vertex := toUInt (atof tok : α)
  if vertex ≠ 0 then
    if st.2 < st.1.length ∧ st.2 + 1 ≤ INT_MAX then some (st.1.set st.2 vertex, st.2 + 1)
    else none
  else some st

/-- The method `Model::parserVertexesForPolygon` as a function of the array
`vertexes` of the polygon. -/
def parserVertexesForPolygon (str : List Char) (vertexes : List Nat) : Option (List Nat) :=
  ((strtokAll str).foldlM (storeIndex (α := α)) (vertexes, 0)).map Prod.fst

/-- The face branch of `Model::secondReadParser` for polygon counter `j`. -/
def readFace (heap : Heap α) (d : Data α) (j : Nat) (line : List Char) :
    Option (Data α × Nat) :=
  if j < d.array_of_polygon.length then
    let n := countVertexesForPolygon (c_str line)
    match parserVertexesForPolygon (α := α) (c_str line)
        (vertexesForPolygonMemoryAllocation heap j n) with
    | none => none
    | some vs =>
      let f : Facets := { vertexes := vs, numbers_of_vertexes_for_polygon := n }
      if j + 1 ≤ INT_MAX then
        some ({ d with array_of_polygon := d.array_of_polygon.set j f }, j + 1)
      else none
  else none

/-- Body of the `while` loop of `Model::secondReadParser`; the state is the data
with the counters `i` and `j`. -/
def secondReadLine (heap : Heap α) (st : Data α × Nat × Nat) (line : List Char) :
    Option (Data α × Nat × Nat) :=
  let afterV : Option (Data α × Nat × Nat) :=
    if isVertexLine line then
      (readVertex st.1 st.2.1 line).map fun r => (r.1, r.2, st.2.2)
    else some st
  afterV.bind fun s =>
    if isFaceLine line then
      (readFace heap s.1 s.2.2 line).map fun r => (r.1, s.2.1, r.2)
    else some s

/-- The method `Model::secondReadParser`; nothing happens when the stream is
not open. -/
def secondReadParser (heap : Heap α) (file : Option (List Char)) (d : Data α) :
    Option (Data α) :=
  match file with
  | none => some d
  | some content =>
    ((getlines content).foldlM (secondReadLine heap) (d, 1, 1)).map Prod.fst

/-- The method `Model::coreParser`. -/
def coreParser (heap : Heap α) (file : Option (List Char)) (d : Data α) : Option (Data α) :=
  secondReadParser heap file
    (polygonMemoryAllocation heap
      (createMatrixOfVertexes heap
        (firstReadParser file (initializeModel d))))

/-- The method `Model::releaseResources`: the storage is given back and the
sizes and counts are reset; the bounds are left as they are. -/
def releaseResources (d : Data α) : Data α :=
  { d with
    matrix_of_vertexes := { matrix := [], columns := 0, rows := 0 }
    array_of_polygon := []
    count_of_vertexes := 0
    count_of_polygons := 0 }

/-- A loop `for (i = lo; i < hi; ++i)` whose body rewrites row `matrix[i]`;
the second argument is the index of the head of the list. -/
def forRows (body : List α → List α) (lo hi : Nat) : Nat → List (List α) → List (List α)
  | _, [] => []
  | i, r :: rs => (if lo ≤ i ∧ i < hi then body r else r) :: forRows body lo hi (i + 1) rs

/-- The data after a loop over the rows `lo ≤ i < hi` of the vertex matrix. -/
def Data.loopRows (d : Data α) (lo hi : Nat) (body : List α → List α) : Data α :=
  { d with matrix_of_vertexes :=
      { d.matrix_of_vertexes with
        matrix := forRows body lo hi 0 d.matrix_of_vertexes.matrix } }

/-- The divisor of the scale computed by `Model::setInCenter`: the largest of
the three extents of the bounding box. -/
def Data.span (d : Data α) : α :=
  fmax (fmax (d.maxX - d.minX) (d.maxY - d.minY)) (d.maxZ - d.minZ)

/-- The method `Model::setInCenter`.  The scale is a quotient of doubles that is
formed before anything else and without a test of the divisor; a quotient by
zero is an infinity or a NaN, which the numbers of this model do not have, so
the call has no result (`none`) exactly when the divisor is zero. -/
def setInCenter (d : Data α) : Option (Data α) :=
  if d.span = 0 then none
  else
    let zoom : α := (3 / 2 - (3 / 2 * (-1))) / d.span
    let center_x := d.minX + (d.maxX - d.minX) / 2
    let center_y := d.minY + (d.maxY - d.minY) / 2
    let center_z := d.minZ + (d.maxZ - d.minZ) / 2
    some (d.loopRows 1 (d.count_of_vertexes + 1) fun r =>
      ((r.set 0 ((r.getD 0 0 - center_x) * zoom)).set 1
        ((r.getD 1 0 - center_y) * zoom)).set 2 ((r.getD 2 0 - center_z) * zoom))

/-- The method `Affine::movingX`. -/
def movingX (a : α) (d : Data α) : Data α :=
  d.loopRows 1 d.matrix_of_vertexes.rows fun r => r.set 0 (r.getD 0 0 + a)

/-- The method `Affine::movingY`. -/
def movingY (a : α) (d : Data α) : Data α :=
  d.loopRows 1 d.matrix_of_vertexes.rows fun r => r.set 1 (r.getD 1 0 + a)

/-- The method `Affine::movingZ`. -/
def movingZ (a : α) (d : Data α) : Data α :=
  d.loopRows 1 d.matrix_of_vertexes.rows fun r => r.set 2 (r.getD 2 0 + a)

/-- The method `Affine::rotationX`; `cos` and `sin` are the library functions. -/
def rotationX (cos sin : α → α) (a : α) (d : Data α) : Data α :=
  d.loopRows 1 d.matrix_of_vertexes.rows fun r =>
    let temp_y := r.getD 1 0
    let temp_z := r.getD 2 0
    (r.set 1 (cos a * temp_y - sin a * temp_z)).set 2 (sin a * temp_y + cos a * temp_z)

/-- The method `Affine::rotationY`. -/
def rotationY (cos sin : α → α) (a : α) (d : Data α) : Data α :=
  d.loopRows 1 d.matrix_of_vertexes.rows fun r =>
    let temp_x := r.getD 0 0
    let temp_z := r.getD 2 0
    (r.set 0 (cos a * temp_x + sin a * temp_z)).set 2 (-sin a * temp_x + cos a * temp_z)

/-- The method `Affine::rotationZ`. -/
def rotationZ (cos sin : α → α) (a : α) (d : Data α) : Data α :=
  d.loopRows 1 d.matrix_of_vertexes.rows fun r =>
    let temp_x := r.getD 0 0
    let temp_y := r.getD 1 0
    (r.set 0 (cos a * temp_x - sin a * temp_y)).set 1 (sin a * temp_x + cos a * temp_y)

/-- The inner loop of `Affine::scaling` on one row:
`for (j = 0; j < columns; ++j) matrix[i][j] *= a`. -/
def scaleRow (columns : Nat) (a : α) (r : List α) : List α :=
  (List.range columns).foldl (fun r j => r.set j (r.getD j 0 * a)) r

/-- The method `Affine::scaling`. -/
def scaling (a : α) (d : Data α) : Data α :=
  if 0 < a then
    d.loopRows 1 d.matrix_of_vertexes.rows (scaleRow d.matrix_of_vertexes.columns a)
  else d

/-- The method `Affine::affineTransform` on `double transform_data[3][3]`. -/
def affineTransform (cos sin : α → α) (transform_data : Fin 3 → Fin 3 → α) (d : Data α) :
    Data α :=
  scaling (transform_data 2 0)
    (rotationZ cos sin (transform_data 1 2)
      (rotationY cos sin (transform_data 1 1)
        (rotationX cos sin (transform_data 1 0)
          (movingZ (transform_data 0 2)
            (movingY (transform_data 0 1)
              (movingX (transform_data 0 0) d))))))

end Model

section Properties

variable {α : Type}

/-- Two states of the data with the same counts and the same allocation sizes. -/
def SameShape (d d' : Data α) : Prop :=
  d'.count_of_vertexes = d.count_of_vertexes ∧ d'.count_of_polygons = d.count_of_polygons ∧
  d'.matrix_of_vertexes.rows = d.matrix_of_vertexes.rows ∧
  d'.matrix_of_vertexes.columns = d.matrix_of_vertexes.columns ∧
  d'.matrix_of_vertexes.matrix.length = d.matrix_of_vertexes.matrix.length ∧
  d'.array_of_polygon.length = d.array_of_polygon.length

/-- The shape of the vertex table that `coreParser` leaves behind: one row per
vertex after the unused row `0`, three columns in every row. -/
def Data.WellFormed (d : Data α) : Prop :=
  d.matrix_of_vertexes.rows = d.count_of_vertexes + 1 ∧
  d.matrix_of_vertexes.matrix.length = d.matrix_of_vertexes.rows ∧
  d.matrix_of_vertexes.columns = 3 ∧
  ∀ r ∈ d.matrix_of_vertexes.matrix, r.length = 3

/-- The values that the loop of `parserVertexesForPolygon` stores for a list of
tokens, in order: the converted tokens that are not zero. -/
def keptIndices (α : Type) [LinearOrderedField α] [FloorRing α] (toks : List (List Char)) :
    List Nat :=
  (toks.map fun tok => toUInt (atof tok : α)).filter (fun v => v != 0)

/-- The upper bound of the bounding box on axis `c` (`0`, `1`, `2` for X, Y, Z). -/
def Data.maxAt {α : Type} (d : Data α) : Nat → α
  | 0 => d.maxX
  | 1 => d.maxY
  | _ => d.maxZ

/-- The lower bound of the bounding box on axis `c` (`0`, `1`, `2` for X, Y, Z). -/
def Data.minAt {α : Type} (d : Data α) : Nat → α
  | 0 => d.minX
  | 1 => d.minY
  | _ => d.minZ

/-- Files small enough for the `int` counters of the fill pass: fewer than
`INT_MAX` lines, none longer than `INT_MAX` characters. -/
def InRange (content : List Char) : Prop :=
  (getlines content).length < INT_MAX ∧ ∀ l ∈ getlines content, l.length ≤ INT_MAX

/-- Storage that reads as zero when it is allocated, for running the model. -/
def zeroHeap : Heap ℚ :=
  { dbl := fun _ _ => 0, uint := fun _ _ => 0, facet := fun _ => ⟨[], 0⟩ }

/-- A mesh before any load, for running the model. -/
def blankData : Data ℚ := initializeModel ⟨0, 0, ⟨[], 0, 0⟩, [], 0, 0, 0, 0, 0, 0⟩

/-- A mesh of two vertices, for running the transforms. -/
def sampleMesh : Data ℚ :=
  { count_of_vertexes := 2
    count_of_polygons := 0
    matrix_of_vertexes := { matrix := [[0, 0, 0], [1, 2, 3], [-1, 0, 4]], rows := 3, columns := 3 }
    array_of_polygon := [⟨[], 0⟩]
    minX := -1
    minY := 0
    minZ := 3
    maxX := 1
    maxY := 2
    maxZ := 4 }

/-- A rational stand-in for the cosine, for running the rotations:
`(1 - a ^ 2) / (1 + a ^ 2)`, the cosine of the angle with half-angle tangent `a`. -/
def sampleCos (a : ℚ) : ℚ := (1 - a ^ 2) / (1 + a ^ 2)

/-- The sine that goes with `sampleCos`: `2 a / (1 + a ^ 2)`. -/
def sampleSin (a : ℚ) : ℚ := 2 * a / (1 + a ^ 2)

/-- A parameter block for running `affineTransform`. -/
def sampleBlock (u v : ℚ) : Fin 3 → Fin 3 → ℚ :=
  fun i j => if i = 0 then 1 else if i = 1 then 0 else if j = 0 then 2 else if j = 1 then u else v

/-- Two states of the data that differ at most in the vertex matrix: same
counts, same faces, same six bounds. -/
def SameFrame {α : Type} (d d' : Data α) : Prop :=
  d'.count_of_vertexes = d.count_of_vertexes ∧ d'.count_of_polygons = d.count_of_polygons ∧
  d'.array_of_polygon = d.array_of_polygon ∧
  d'.minX = d.minX ∧ d'.minY = d.minY ∧ d'.minZ = d.minZ ∧
  d'.maxX = d.maxX ∧ d'.maxY = d.maxY ∧ d'.maxZ = d.maxZ

/-- A mesh of two vertices with real coordinates, for running the rotations. -/
def realMesh : Data ℝ :=
  { count_of_vertexes := 2
    count_of_polygons := 0
    matrix_of_vertexes := { matrix := [[0, 0, 0], [1, 2, 3], [-1, 0, 4]], rows := 3, columns := 3 }
    array_of_polygon := [⟨[], 0⟩]
    minX := -1
    minY := 0
    minZ := 3
    maxX := 1
    maxY := 2
    maxZ := 4 }

/-- A line that one of the two passes acts on: it starts with `"v "` or with
`"f "`. -/
def isMarkerLine (line : List Char) : Bool := isVertexLine line || isFaceLine line

/-- A vertex line that carries three numbers after the marker. -/
def WellFormedVertexLine (α : Type) [LinearOrderedField α] (l : List Char) : Prop :=
  (scanDoubles 3 ((c_str l).drop 1) : List α).length = 3

/-- A face line in which every token after the marker converts to an index that
is not zero. -/
def WellFormedFaceLine (α : Type) [LinearOrderedField α] [FloorRing α] (l : List Char) : Prop :=
  ∀ t ∈ (strtokAll (c_str l)).tail, toUInt (atof t : α) ≠ 0

/-- A file of well-formed vertex and face lines; the other lines are free. -/
def WellFormedFile (α : Type) [LinearOrderedField α] [FloorRing α] (content : List Char) :
    Prop :=
  ∀ l ∈ getlines content, (isVertexLine l = true → WellFormedVertexLine α l) ∧
    (isFaceLine l = true → WellFormedFaceLine α l)

/-- Storage that holds old values when it is allocated, for running the model. -/
def staleHeap : Heap ℚ :=
  { dbl := fun _ _ => 7, uint := fun _ _ => 9, facet := fun _ => ⟨[5], 4⟩ }

/-- A token written whole in decimal floating notation: an optional sign,
digits with an optional fraction, an optional exponent, and nothing after. -/
def isFloatToken (t : List Char) : Bool :=
  let sg := readSign t
  let ip := sg.2.takeWhile isdigit
  let fr := readFraction (sg.2.dropWhile isdigit)
  !(ip.isEmpty && fr.1.isEmpty) && (readExponent fr.2).2.isEmpty

/-- A token of a face line that starts with a vertex index and goes on, if it
goes on, with a slash (`7`, `7/2`, `7/2/5`, `7//5`): the index is a run of
decimal digits with a value between `1` and `2 ^ 32 - 1`. -/
def isIndexGroup (t : List Char) : Bool :=
  !(t.takeWhile isdigit).isEmpty &&
    ((t.dropWhile isdigit).isEmpty || (t.dropWhile isdigit).head? == some '/') &&
    decide (0 < decValue (t.takeWhile isdigit)) &&
    decide (decValue (t.takeWhile isdigit) < UINT_MOD)

end Properties

/-! ## The words of the specification: transforms (§4.3), lines and tokens (§4.2, §8) -/

section Specification

variable {α : Type} [LinearOrderedField α]

/-- The axes X, Y, Z. -/
inductive Axis where
  | X
  | Y
  | Z
deriving DecidableEq, Repr

namespace Spec

/-- "Each iterating all vertices with logical index `1..vertexCount` inclusive":
the vertex `(x, y, z)` at each such index is replaced by its image. -/
def onVertices (d : Data α) (f : α → α → α → List α) : Data α :=
  d.loopRows 1 (d.count_of_vertexes + 1) fun r =>
    match r with
    | [x, y, z] => f x y z
    | r => r

/-- "Adds `delta` to every vertex's coordinate on the given axis." -/
def translateAxis (d : Data α) (axis : Axis) (delta : α) : Data α :=
  match axis with
  | .X => onVertices d fun x y z => [x + delta, y, z]
  | .Y => onVertices d fun x y z => [x, y + delta, z]
  | .Z => onVertices d fun x y z => [x, y, z + delta]

/-- "For the two coordinates orthogonal to `axis`, applies a standard 2D rotation
by `angleRadians`", with the three formulas of the specification. -/
def rotateAxis (cos sin : α → α) (d : Data α) (axis : Axis) (a : α) : Data α :=
  match axis with
  | .X => onVertices d fun x y z => [x, cos a * y - sin a * z, sin a * y + cos a * z]
  | .Y => onVertices d fun x y z => [cos a * x + sin a * z, y, -sin a * x + cos a * z]
  | .Z => onVertices d fun x y z => [cos a * x - sin a * y, sin a * x + cos a * y, z]

/-- "If `factor > 0`, multiplies every coordinate of every vertex by `factor`; if
`factor <= 0`, the call is a deliberate no-op." -/
def scale (d : Data α) (factor : α) : Data α :=
  if factor > 0 then onVertices d fun x y z => [x * factor, y * factor, z * factor]
  else d

/-- "Applies, in this exact order: translateX, translateY, translateZ, rotateX,
rotateY, rotateZ, scale", on the block `[[tx, ty, tz], [rx, ry, rz], [s, _, _]]`. -/
def applyAffine (cos sin : α → α) (d : Data α) (p : Fin 3 → Fin 3 → α) : Data α :=
  let d1 := translateAxis d .X (p 0 0)
  let d2 := translateAxis d1 .Y (p 0 1)
  let d3 := translateAxis d2 .Z (p 0 2)
  let d4 := rotateAxis cos sin d3 .X (p 1 0)
  let d5 := rotateAxis cos sin d4 .Y (p 1 1)
  let d6 := rotateAxis cos sin d5 .Z (p 1 2)
  scale d6 (p 2 0)

/-- "Lines matching `v <float> <float> <float>`" (§8): the marker, then exactly
three tokens, each a number. -/
def matchesVertex (l : List Char) : Bool :=
  isVertexLine l &&
    match strtokAll l with
    | [_, x, y, z] => isFloatToken x && isFloatToken y && isFloatToken z
    | _ => false

/-- "Lines matching `f ...` with ≥3 tokens after the marker" (§8). -/
def matchesFace (l : List Char) : Bool :=
  isFaceLine l && decide (3 ≤ (strtokAll l).tail.length)

/-- One scan of a text that is cut at the characters marked by `sep`, right to
left: the token being built and the finished tokens. -/
def tokensScan (sep : Char → Bool) : List Char → List Char × List (List Char)
  | [] => ([], [])
  | c :: cs =>
    let r := tokensScan sep cs
    if sep c then ([], if r.1 = [] then r.2 else r.1 :: r.2)
    else (c :: r.1, r.2)

/-- "Tokenize by whitespace" (§4.2): the maximal runs of characters that are not
white space. -/
def whitespaceTokens (s : List Char) : List (List Char) :=
  let r := tokensScan isspace s
  if r.1 = [] then r.2 else r.1 :: r.2

/-- "The numeric values of exactly those tokens whose numeric parse is nonzero",
with the value that `atof` gives as the numeric parse of a token. -/
def nonzeroParses (toks : List (List Char)) : List α :=
  (toks.map fun t => (atof t : α)).filter (fun v => v != 0)

/-- "The groups' leading vertex indices": of each token, the value of the
decimal digits that it starts with. -/
def leadingIndices (toks : List (List Char)) : List Nat :=
  toks.map fun t => decValue (t.takeWhile isdigit)

end Spec

end Specification

/-! ## The two passes of the loader -/

section Plain

variable {α β : Type}

theorem SameShape.refl (d : Data α) : SameShape d d := ⟨rfl, rfl, rfl, rfl, rfl, rfl⟩

theorem SameShape.trans {a b c : Data α} (h1 : SameShape a b) (h2 : SameShape b c) :
    SameShape a c := by
  obtain ⟨p1, p2, p3, p4, p5, p6⟩ := h1
  obtain ⟨q1, q2, q3, q4, q5, q6⟩ := h2
  exact ⟨q1.trans p1, q2.trans p2, q3.trans p3, q4.trans p4, q5.trans p5, q6.trans p6⟩

theorem isFaceLine_of_isVertexLine {l : List Char} (h : isVertexLine l = true) :
    isFaceLine l = false := by
  simp only [isVertexLine, isFaceLine, beq_iff_eq] at *
  rw [h]; decide

theorem firstReadLine_counts (d : Data α) (l : List Char) :
    firstReadLine d l =
      { d with
        count_of_vertexes :=
          if isVertexLine l then (d.count_of_vertexes + 1) % UINT_MOD else d.count_of_vertexes
        count_of_polygons :=
          if isFaceLine l then (d.count_of_polygons + 1) % UINT_MOD else d.count_of_polygons } := by
  unfold firstReadLine
  by_cases hv : isVertexLine l <;> by_cases hf : isFaceLine l <;> simp [hv, hf]

theorem firstRead_fold (lines : List (List Char)) :
    ∀ d : Data α, d.count_of_vertexes < UINT_MOD → d.count_of_polygons < UINT_MOD →
      lines.foldl firstReadLine d =
        { d with
          count_of_vertexes := (d.count_of_vertexes + lines.countP isVertexLine) % UINT_MOD
          count_of_polygons := (d.count_of_polygons + lines.countP isFaceLine) % UINT_MOD } := by
  induction lines with
  | nil =>
    intro d hv hf
    simp [Nat.mod_eq_of_lt hv, Nat.mod_eq_of_lt hf]
  | cons l ls ih =>
    intro d hv hf
    have hM : 0 < UINT_MOD := by decide
    rw [List.foldl_cons, ih]
    · rw [firstReadLine_counts]
      by_cases h1 : isVertexLine l = true <;> by_cases h2 : isFaceLine l = true <;>
        simp [h1, h2, Nat.add_assoc, Nat.add_comm 1]
    · rw [firstReadLine_counts]
      by_cases h1 : isVertexLine l = true
      · simp only [h1, if_true]; exact Nat.mod_lt _ hM
      · simp only [h1]; exact hv
    · rw [firstReadLine_counts]
      by_cases h1 : isFaceLine l = true
      · simp only [h1, if_true]; exact Nat.mod_lt _ hM
      · simp only [h1]; exact hf

theorem length_storeScanned (xs : List β) : ∀ (k : Nat) (row : List β),
    (storeScanned xs k row).length = row.length := by
  induction xs with
  | nil => intro k row; rfl
  | cons v vs ih => intro k row; simp [storeScanned, ih]

theorem storeScanned_eq (xs : List β) : ∀ (k : Nat) (row : List β),
    k + xs.length ≤ row.length →
    storeScanned xs k row = row.take k ++ xs ++ row.drop (k + xs.length) := by
  induction xs with
  | nil => intro k row _; simp [storeScanned]
  | cons v vs ih =>
    intro k row h
    simp only [List.length_cons] at h
    rw [storeScanned, ih (k + 1) (row.set k v) (by simp; omega)]
    have hk : k < row.length := by omega
    rw [List.set_eq_take_append_cons_drop]
    simp only [hk, if_true]
    have e1 : (List.take k row ++ v :: List.drop (k + 1) row).take (k + 1)
        = List.take k row ++ [v] := by
      rw [List.take_append_eq_append_take]
      simp [List.length_take, Nat.min_eq_left (Nat.le_of_lt hk)]
    have e2 : (List.take k row ++ v :: List.drop (k + 1) row).drop (k + 1 + vs.length)
        = List.drop (k + (vs.length + 1)) row := by
      rw [List.drop_append_eq_append_drop]
      simp only [List.length_take, Nat.min_eq_left (Nat.le_of_lt hk)]
      have : k + 1 + vs.length - k = vs.length + 1 := by omega
      rw [this, List.drop_succ_cons, List.drop_drop]
      have h3 : List.drop (k + 1 + vs.length) (List.take k row) = [] := by
        apply List.drop_eq_nil_of_le; simp; omega
      rw [h3]
      simp
      congr 1; omega
    rw [e1, e2]
    simp

theorem storeScanned_full (xs row : List β) (h : xs.length = row.length) :
    storeScanned xs 0 row = xs := by
  rw [storeScanned_eq xs 0 row (by omega)]
  simp [h]

theorem tokenCount_fold (toks : List (List Char)) : ∀ c : Nat, c < UINT_MOD →
    toks.foldl (fun count _ => (count + 1) % UINT_MOD) c = (c + toks.length) % UINT_MOD := by
  induction toks with
  | nil => intro c hc; simp [Nat.mod_eq_of_lt hc]
  | cons t ts ih =>
    intro c _
    rw [List.foldl_cons, ih _ (Nat.mod_lt _ (by decide))]
    simp [Nat.add_assoc, Nat.add_comm 1]

theorem countVertexesForPolygon_eq (str : List Char) :
    countVertexesForPolygon str
      = ((strtokAll str).length % UINT_MOD + (UINT_MOD - 1)) % UINT_MOD := by
  unfold countVertexesForPolygon
  rw [tokenCount_fold _ 0 (by decide)]
  simp

theorem strtokAll_face (s : List Char) :
    strtokAll ('f' :: ' ' :: s) = ['f'] :: strtokAll s := by
  simp [strtokAll, strtokScan]

theorem c_str_face {l : List Char} (h : isFaceLine l = true) :
    ∃ s, c_str l = 'f' :: ' ' :: s := by
  simp only [isFaceLine, beq_iff_eq] at h
  match l, h with
  | c1 :: c2 :: t, h =>
    simp only [List.take_succ_cons, List.take_zero, List.cons.injEq, and_true] at h
    obtain ⟨h1, h2⟩ := h
    subst h1 h2
    exact ⟨c_str t, by simp [c_str, List.takeWhile]⟩

theorem length_strtokScan_le (s : List Char) :
    (strtokScan s).2.length + (if (strtokScan s).1 = [] then 0 else 1) ≤ s.length := by
  induction s with
  | nil => simp [strtokScan]
  | cons c cs ih =>
    simp only [strtokScan]
    by_cases hc : c = ' '
    · simp only [hc, if_true, List.length_cons]
      by_cases h1 : (strtokScan cs).1 = []
      · simp only [h1, if_true] at ih ⊢; omega
      · simp only [h1, if_false, List.length_cons] at ih ⊢; omega
    · simp only [hc, if_false, List.length_cons]
      by_cases h1 : (strtokScan cs).1 = []
      · simp only [h1, if_true] at ih; simp; omega
      · simp only [h1, if_false] at ih; simp; omega

theorem length_strtokAll_le (s : List Char) : (strtokAll s).length ≤ s.length := by
  have := length_strtokScan_le s
  unfold strtokAll
  by_cases h1 : (strtokScan s).1 = []
  · simp only [h1, if_true] at this ⊢; omega
  · simp only [h1, if_false, List.length_cons] at this ⊢; omega

theorem length_c_str_le (l : List Char) : (c_str l).length ≤ l.length := by
  unfold c_str
  exact (List.takeWhile_sublist _).length_le

theorem forRows_getElem? (body : List α → List α) (lo hi : Nat) (m : List (List α)) :
    ∀ (k n : Nat), (forRows body lo hi k m)[n]?
      = (m[n]?).map fun r => if lo ≤ k + n ∧ k + n < hi then body r else r := by
  induction m with
  | nil => intro k n; simp [forRows]
  | cons r rs ih =>
    intro k n
    cases n with
    | zero => simp [forRows]
    | succ n =>
      simp only [forRows, List.getElem?_cons_succ, ih (k + 1) n]
      have e : k + 1 + n = k + (n + 1) := by omega
      rw [e]

theorem length_forRows (body : List α → List α) (lo hi : Nat) (m : List (List α)) :
    ∀ k : Nat, (forRows body lo hi k m).length = m.length := by
  induction m with
  | nil => intro k; rfl
  | cons r rs ih => intro k; simp [forRows, ih]

theorem mem_forRows {body : List α → List α} {lo hi : Nat} {m : List (List α)} {k : Nat}
    {x : List α} (h : x ∈ forRows body lo hi k m) : ∃ r ∈ m, x = r ∨ x = body r := by
  obtain ⟨n, hn⟩ := List.getElem?_of_mem h
  rw [forRows_getElem?] at hn
  cases hr : m[n]? with
  | none => rw [hr] at hn; simp at hn
  | some r =>
    rw [hr] at hn
    simp only [Option.map_some', Option.some.injEq] at hn
    refine ⟨r, List.getElem?_mem hr, ?_⟩
    split at hn
    · exact Or.inr hn.symm
    · exact Or.inl hn.symm

theorem forRows_congr {body body' : List α → List α} (lo hi : Nat) (m : List (List α))
    (h : ∀ r ∈ m, body r = body' r) :
    ∀ k : Nat, forRows body lo hi k m = forRows body' lo hi k m := by
  induction m with
  | nil => intro k; rfl
  | cons r rs ih =>
    intro k
    simp only [forRows, h r (List.mem_cons_self _ _),
      ih (fun x hx => h x (List.mem_cons_of_mem _ hx)) (k + 1)]

theorem forRows_id (lo hi : Nat) (m : List (List α)) :
    ∀ k : Nat, forRows (fun r => r) lo hi k m = m := by
  induction m with
  | nil => intro k; rfl
  | cons r rs ih => intro k; simp [forRows, ih]

theorem not_isspace_of_isdigit {c : Char} (h : isdigit c = true) : isspace c = false := by
  simp only [isdigit, Bool.and_eq_true, decide_eq_true_eq] at h
  simp only [isspace, Bool.or_eq_false_iff, decide_eq_false_iff_not]
  refine ⟨⟨⟨⟨⟨?_, ?_⟩, ?_⟩, ?_⟩, ?_⟩, ?_⟩
  · intro e; rw [e] at h; revert h; decide
  · intro e; rw [e] at h; revert h; decide
  · intro e; rw [e] at h; revert h; decide
  · intro e; rw [e] at h; revert h; decide
  · omega
  · omega

theorem readSign_of_isdigit {c : Char} (t : List Char) (h : isdigit c = true) :
    readSign (c :: t) = (false, c :: t) := by
  unfold readSign
  split
  · rename_i s e
    simp only [List.cons.injEq] at e
    rw [e.1] at h; exact absurd h (by decide)
  · rename_i s e
    simp only [List.cons.injEq] at e
    rw [e.1] at h; exact absurd h (by decide)
  · rfl

theorem takeWhile_all {p : Char → Bool} (ds : List Char) (h : ∀ c ∈ ds, p c = true) :
    ds.takeWhile p = ds ∧ ds.dropWhile p = [] := by
  induction ds with
  | nil => simp
  | cons c t ih =>
    have hc := h c (List.mem_cons_self _ _)
    obtain ⟨i1, i2⟩ := ih (fun x hx => h x (List.mem_cons_of_mem _ hx))
    simp [List.takeWhile, List.dropWhile, hc, i1, i2]

theorem loopRows_row {d : Data α} (lo hi : Nat) (body : List α → List α) {i : Nat}
    {row : List α} (h : d.matrix_of_vertexes.matrix[i]? = some row) :
    (d.loopRows lo hi body).matrix_of_vertexes.matrix[i]?
      = some (if lo ≤ i ∧ i < hi then body row else row) := by
  simp [Data.loopRows, forRows_getElem?, h]

/-- A vertex of a well-formed mesh is a row of three coordinates. -/
theorem Data.WellFormed.row {d : Data α} (hw : d.WellFormed) {i : Nat}
    (hi : i ≤ d.count_of_vertexes) :
    ∃ x y z, d.matrix_of_vertexes.matrix[i]? = some [x, y, z] := by
  obtain ⟨h1, h2, -, h4⟩ := hw
  have hlt : i < d.matrix_of_vertexes.matrix.length := by omega
  have hlen := h4 _ (List.getElem_mem hlt)
  match hr : d.matrix_of_vertexes.matrix[i], hlen with
  | [x, y, z], _ => exact ⟨x, y, z, by rw [List.getElem?_eq_getElem hlt, hr]⟩

theorem Data.WellFormed.loopRows {d : Data α} (hw : d.WellFormed) (lo hi : Nat)
    {body : List α → List α} (hb : ∀ r : List α, r.length = 3 → (body r).length = 3) :
    (d.loopRows lo hi body).WellFormed := by
  obtain ⟨h1, h2, h3, h4⟩ := hw
  refine ⟨h1, ?_, h3, ?_⟩
  · simp only [Data.loopRows, length_forRows]; exact h2
  · intro x hx
    simp only [Data.loopRows] at hx
    obtain ⟨r, hr, e | e⟩ := mem_forRows hx
    · rw [e]; exact h4 r hr
    · rw [e]; exact hb r (h4 r hr)

/-- Two loop bodies that agree on rows of three coordinates give the same
result on a well-formed mesh. -/
theorem Data.WellFormed.loopRows_congr {d : Data α} (hw : d.WellFormed) (lo hi : Nat)
    {body body' : List α → List α} (hb : ∀ x y z : α, body [x, y, z] = body' [x, y, z]) :
    d.loopRows lo hi body = d.loopRows lo hi body' := by
  obtain ⟨-, -, -, h4⟩ := hw
  simp only [Data.loopRows]
  rw [forRows_congr lo hi _ _ 0]
  intro r hr
  match r, h4 r hr with
  | [x, y, z], _ => exact hb x y z

theorem forRows_forRows (f g : List α → List α) (lo hi : Nat) (m : List (List α)) :
    ∀ k : Nat, forRows g lo hi k (forRows f lo hi k m) = forRows (fun r => g (f r)) lo hi k m := by
  induction m with
  | nil => intro k; rfl
  | cons r rs ih =>
    intro k
    simp only [forRows, ih (k + 1)]
    by_cases h : lo ≤ k ∧ k < hi <;> simp [h]

theorem forRows_of_le (body : List α → List α) {lo hi : Nat} (h : hi ≤ lo)
    (m : List (List α)) : ∀ k : Nat, forRows body lo hi k m = m := by
  induction m with
  | nil => intro k; rfl
  | cons r rs ih =>
    intro k
    have : ¬ (lo ≤ k ∧ k < hi) := by omega
    simp [forRows, this, ih (k + 1)]

theorem loopRows_loopRows (d : Data α) (lo hi : Nat) (f g : List α → List α) :
    (d.loopRows lo hi f).loopRows lo hi g = d.loopRows lo hi fun r => g (f r) := by
  simp only [Data.loopRows, forRows_forRows]

theorem loopRows_self (d : Data α) (lo hi : Nat) : d.loopRows lo hi (fun r => r) = d := by
  simp only [Data.loopRows, forRows_id]

theorem loopRows_of_le (d : Data α) {lo hi : Nat} (h : hi ≤ lo) (body : List α → List α) :
    d.loopRows lo hi body = d := by
  simp only [Data.loopRows, forRows_of_le body h]

/-- A loop whose body returns every row of three coordinates as it was leaves a
well-formed mesh as it was. -/
theorem Data.WellFormed.loopRows_fix {d : Data α} (hw : d.WellFormed) (lo hi : Nat)
    {body : List α → List α} (hb : ∀ x y z : α, body [x, y, z] = [x, y, z]) :
    d.loopRows lo hi body = d := by
  have e : d.loopRows lo hi body = d.loopRows lo hi fun r => r := hw.loopRows_congr lo hi hb
  rw [e, loopRows_self]

theorem sameFrame_refl (d : Data α) : SameFrame d d :=
  ⟨rfl, rfl, rfl, rfl, rfl, rfl, rfl, rfl, rfl⟩

theorem sameFrame_trans {a b c : Data α} (h1 : SameFrame a b) (h2 : SameFrame b c) :
    SameFrame a c := by
  obtain ⟨p1, p2, p3, p4, p5, p6, p7, p8, p9⟩ := h1
  obtain ⟨q1, q2, q3, q4, q5, q6, q7, q8, q9⟩ := h2
  exact ⟨q1.trans p1, q2.trans p2, q3.trans p3, q4.trans p4, q5.trans p5, q6.trans p6,
    q7.trans p7, q8.trans p8, q9.trans p9⟩

theorem sameFrame_loopRows (d : Data α) (lo hi : Nat) (body : List α → List α) :
    SameFrame d (d.loopRows lo hi body) :=
  ⟨rfl, rfl, rfl, rfl, rfl, rfl, rfl, rfl, rfl⟩

theorem rows_one {m : List β} {a : β} (hl : m.length = 2) (h1 : m[1]? = some a) :
    (m.drop 1).take 1 = [a] := by
  match m, hl with
  | [x, y], _ =>
    simp only [List.getElem?_cons_succ, List.getElem?_cons_zero, Option.some.injEq] at h1
    subst h1
    rfl

theorem rows_two {m : List β} {a b : β} (hl : m.length = 3) (h1 : m[1]? = some a)
    (h2 : m[2]? = some b) : (m.drop 1).take 2 = [a, b] := by
  match m, hl with
  | [x, y, z], _ =>
    simp only [List.getElem?_cons_succ, List.getElem?_cons_zero, Option.some.injEq] at h1 h2
    subst h1 h2
    rfl

theorem countP_filter_marker (lines : List (List Char)) :
    (lines.filter isMarkerLine).countP isVertexLine = lines.countP isVertexLine ∧
    (lines.filter isMarkerLine).countP isFaceLine = lines.countP isFaceLine := by
  induction lines with
  | nil => exact ⟨rfl, rfl⟩
  | cons l ls ih =>
    by_cases hv : isVertexLine l = true
    · have hf := isFaceLine_of_isVertexLine hv
      have hm : isMarkerLine l = true := by simp [isMarkerLine, hv]
      rw [List.filter_cons_of_pos hm, List.countP_cons_of_pos _ _ hv,
        List.countP_cons_of_pos _ _ hv, List.countP_cons_of_neg _ _ (by simp [hf]),
        List.countP_cons_of_neg _ _ (by simp [hf]), ih.1, ih.2]
      exact ⟨rfl, rfl⟩
    · have hv' : isVertexLine l = false := by simpa using hv
      by_cases hf : isFaceLine l = true
      · have hm : isMarkerLine l = true := by simp [isMarkerLine, hf]
        rw [List.filter_cons_of_pos hm, List.countP_cons_of_pos _ _ hf,
          List.countP_cons_of_pos _ _ hf, List.countP_cons_of_neg _ _ (by simp [hv']),
          List.countP_cons_of_neg _ _ (by simp [hv']), ih.1, ih.2]
        exact ⟨rfl, rfl⟩
      · have hf' : isFaceLine l = false := by simpa using hf
        have hm : ¬ isMarkerLine l = true := by simp [isMarkerLine, hv', hf']
        rw [List.filter_cons_of_neg hm, List.countP_cons_of_neg _ _ (by simp [hv']),
          List.countP_cons_of_neg _ _ (by simp [hf'])]
        exact ih

theorem getElem?_rows (m : List (List α)) (n k : Nat) :
    ((m.drop 1).take n)[k]? = if k < n then m[k + 1]? else none := by
  rw [List.getElem?_take]
  split
  · rw [List.getElem?_drop, Nat.add_comm]
  · rfl

end Plain

section Ordered

variable {α : Type} [LinearOrderedField α]

theorem readVertex_eq_some {d : Data α} {i : Nat} {line : List Char} {r : Data α × Nat}
    (h : readVertex d i line = some r) :
    ∃ row, d.matrix_of_vertexes.matrix[i]? = some row ∧ i + 1 ≤ INT_MAX ∧ r.2 = i + 1 ∧
      r.1 = minMax { d with matrix_of_vertexes :=
        { d.matrix_of_vertexes with
          matrix := d.matrix_of_vertexes.matrix.set i (sscanfVertex line row) } } i := by
  unfold readVertex at h
  split at h
  · simp at h
  · rename_i row hrow
    refine ⟨row, hrow, ?_⟩
    split at h
    · rename_i hi
      simp only [Option.some.injEq] at h
      subst h
      exact ⟨hi, rfl, rfl⟩
    · simp at h

theorem readVertex_shape {d : Data α} {i : Nat} {line : List Char} {r : Data α × Nat}
    (h : readVertex d i line = some r) :
    SameShape d r.1 ∧ r.2 = i + 1 ∧ i < d.matrix_of_vertexes.matrix.length ∧ i + 1 ≤ INT_MAX := by
  obtain ⟨row, hrow, hi, h2, h1⟩ := readVertex_eq_some h
  have hlt : i < d.matrix_of_vertexes.matrix.length := by
    rcases List.getElem?_eq_some_iff.1 hrow with ⟨hlt, _⟩
    exact hlt
  refine ⟨?_, h2, hlt, hi⟩
  rw [h1]
  simp [SameShape, minMax]

theorem readVertex_some {d : Data α} {i : Nat} (line : List Char)
    (h1 : i < d.matrix_of_vertexes.matrix.length) (h2 : i + 1 ≤ INT_MAX) :
    ∃ r, readVertex d i line = some r := by
  unfold readVertex
  rw [List.getElem?_eq_getElem h1]
  simp [h2]

/-- The data handed to the fill pass: counts from the count pass, tables
allocated from them. -/
theorem allocated_eq (heap : Heap α) (content : List Char) (d : Data α) :
    (polygonMemoryAllocation heap (createMatrixOfVertexes heap
        (firstReadParser (some content) (initializeModel d)))).count_of_vertexes
      = (getlines content).countP isVertexLine % UINT_MOD ∧
    (polygonMemoryAllocation heap (createMatrixOfVertexes heap
        (firstReadParser (some content) (initializeModel d)))).count_of_polygons
      = (getlines content).countP isFaceLine % UINT_MOD ∧
    (polygonMemoryAllocation heap (createMatrixOfVertexes heap
        (firstReadParser (some content) (initializeModel d)))).matrix_of_vertexes.matrix.length
      = ((getlines content).countP isVertexLine % UINT_MOD + 1) % UINT_MOD ∧
    (polygonMemoryAllocation heap (createMatrixOfVertexes heap
        (firstReadParser (some content) (initializeModel d)))).array_of_polygon.length
      = ((getlines content).countP isFaceLine % UINT_MOD + 1) % UINT_MOD ∧
    (polygonMemoryAllocation heap (createMatrixOfVertexes heap
        (firstReadParser (some content) (initializeModel d)))).matrix_of_vertexes.rows
      = ((getlines content).countP isVertexLine % UINT_MOD + 1) % UINT_MOD ∧
    (polygonMemoryAllocation heap (createMatrixOfVertexes heap
        (firstReadParser (some content) (initializeModel d)))).matrix_of_vertexes.columns = 3 := by
  have h := firstRead_fold (getlines content) (initializeModel d)
    (by simp [initializeModel, UINT_MOD]) (by simp [initializeModel, UINT_MOD])
  simp only [firstReadParser, h]
  simp [polygonMemoryAllocation, createMatrixOfVertexes, initializeModel]

theorem readVertex_matrix {d : Data α} {i : Nat} {line : List Char} {r : Data α × Nat}
    (h : readVertex d i line = some r) :
    ∃ row, d.matrix_of_vertexes.matrix[i]? = some row ∧ r.2 = i + 1 ∧
      r.1.matrix_of_vertexes.matrix = d.matrix_of_vertexes.matrix.set i (sscanfVertex line row) ∧
      r.1.array_of_polygon = d.array_of_polygon := by
  obtain ⟨row, hrow, -, h2, h1⟩ := readVertex_eq_some h
  exact ⟨row, hrow, h2, by rw [h1]; rfl, by rw [h1]; rfl⟩

theorem length_sscanfVertex (line : List Char) (row : List α) :
    (sscanfVertex line row).length = row.length := by
  unfold sscanfVertex
  exact length_storeScanned _ _ _

theorem allocated_row (heap : Heap α) (content : List Char) (d : Data α) (i : Nat)
    (h : i < ((getlines content).countP isVertexLine % UINT_MOD + 1) % UINT_MOD) :
    (polygonMemoryAllocation heap (createMatrixOfVertexes heap
        (firstReadParser (some content) (initializeModel d)))).matrix_of_vertexes.matrix[i]?
      = some [heap.dbl i 0, heap.dbl i 1, heap.dbl i 2] := by
  have e := firstRead_fold (getlines content) (initializeModel d)
    (by simp [initializeModel, UINT_MOD]) (by simp [initializeModel, UINT_MOD])
  simp only [firstReadParser, e]
  simp only [polygonMemoryAllocation, createMatrixOfVertexes, initializeModel, Nat.zero_add]
  rw [List.getElem?_map, List.getElem?_range h]
  rfl

theorem coord_eq_of_getElem? {d d' : Data α} {i : Nat}
    (h : d'.matrix_of_vertexes.matrix[i]? = d.matrix_of_vertexes.matrix[i]?) (c : Nat) :
    d'.coord i c = d.coord i c := by
  simp only [Data.coord, List.getD_eq_getElem?_getD, h]

theorem readVertex_bounds {d : Data α} {i : Nat} {line : List Char} {r : Data α × Nat}
    (h : readVertex d i line = some r) (c : Nat) (hc : c < 3) :
    r.1.maxAt c = fmax (r.1.coord i c) (d.maxAt c) ∧
    r.1.minAt c = fmin (r.1.coord i c) (d.minAt c) := by
  obtain ⟨row, -, -, -, h1⟩ := readVertex_eq_some h
  rw [h1]
  interval_cases c <;> exact ⟨rfl, rfl⟩

theorem DBL_MIN_pos : (0 : α) < DBL_MIN := by
  unfold DBL_MIN; positivity

/-- A run of decimal digits converts to its decimal value. -/
theorem atof_digits {ds : List Char} (hne : ds ≠ []) (h : ∀ c ∈ ds, isdigit c = true) :
    (atof ds : α) = (decValue ds : α) := by
  match ds, hne, h with
  | c :: t, _, h =>
    have hc := h c (List.mem_cons_self _ _)
    have hsp : (c :: t).dropWhile isspace = c :: t := by
      simp [List.dropWhile, not_isspace_of_isdigit hc]
    obtain ⟨e1, e2⟩ := takeWhile_all (p := isdigit) (c :: t) h
    simp only [atof, strtod, hsp, readSign_of_isdigit t hc, e1, e2, readFraction]
    simp [readExponent]

theorem scanDoubles_run1 :
    scanDoubles 3 ((c_str "v -1 -2 -3".data).drop 1) = ([-1, -2, -3] : List α) := by
  have h1 : List.drop 1 (c_str "v -1 -2 -3".data) = " -1 -2 -3".data := by decide
  rw [h1]
  simp [scanDoubles, strtod, readSign, readFraction, readExponent, decValue, isspace,
    isdigit]

theorem DBL_MIN_lt_one : (DBL_MIN : α) < 1 := by
  unfold DBL_MIN
  rw [div_lt_one (by positivity)]
  exact one_lt_pow₀ (by norm_num) (by norm_num)

theorem DBL_MAX_gt : (2 ^ 53 - 1 : α) ≤ DBL_MAX := by
  unfold DBL_MAX
  have h1 : (1 : α) ≤ 2 ^ 971 := one_le_pow₀ (by norm_num)
  have h2 : (0 : α) ≤ 2 ^ 53 - 1 := by norm_num
  nlinarith

theorem fmax_DBL_MIN {x : α} (h : DBL_MIN ≤ x) : fmax x DBL_MIN = x := by
  simp [fmax, not_lt.2 h]

theorem fmax_DBL_MIN_of_neg {x : α} (h : x < 0) : fmax x DBL_MIN = DBL_MIN := by
  simp [fmax, h.trans DBL_MIN_pos]

theorem fmin_DBL_MAX {x : α} (h : x ≤ DBL_MAX) : fmin x DBL_MAX = x := by
  simp [fmin, not_lt.2 h]

theorem scanDoubles_run2 :
    scanDoubles 3 ((c_str "v -1 -1 -1".data).drop 1) = ([-1, -1, -1] : List α) ∧
    scanDoubles 3 ((c_str "v -3 -1 -1".data).drop 1) = ([-3, -1, -1] : List α) := by
  have h1 : List.drop 1 (c_str "v -1 -1 -1".data) = " -1 -1 -1".data := by decide
  have h2 : List.drop 1 (c_str "v -3 -1 -1".data) = " -3 -1 -1".data := by decide
  rw [h1, h2]
  constructor <;>
  simp [scanDoubles, strtod, readSign, readFraction, readExponent, decValue, isspace, isdigit]

theorem scanDoubles_run3 :
    scanDoubles 3 ((c_str "v 1 1 1".data).drop 1) = ([1, 1, 1] : List α) ∧
    scanDoubles 3 ((c_str "v 1 2 3".data).drop 1) = ([1, 2, 3] : List α) ∧
    scanDoubles 3 ((c_str "v 3 6 4".data).drop 1) = ([3, 6, 4] : List α) := by
  have h1 : List.drop 1 (c_str "v 1 1 1".data) = " 1 1 1".data := by decide
  have h2 : List.drop 1 (c_str "v 1 2 3".data) = " 1 2 3".data := by decide
  have h3 : List.drop 1 (c_str "v 3 6 4".data) = " 3 6 4".data := by decide
  rw [h1, h2, h3]
  refine ⟨?_, ?_, ?_⟩ <;>
  simp [scanDoubles, strtod, readSign, readFraction, readExponent, decValue, isspace, isdigit]

theorem DBL_range_small {x : α} (h1 : 1 ≤ x) (h2 : x ≤ 100) : DBL_MIN ≤ x ∧ x ≤ DBL_MAX :=
  ⟨le_trans (le_of_lt DBL_MIN_lt_one) h1,
    le_trans h2 (le_trans (by norm_num) (DBL_MAX_gt (α := α)))⟩

/-- The tables handed to the fill pass depend on the file through the numbers of
vertex lines and of face lines only. -/
theorem allocated_congr (heap : Heap α) (c1 c2 : List Char) (d1 d2 : Data α)
    (hv : (getlines c1).countP isVertexLine = (getlines c2).countP isVertexLine)
    (hf : (getlines c1).countP isFaceLine = (getlines c2).countP isFaceLine) :
    polygonMemoryAllocation heap (createMatrixOfVertexes heap
        (firstReadParser (some c1) (initializeModel d1)))
      = polygonMemoryAllocation heap (createMatrixOfVertexes heap
        (firstReadParser (some c2) (initializeModel d2))) := by
  have e1 := firstRead_fold (getlines c1) (initializeModel d1)
    (by simp [initializeModel, UINT_MOD]) (by simp [initializeModel, UINT_MOD])
  have e2 := firstRead_fold (getlines c2) (initializeModel d2)
    (by simp [initializeModel, UINT_MOD]) (by simp [initializeModel, UINT_MOD])
  simp only [firstReadParser, e1, e2, hv, hf]
  rfl

end Ordered

section Loader

variable {α : Type} [LinearOrderedField α] [FloorRing α]

theorem readFace_eq_some {heap : Heap α} {d : Data α} {j : Nat} {line : List Char}
    {r : Data α × Nat} (h : readFace heap d j line = some r) :
    ∃ vs, j < d.array_of_polygon.length ∧ j + 1 ≤ INT_MAX ∧ r.2 = j + 1 ∧
      parserVertexesForPolygon (α := α) (c_str line)
        (vertexesForPolygonMemoryAllocation heap j (countVertexesForPolygon (c_str line)))
        = some vs ∧
      r.1 = { d with array_of_polygon :=
                d.array_of_polygon.set j ⟨vs, countVertexesForPolygon (c_str line)⟩ } := by
  simp only [readFace] at h
  by_cases hj : j < d.array_of_polygon.length
  · rw [if_pos hj] at h
    cases hp : parserVertexesForPolygon (α := α) (c_str line)
        (vertexesForPolygonMemoryAllocation heap j (countVertexesForPolygon (c_str line))) with
    | none => rw [hp] at h; simp at h
    | some vs =>
      rw [hp] at h
      by_cases hj1 : j + 1 ≤ INT_MAX
      · simp only [hj1, if_true, Option.some.injEq] at h
        subst h
        exact ⟨vs, hj, hj1, rfl, rfl, rfl⟩
      · simp [hj1] at h
  · rw [if_neg hj] at h; simp at h

theorem secondReadLine_vertex (heap : Heap α) (d : Data α) (i j : Nat) {l : List Char}
    (h : isVertexLine l = true) :
    secondReadLine heap (d, i, j) l = (readVertex d i l).map fun r => (r.1, r.2, j) := by
  have hf := isFaceLine_of_isVertexLine h
  simp only [secondReadLine, h, hf, if_true]
  cases readVertex d i l <;> simp

theorem secondReadLine_face (heap : Heap α) (d : Data α) (i j : Nat) {l : List Char}
    (hv : isVertexLine l = false) (h : isFaceLine l = true) :
    secondReadLine heap (d, i, j) l = (readFace heap d j l).map fun r => (r.1, i, r.2) := by
  simp [secondReadLine, h, hv]

theorem secondReadLine_other (heap : Heap α) (st : Data α × Nat × Nat) {l : List Char}
    (hv : isVertexLine l = false) (h : isFaceLine l = false) :
    secondReadLine heap st l = some st := by
  simp [secondReadLine, h, hv]

theorem readFace_shape {heap : Heap α} {d : Data α} {j : Nat} {line : List Char}
    {r : Data α × Nat} (h : readFace heap d j line = some r) :
    SameShape d r.1 ∧ r.2 = j + 1 ∧ j < d.array_of_polygon.length ∧ j + 1 ≤ INT_MAX := by
  obtain ⟨vs, hj, hj1, h2, _, h1⟩ := readFace_eq_some h
  refine ⟨?_, h2, hj, hj1⟩
  rw [h1]
  simp [SameShape]

theorem secondRead_shape (heap : Heap α) (lines : List (List Char)) :
    ∀ (d : Data α) (i j : Nat) (r : Data α × Nat × Nat),
      lines.foldlM (secondReadLine heap) (d, i, j) = some r →
      SameShape d r.1 ∧
      r.2.1 = i + lines.countP isVertexLine ∧ r.2.2 = j + lines.countP isFaceLine ∧
      (0 < lines.countP isVertexLine →
        r.2.1 ≤ d.matrix_of_vertexes.matrix.length ∧ r.2.1 ≤ INT_MAX) ∧
      (0 < lines.countP isFaceLine →
        r.2.2 ≤ d.array_of_polygon.length ∧ r.2.2 ≤ INT_MAX) := by
  induction lines with
  | nil =>
    intro d i j r h
    simp only [List.foldlM_nil, Option.pure_def, Option.some.injEq] at h
    subst h
    simp [SameShape.refl]
  | cons l ls ih =>
    intro d i j r h
    rw [List.foldlM_cons] at h
    cases hs : secondReadLine heap (d, i, j) l with
    | none => rw [hs] at h; simp at h
    | some s =>
      rw [hs] at h
      simp only [Option.some_bind, Option.bind_eq_bind] at h
      obtain ⟨d1, i1, j1⟩ := s
      obtain ⟨sh, hi, hj, hbi, hbj⟩ := ih d1 i1 j1 r h
      by_cases hv : isVertexLine l = true
      · have hf := isFaceLine_of_isVertexLine hv
        rw [secondReadLine_vertex heap d i j hv] at hs
        cases hr : readVertex d i l with
        | none => rw [hr] at hs; simp at hs
        | some rv =>
          rw [hr] at hs
          simp only [Option.map_some', Option.some.injEq, Prod.mk.injEq] at hs
          obtain ⟨e1, e2, e3⟩ := hs
          obtain ⟨sh1, q2, q3, q4⟩ := readVertex_shape hr
          subst e1 e2 e3
          refine ⟨sh1.trans sh, ?_, ?_, ?_, ?_⟩
          · rw [hi, q2, List.countP_cons_of_pos _ _ hv]; omega
          · rw [hj, List.countP_cons_of_neg]; simp [hf]
          · intro _
            by_cases h0 : 0 < ls.countP isVertexLine
            · have := hbi h0
              rw [sh1.2.2.2.2.1] at this
              exact this
            · have hz : ls.countP isVertexLine = 0 := by omega
              rw [hi, hz, q2]
              exact ⟨by omega, by omega⟩
          · intro h0
            rw [List.countP_cons_of_neg] at h0
            · have := hbj h0
              rw [sh1.2.2.2.2.2] at this
              exact this
            · simp [hf]
      · have hv' : isVertexLine l = false := by simpa using hv
        by_cases hf : isFaceLine l = true
        · rw [secondReadLine_face heap d i j hv' hf] at hs
          cases hr : readFace heap d j l with
          | none => rw [hr] at hs; simp at hs
          | some rv =>
            rw [hr] at hs
            simp only [Option.map_some', Option.some.injEq, Prod.mk.injEq] at hs
            obtain ⟨e1, e2, e3⟩ := hs
            obtain ⟨sh1, q2, q3, q4⟩ := readFace_shape hr
            subst e1 e2 e3
            refine ⟨sh1.trans sh, ?_, ?_, ?_, ?_⟩
            · rw [hi, List.countP_cons_of_neg]; simp [hv']
            · rw [hj, q2, List.countP_cons_of_pos _ _ hf]; omega
            · intro h0
              rw [List.countP_cons_of_neg] at h0
              · have := hbi h0
                rw [sh1.2.2.2.2.1] at this
                exact this
              · simp [hv']
            · intro _
              by_cases h0 : 0 < ls.countP isFaceLine
              · have := hbj h0
                rw [sh1.2.2.2.2.2] at this
                exact this
              · have hz : ls.countP isFaceLine = 0 := by omega
                rw [hj, hz, q2]
                exact ⟨by omega, by omega⟩
        · have hf' : isFaceLine l = false := by simpa using hf
          rw [secondReadLine_other heap _ hv' hf'] at hs
          simp only [Option.some.injEq, Prod.mk.injEq] at hs
          obtain ⟨e1, e2, e3⟩ := hs
          subst e1 e2 e3
          refine ⟨sh, ?_, ?_, ?_, ?_⟩
          · rw [hi, List.countP_cons_of_neg]; simp [hv']
          · rw [hj, List.countP_cons_of_neg]; simp [hf']
          · intro h0
            rw [List.countP_cons_of_neg] at h0
            · exact hbi h0
            · simp [hv']
          · intro h0
            rw [List.countP_cons_of_neg] at h0
            · exact hbj h0
            · simp [hf']

theorem keptIndices_nil : keptIndices α [] = [] := rfl

theorem keptIndices_cons_zero {t : List Char} (ts : List (List Char))
    (h : toUInt (atof t : α) = 0) : keptIndices α (t :: ts) = keptIndices α ts := by
  simp [keptIndices, h]

theorem keptIndices_cons_pos {t : List Char} (ts : List (List Char))
    (h : toUInt (atof t : α) ≠ 0) :
    keptIndices α (t :: ts) = toUInt (atof t : α) :: keptIndices α ts := by
  simp [keptIndices, h]

theorem length_keptIndices_le (ts : List (List Char)) :
    (keptIndices α ts).length ≤ ts.length := by
  unfold keptIndices
  exact (List.length_filter_le _ _).trans (by simp)

theorem storeIndex_fold (toks : List (List Char)) : ∀ (vs : List Nat) (e : Nat)
    (r : List Nat × Nat), toks.foldlM (storeIndex (α := α)) (vs, e) = some r →
    r = (storeScanned (keptIndices α toks) e vs, e + (keptIndices α toks).length) ∧
    (0 < (keptIndices α toks).length →
      e + (keptIndices α toks).length ≤ vs.length ∧
      e + (keptIndices α toks).length ≤ INT_MAX) := by
  induction toks with
  | nil =>
    intro vs e r h
    simp only [List.foldlM_nil, Option.pure_def, Option.some.injEq] at h
    subst h
    simp [storeScanned, keptIndices_nil]
  | cons t ts ih =>
    intro vs e r h
    rw [List.foldlM_cons] at h
    by_cases hz : toUInt (atof t : α) = 0
    · have hs : storeIndex (α := α) (vs, e) t = some (vs, e) := by simp [storeIndex, hz]
      rw [hs] at h
      simp only [Option.some_bind, Option.bind_eq_bind] at h
      rw [keptIndices_cons_zero ts hz]
      exact ih vs e r h
    · by_cases hb : e < vs.length ∧ e + 1 ≤ INT_MAX
      · have hs : storeIndex (α := α) (vs, e) t
            = some (vs.set e (toUInt (atof t : α)), e + 1) := by
          simp [storeIndex, hz, hb]
        rw [hs] at h
        simp only [Option.some_bind, Option.bind_eq_bind] at h
        obtain ⟨h1, h2⟩ := ih _ _ r h
        rw [keptIndices_cons_pos ts hz]
        simp only [List.length_cons, storeScanned]
        simp only [List.length_set] at h2
        refine ⟨?_, ?_⟩
        · rw [h1]; congr 1; omega
        · intro _
          by_cases h0 : 0 < (keptIndices α ts).length
          · have := h2 h0; omega
          · omega
      · have hs : storeIndex (α := α) (vs, e) t = none := by
          simp only [storeIndex, ne_eq, hz, not_false_eq_true, if_true, hb, if_false]
        rw [hs] at h
        simp at h

theorem storeIndex_fold_some (toks : List (List Char)) : ∀ (vs : List Nat) (e : Nat),
    e + (keptIndices α toks).length ≤ vs.length →
    e + (keptIndices α toks).length ≤ INT_MAX →
    ∃ r, toks.foldlM (storeIndex (α := α)) (vs, e) = some r := by
  induction toks with
  | nil => intro vs e _ _; exact ⟨_, rfl⟩
  | cons t ts ih =>
    intro vs e h1 h2
    rw [List.foldlM_cons]
    by_cases hz : toUInt (atof t : α) = 0
    · have hs : storeIndex (α := α) (vs, e) t = some (vs, e) := by simp [storeIndex, hz]
      rw [hs]
      simp only [Option.some_bind, Option.bind_eq_bind]
      rw [keptIndices_cons_zero ts hz] at h1 h2
      exact ih vs e h1 h2
    · rw [keptIndices_cons_pos ts hz] at h1 h2
      simp only [List.length_cons] at h1 h2
      have hb : e < vs.length ∧ e + 1 ≤ INT_MAX := by omega
      have hs : storeIndex (α := α) (vs, e) t
          = some (vs.set e (toUInt (atof t : α)), e + 1) := by
        simp [storeIndex, hz, hb]
      rw [hs]
      simp only [Option.some_bind, Option.bind_eq_bind]
      apply ih
      · simp only [List.length_set]; omega
      · omega

theorem toUInt_atof_f : toUInt (atof ['f'] : α) = 0 := by
  simp [atof, strtod, readSign, readFraction, isspace, isdigit, toUInt]

/-- On a face line the tokens after the marker are the only ones stored: the
marker itself converts to zero. -/
theorem keptIndices_face {l : List Char} (h : isFaceLine l = true) :
    ∃ s, c_str l = 'f' :: ' ' :: s ∧
      strtokAll (c_str l) = ['f'] :: strtokAll s ∧
      keptIndices α (strtokAll (c_str l)) = keptIndices α (strtokAll s) := by
  obtain ⟨s, hs⟩ := c_str_face h
  refine ⟨s, hs, ?_, ?_⟩
  · rw [hs, strtokAll_face]
  · rw [hs, strtokAll_face, keptIndices_cons_zero _ toUInt_atof_f]

theorem parserVertexesForPolygon_some (heap : Heap α) (j : Nat) {l : List Char}
    (h : isFaceLine l = true) (hl : l.length ≤ INT_MAX) :
    ∃ vs, parserVertexesForPolygon (α := α) (c_str l)
      (vertexesForPolygonMemoryAllocation heap j (countVertexesForPolygon (c_str l)))
        = some vs := by
  obtain ⟨s, hs, htok, hkept⟩ := keptIndices_face (α := α) h
  have hlen : (strtokAll (c_str l)).length ≤ INT_MAX :=
    (length_strtokAll_le _).trans ((length_c_str_le l).trans hl)
  have hk : (keptIndices α (strtokAll (c_str l))).length + 1 ≤ (strtokAll (c_str l)).length := by
    rw [hkept, htok, List.length_cons]
    exact Nat.succ_le_succ (length_keptIndices_le _)
  have hn : countVertexesForPolygon (c_str l) = (strtokAll (c_str l)).length - 1 := by
    rw [countVertexesForPolygon_eq]
    simp only [UINT_MOD, INT_MAX] at *
    omega
  obtain ⟨r, hr⟩ := storeIndex_fold_some (α := α) (strtokAll (c_str l))
    (vertexesForPolygonMemoryAllocation heap j (countVertexesForPolygon (c_str l))) 0
    (by simp only [vertexesForPolygonMemoryAllocation, List.length_map, List.length_range, hn]
        omega)
    (by omega)
  exact ⟨r.1, by simp [parserVertexesForPolygon, hr]⟩

theorem readFace_some (heap : Heap α) {d : Data α} {j : Nat} {l : List Char}
    (h : isFaceLine l = true) (hl : l.length ≤ INT_MAX)
    (h1 : j < d.array_of_polygon.length) (h2 : j + 1 ≤ INT_MAX) :
    ∃ r, readFace heap d j l = some r := by
  obtain ⟨vs, hvs⟩ := parserVertexesForPolygon_some heap j h hl
  simp only [readFace, h1, if_true, hvs, h2]
  exact ⟨_, rfl⟩

theorem secondRead_some (heap : Heap α) (lines : List (List Char)) :
    (∀ l ∈ lines, l.length ≤ INT_MAX) → ∀ (d : Data α) (i j : Nat),
      i + lines.countP isVertexLine ≤ d.matrix_of_vertexes.matrix.length →
      i + lines.countP isVertexLine ≤ INT_MAX →
      j + lines.countP isFaceLine ≤ d.array_of_polygon.length →
      j + lines.countP isFaceLine ≤ INT_MAX →
      ∃ r, lines.foldlM (secondReadLine heap) (d, i, j) = some r := by
  induction lines with
  | nil => intro _ d i j _ _ _ _; exact ⟨_, rfl⟩
  | cons l ls ih =>
    intro hlen d i j a1 a2 b1 b2
    have hl : l.length ≤ INT_MAX := hlen l (List.mem_cons_self _ _)
    have hls : ∀ x ∈ ls, x.length ≤ INT_MAX := fun x hx => hlen x (List.mem_cons_of_mem _ hx)
    rw [List.foldlM_cons]
    by_cases hv : isVertexLine l = true
    · have hf := isFaceLine_of_isVertexLine hv
      rw [List.countP_cons_of_pos _ _ hv] at a1 a2
      rw [List.countP_cons_of_neg _ _ (by simp [hf])] at b1 b2
      obtain ⟨r, hr⟩ := readVertex_some (d := d) l (i := i) (by omega) (by omega)
      obtain ⟨sh, q2, -, -⟩ := readVertex_shape hr
      rw [secondReadLine_vertex heap d i j hv, hr]
      simp only [Option.map_some', Option.some_bind, Option.bind_eq_bind]
      apply ih hls
      · rw [sh.2.2.2.2.1, q2]; omega
      · rw [q2]; omega
      · rw [sh.2.2.2.2.2]; exact b1
      · exact b2
    · have hv' : isVertexLine l = false := by simpa using hv
      rw [List.countP_cons_of_neg _ _ (by simp [hv'])] at a1 a2
      by_cases hf : isFaceLine l = true
      · rw [List.countP_cons_of_pos _ _ hf] at b1 b2
        obtain ⟨r, hr⟩ := readFace_some heap (d := d) (j := j) hf hl (by omega) (by omega)
        obtain ⟨sh, q2, -, -⟩ := readFace_shape hr
        rw [secondReadLine_face heap d i j hv' hf, hr]
        simp only [Option.map_some', Option.some_bind, Option.bind_eq_bind]
        apply ih hls
        · rw [sh.2.2.2.2.1]; exact a1
        · exact a2
        · rw [sh.2.2.2.2.2, q2]; omega
        · rw [q2]; omega
      · have hf' : isFaceLine l = false := by simpa using hf
        rw [List.countP_cons_of_neg _ _ (by simp [hf'])] at b1 b2
        rw [secondReadLine_other heap _ hv' hf']
        simp only [Option.some_bind, Option.bind_eq_bind]
        exact ih hls d i j a1 a2 b1 b2

theorem coreParser_isSome (heap : Heap α) (content : List Char) (d : Data α)
    (h : InRange content) : ∃ d', coreParser heap (some content) d = some d' := by
  obtain ⟨hn, hl⟩ := h
  obtain ⟨-, -, e3, e4, -, -⟩ := allocated_eq heap content d
  have hv : (getlines content).countP isVertexLine ≤ (getlines content).length :=
    List.countP_le_length _
  have hf : (getlines content).countP isFaceLine ≤ (getlines content).length :=
    List.countP_le_length _
  obtain ⟨r, hr⟩ := secondRead_some heap (getlines content) hl
    (polygonMemoryAllocation heap (createMatrixOfVertexes heap
        (firstReadParser (some content) (initializeModel d)))) 1 1
    (by rw [e3]; simp only [UINT_MOD, INT_MAX] at *; omega)
    (by simp only [INT_MAX] at *; omega)
    (by rw [e4]; simp only [UINT_MOD, INT_MAX] at *; omega)
    (by simp only [INT_MAX] at *; omega)
  exact ⟨r.1, by simp only [coreParser, secondReadParser, hr, Option.map_some']⟩

/-- Induction over the lines of the fill pass, by the kind of the first line. -/
theorem secondRead_induction (heap : Heap α)
    {P : List (List Char) → Data α × Nat × Nat → Data α × Nat × Nat → Prop}
    (hnil : ∀ s, P [] s s)
    (hv : ∀ l ls d i j rv r, isVertexLine l = true → readVertex d i l = some rv →
      ls.foldlM (secondReadLine heap) (rv.1, rv.2, j) = some r →
      P ls (rv.1, rv.2, j) r → P (l :: ls) (d, i, j) r)
    (hf : ∀ l ls d i j rf r, isVertexLine l = false → isFaceLine l = true →
      readFace heap d j l = some rf →
      ls.foldlM (secondReadLine heap) (rf.1, i, rf.2) = some r →
      P ls (rf.1, i, rf.2) r → P (l :: ls) (d, i, j) r)
    (ho : ∀ l ls s r, isVertexLine l = false → isFaceLine l = false →
      ls.foldlM (secondReadLine heap) s = some r →
      P ls s r → P (l :: ls) s r) :
    ∀ (lines : List (List Char)) (s r : Data α × Nat × Nat),
      lines.foldlM (secondReadLine heap) s = some r → P lines s r := by
  intro lines
  induction lines with
  | nil =>
    intro s r h
    simp only [List.foldlM_nil, Option.pure_def, Option.some.injEq] at h
    subst h
    exact hnil s
  | cons l ls ih =>
    intro s r h
    obtain ⟨d, i, j⟩ := s
    rw [List.foldlM_cons] at h
    by_cases h1 : isVertexLine l = true
    · rw [secondReadLine_vertex heap d i j h1] at h
      cases hr : readVertex d i l with
      | none => rw [hr] at h; simp at h
      | some rv =>
        rw [hr] at h
        simp only [Option.map_some', Option.some_bind, Option.bind_eq_bind] at h
        exact hv l ls d i j rv r h1 hr h (ih _ r h)
    · have h1' : isVertexLine l = false := by simpa using h1
      by_cases h2 : isFaceLine l = true
      · rw [secondReadLine_face heap d i j h1' h2] at h
        cases hr : readFace heap d j l with
        | none => rw [hr] at h; simp at h
        | some rf =>
          rw [hr] at h
          simp only [Option.map_some', Option.some_bind, Option.bind_eq_bind] at h
          exact hf l ls d i j rf r h1' h2 hr h (ih _ r h)
      · have h2' : isFaceLine l = false := by simpa using h2
        rw [secondReadLine_other heap _ h1' h2'] at h
        simp only [Option.some_bind, Option.bind_eq_bind] at h
        exact ho l ls (d, i, j) r h1' h2' h (ih _ r h)

theorem readFace_array {heap : Heap α} {d : Data α} {j : Nat} {line : List Char}
    {r : Data α × Nat} (h : readFace heap d j line = some r) :
    ∃ vs, parserVertexesForPolygon (α := α) (c_str line)
        (vertexesForPolygonMemoryAllocation heap j (countVertexesForPolygon (c_str line)))
        = some vs ∧ j < d.array_of_polygon.length ∧ r.2 = j + 1 ∧
      r.1.array_of_polygon
        = d.array_of_polygon.set j ⟨vs, countVertexesForPolygon (c_str line)⟩ ∧
      r.1.matrix_of_vertexes = d.matrix_of_vertexes := by
  obtain ⟨vs, hj, -, h2, hp, h1⟩ := readFace_eq_some h
  exact ⟨vs, hp, hj, h2, by rw [h1], by rw [h1]⟩

/-- Rows written by the fill pass: the `k`-th vertex line met from counter `i`
on is scanned into row `i + k`, and the rows below `i` are left alone. -/
theorem secondRead_rows (heap : Heap α) (lines : List (List Char))
    (s r : Data α × Nat × Nat) (h : lines.foldlM (secondReadLine heap) s = some r) :
    (∀ k l, (lines.filter isVertexLine)[k]? = some l →
      ∃ row, s.1.matrix_of_vertexes.matrix[s.2.1 + k]? = some row ∧
        r.1.matrix_of_vertexes.matrix[s.2.1 + k]? = some (sscanfVertex l row)) ∧
    (∀ m, m < s.2.1 → r.1.matrix_of_vertexes.matrix[m]? = s.1.matrix_of_vertexes.matrix[m]?) := by
  revert h
  refine secondRead_induction heap
    (P := fun lines s r =>
      (∀ k l, (lines.filter isVertexLine)[k]? = some l →
        ∃ row, s.1.matrix_of_vertexes.matrix[s.2.1 + k]? = some row ∧
          r.1.matrix_of_vertexes.matrix[s.2.1 + k]? = some (sscanfVertex l row)) ∧
      (∀ m, m < s.2.1 →
        r.1.matrix_of_vertexes.matrix[m]? = s.1.matrix_of_vertexes.matrix[m]?))
    ?_ ?_ ?_ ?_ lines s r
  · intro s
    exact ⟨by intro k l hk; simp at hk, fun _ _ => rfl⟩
  · intro l ls d i j rv r h1 hr _ ⟨ih1, ih2⟩
    obtain ⟨row, hrow, q2, qm, -⟩ := readVertex_matrix hr
    have hlt : i < d.matrix_of_vertexes.matrix.length :=
      (List.getElem?_eq_some_iff.1 hrow).1
    simp only at ih1 ih2 ⊢
    rw [q2] at ih1 ih2
    rw [qm] at ih1 ih2
    refine ⟨?_, ?_⟩
    · intro k x hk
      rw [List.filter_cons_of_pos h1] at hk
      cases k with
      | zero =>
        simp only [List.getElem?_cons_zero, Option.some.injEq] at hk
        subst hk
        refine ⟨row, hrow, ?_⟩
        rw [Nat.add_zero, ih2 i (Nat.lt_succ_self i)]
        simp [List.getElem?_set, hlt]
      | succ k =>
        simp only [List.getElem?_cons_succ] at hk
        obtain ⟨row', e1, e2⟩ := ih1 k x hk
        have hne : i ≠ i + 1 + k := by omega
        rw [List.getElem?_set_ne hne] at e1
        have e : i + (k + 1) = i + 1 + k := by omega
        rw [e]
        exact ⟨row', e1, e2⟩
    · intro m hm
      rw [ih2 m (by omega)]
      exact List.getElem?_set_ne (by omega)
  · intro l ls d i j rf r h1 h2 hr _ ⟨ih1, ih2⟩
    obtain ⟨vs, -, -, -, -, qm⟩ := readFace_array hr
    simp only at ih1 ih2 ⊢
    rw [qm] at ih1 ih2
    refine ⟨?_, ih2⟩
    intro k x hk
    rw [List.filter_cons_of_neg (by simp [h1])] at hk
    exact ih1 k x hk
  · intro l ls s r h1 h2 _ ⟨ih1, ih2⟩
    refine ⟨?_, ih2⟩
    intro k x hk
    rw [List.filter_cons_of_neg (by simp [h1])] at hk
    exact ih1 k x hk

/-- Faces written by the fill pass: the `k`-th face line met from counter `j` on
is stored as face `j + k`, and the faces below `j` are left alone. -/
theorem secondRead_faces (heap : Heap α) (lines : List (List Char))
    (s r : Data α × Nat × Nat) (h : lines.foldlM (secondReadLine heap) s = some r) :
    (∀ k l, (lines.filter isFaceLine)[k]? = some l →
      ∃ vs, parserVertexesForPolygon (α := α) (c_str l)
          (vertexesForPolygonMemoryAllocation heap (s.2.2 + k)
            (countVertexesForPolygon (c_str l))) = some vs ∧
        r.1.array_of_polygon[s.2.2 + k]? = some ⟨vs, countVertexesForPolygon (c_str l)⟩) ∧
    (∀ m, m < s.2.2 → r.1.array_of_polygon[m]? = s.1.array_of_polygon[m]?) := by
  revert h
  refine secondRead_induction heap
    (P := fun lines s r =>
      (∀ k l, (lines.filter isFaceLine)[k]? = some l →
        ∃ vs, parserVertexesForPolygon (α := α) (c_str l)
            (vertexesForPolygonMemoryAllocation heap (s.2.2 + k)
              (countVertexesForPolygon (c_str l))) = some vs ∧
          r.1.array_of_polygon[s.2.2 + k]? = some ⟨vs, countVertexesForPolygon (c_str l)⟩) ∧
      (∀ m, m < s.2.2 → r.1.array_of_polygon[m]? = s.1.array_of_polygon[m]?))
    ?_ ?_ ?_ ?_ lines s r
  · intro s
    exact ⟨by intro k l hk; simp at hk, fun _ _ => rfl⟩
  · intro l ls d i j rv r h1 hr _ ⟨ih1, ih2⟩
    obtain ⟨row, -, -, -, qa⟩ := readVertex_matrix hr
    have hf := isFaceLine_of_isVertexLine h1
    simp only at ih1 ih2 ⊢
    rw [qa] at ih2
    refine ⟨?_, ih2⟩
    intro k x hk
    rw [List.filter_cons_of_neg (by simp [hf])] at hk
    exact ih1 k x hk
  · intro l ls d i j rf r h1 h2 hr _ ⟨ih1, ih2⟩
    obtain ⟨vs, hp, hlt, q2, qa, -⟩ := readFace_array hr
    simp only at ih1 ih2 ⊢
    rw [q2] at ih1 ih2
    rw [qa] at ih2
    refine ⟨?_, ?_⟩
    · intro k x hk
      rw [List.filter_cons_of_pos h2] at hk
      cases k with
      | zero =>
        simp only [List.getElem?_cons_zero, Option.some.injEq] at hk
        subst hk
        refine ⟨vs, hp, ?_⟩
        rw [Nat.add_zero, ih2 j (Nat.lt_succ_self j)]
        simp [List.getElem?_set, hlt]
      | succ k =>
        simp only [List.getElem?_cons_succ] at hk
        have e : j + (k + 1) = j + 1 + k := by omega
        rw [e]
        exact ih1 k x hk
    · intro m hm
      rw [ih2 m (by omega)]
      exact List.getElem?_set_ne (by omega)
  · intro l ls s r h1 h2 _ ⟨ih1, ih2⟩
    refine ⟨?_, ih2⟩
    intro k x hk
    rw [List.filter_cons_of_neg (by simp [h2])] at hk
    exact ih1 k x hk

/-- The fill pass keeps every row at its allocated width. -/
theorem secondRead_width (heap : Heap α) (n : Nat) (lines : List (List Char))
    (s r : Data α × Nat × Nat) (h : lines.foldlM (secondReadLine heap) s = some r) :
    (∀ row ∈ s.1.matrix_of_vertexes.matrix, row.length = n) →
    ∀ row ∈ r.1.matrix_of_vertexes.matrix, row.length = n := by
  revert h
  refine secondRead_induction heap
    (P := fun _ s r =>
      (∀ row ∈ s.1.matrix_of_vertexes.matrix, row.length = n) →
      ∀ row ∈ r.1.matrix_of_vertexes.matrix, row.length = n)
    ?_ ?_ ?_ ?_ lines s r
  · intro s hs; exact hs
  · intro l ls d i j rv r h1 hr _ ih hs
    obtain ⟨row, hrow, -, qm, -⟩ := readVertex_matrix hr
    apply ih
    simp only
    rw [qm]
    intro x hx
    rcases List.mem_or_eq_of_mem_set hx with hx | hx
    · exact hs x hx
    · rw [hx, length_sscanfVertex]
      exact hs row (List.getElem?_mem hrow)
  · intro l ls d i j rf r h1 h2 hr _ ih hs
    obtain ⟨vs, -, -, -, -, qm⟩ := readFace_array hr
    apply ih
    simp only
    rw [qm]
    exact hs
  · intro l ls s r h1 h2 _ ih hs
    exact ih hs

/-- What `coreParser` is on an open file: the fill pass run on the tables that
were allocated from the count pass. -/
theorem coreParser_eq_some {heap : Heap α} {content : List Char} {d0 d : Data α}
    (h : coreParser heap (some content) d0 = some d) :
    ∃ r : Data α × Nat × Nat,
      (getlines content).foldlM (secondReadLine heap)
        (polygonMemoryAllocation heap (createMatrixOfVertexes heap
          (firstReadParser (some content) (initializeModel d0))), 1, 1) = some r ∧
      r.1 = d := by
  simp only [coreParser, secondReadParser, Option.map_eq_some'] at h
  obtain ⟨r, hr, e⟩ := h
  exact ⟨r, hr, e⟩

/-- The counts after a load are the numbers of vertex lines and of face lines,
and the vertex table has one row more than there are vertices. -/
theorem coreParser_shape {heap : Heap α} {content : List Char} {d0 d : Data α}
    (h : coreParser heap (some content) d0 = some d) :
    d.count_of_vertexes = (getlines content).countP isVertexLine ∧
    d.count_of_polygons = (getlines content).countP isFaceLine ∧
    d.matrix_of_vertexes.matrix.length = (getlines content).countP isVertexLine + 1 ∧
    d.array_of_polygon.length = (getlines content).countP isFaceLine + 1 ∧
    d.matrix_of_vertexes.rows = (getlines content).countP isVertexLine + 1 ∧
    d.matrix_of_vertexes.columns = 3 := by
  obtain ⟨r, hr, e⟩ := coreParser_eq_some h
  obtain ⟨a1, a2, a3, a4, a5, a6⟩ := allocated_eq heap content d0
  obtain ⟨⟨s1, s2, s3, s4, s5, s6⟩, hi, hj, hbi, hbj⟩ := secondRead_shape heap _ _ _ _ _ hr
  rw [e] at s1 s2 s3 s4 s5 s6
  rw [a1] at s1; rw [a2] at s2; rw [a5] at s3; rw [a6] at s4; rw [a3] at s5; rw [a4] at s6
  rw [a3] at hbi; rw [a4] at hbj
  have hv : (getlines content).countP isVertexLine < UINT_MOD - 1 := by
    by_cases h0 : 0 < (getlines content).countP isVertexLine
    · have := (hbi h0).2
      rw [hi] at this
      simp only [UINT_MOD, INT_MAX] at *
      omega
    · simp only [UINT_MOD]; omega
  have hf : (getlines content).countP isFaceLine < UINT_MOD - 1 := by
    by_cases h0 : 0 < (getlines content).countP isFaceLine
    · have := (hbj h0).2
      rw [hj] at this
      simp only [UINT_MOD, INT_MAX] at *
      omega
    · simp only [UINT_MOD]; omega
  simp only [UINT_MOD] at *
  refine ⟨?_, ?_, ?_, ?_, ?_, s4⟩ <;> omega

theorem coreParser_wellFormed {heap : Heap α} {content : List Char} {d0 d : Data α}
    (h : coreParser heap (some content) d0 = some d) : d.WellFormed := by
  obtain ⟨c1, -, c3, -, c5, c6⟩ := coreParser_shape h
  obtain ⟨r, hr, e⟩ := coreParser_eq_some h
  refine ⟨by rw [c5, c1], by rw [c3, c5], c6, ?_⟩
  rw [← e]
  apply secondRead_width heap 3 _ _ _ hr
  intro row hrow
  simp only [polygonMemoryAllocation, createMatrixOfVertexes, List.mem_map, List.mem_range] at hrow
  obtain ⟨a, -, rfl⟩ := hrow
  simp

theorem toUInt_natCast (n : Nat) : toUInt ((n : α)) = n % UINT_MOD := by
  have h0 : (0 : α) ≤ (n : α) := Nat.cast_nonneg n
  simp only [toUInt, h0, if_true, Int.floor_natCast, UINT_MOD]
  omega

theorem toUInt_lt (x : α) : toUInt x < UINT_MOD := by
  simp only [toUInt, UINT_MOD]
  omega

theorem keptIndices_digits (dss : List (List Char))
    (h : ∀ ds ∈ dss, ds ≠ [] ∧ (∀ c ∈ ds, isdigit c = true) ∧
      0 < decValue ds ∧ decValue ds < UINT_MOD) :
    keptIndices α dss = dss.map decValue := by
  induction dss with
  | nil => rfl
  | cons ds t ih =>
    obtain ⟨h1, h2, h3, h4⟩ := h ds (List.mem_cons_self _ _)
    have e : toUInt (atof ds : α) = decValue ds := by
      rw [atof_digits h1 h2, toUInt_natCast, Nat.mod_eq_of_lt h4]
    rw [keptIndices_cons_pos t (by rw [e]; omega), e,
      ih (fun x hx => h x (List.mem_cons_of_mem _ hx))]
    rfl

theorem mem_keptIndices {toks : List (List Char)} {v : Nat} (h : v ∈ keptIndices α toks) :
    1 ≤ v ∧ v < UINT_MOD := by
  simp only [keptIndices, List.mem_filter, List.mem_map, bne_iff_ne, ne_eq] at h
  obtain ⟨⟨tok, -, e⟩, hv⟩ := h
  refine ⟨by omega, ?_⟩
  rw [← e]
  exact toUInt_lt _

/-- What the fill pass leaves in the array of a face: the kept indices, then
whatever the allocation held in the entries that no index reached. -/
theorem parserVertexesForPolygon_eq {str : List Char} {alloc vs : List Nat}
    (h : parserVertexesForPolygon (α := α) str alloc = some vs) :
    (keptIndices α (strtokAll str)).length ≤ alloc.length ∧
    vs = keptIndices α (strtokAll str)
      ++ alloc.drop (keptIndices α (strtokAll str)).length := by
  simp only [parserVertexesForPolygon, Option.map_eq_some'] at h
  obtain ⟨r, hr, e⟩ := h
  obtain ⟨h1, h2⟩ := storeIndex_fold (α := α) _ _ _ _ hr
  have hle : (keptIndices α (strtokAll str)).length ≤ alloc.length := by
    by_cases h0 : 0 < (keptIndices α (strtokAll str)).length
    · have := (h2 h0).1; omega
    · omega
  refine ⟨hle, ?_⟩
  rw [← e, h1]
  simp only
  rw [storeScanned_eq _ _ _ (by omega)]
  simp

/-- The face that a load stores for the `j + 1`-th face line. -/
theorem coreParser_face {heap : Heap α} {content : List Char} {d0 d : Data α}
    (h : coreParser heap (some content) d0 = some d) {j : Nat} {l : List Char}
    (hl : ((getlines content).filter isFaceLine)[j]? = some l) :
    (keptIndices α (strtokAll (c_str l))).length ≤ countVertexesForPolygon (c_str l) ∧
    d.array_of_polygon[j + 1]? = some
      ⟨keptIndices α (strtokAll (c_str l)) ++
        (vertexesForPolygonMemoryAllocation heap (j + 1)
          (countVertexesForPolygon (c_str l))).drop (keptIndices α (strtokAll (c_str l))).length,
       countVertexesForPolygon (c_str l)⟩ := by
  obtain ⟨r, hr, e⟩ := coreParser_eq_some h
  obtain ⟨vs, hp, hres⟩ := (secondRead_faces heap _ _ _ hr).1 j l hl
  simp only at hp hres
  rw [e, Nat.add_comm 1 j] at hres
  rw [Nat.add_comm 1 j] at hp
  obtain ⟨hle, hvs⟩ := parserVertexesForPolygon_eq hp
  refine ⟨?_, ?_⟩
  · simpa [vertexesForPolygonMemoryAllocation] using hle
  · rw [hres, hvs]

/-- The row that a load leaves for the `k + 1`-th vertex line. -/
theorem coreParser_row {heap : Heap α} {content : List Char} {d0 d : Data α}
    (h : coreParser heap (some content) d0 = some d) {k : Nat} {l : List Char}
    (hk : ((getlines content).filter isVertexLine)[k]? = some l) :
    d.matrix_of_vertexes.matrix[k + 1]? = some (sscanfVertex l
      [heap.dbl (k + 1) 0, heap.dbl (k + 1) 1, heap.dbl (k + 1) 2]) := by
  obtain ⟨r, hr, e⟩ := coreParser_eq_some h
  obtain ⟨sh, -⟩ := secondRead_shape heap _ _ _ _ _ hr
  obtain ⟨row, hrow, hres⟩ := (secondRead_rows heap _ _ _ hr).1 k l hk
  simp only at hrow hres
  rw [e, Nat.add_comm 1 k] at hres
  rw [Nat.add_comm 1 k] at hrow
  have hlt : k + 1 < d.matrix_of_vertexes.matrix.length :=
    (List.getElem?_eq_some_iff.1 hres).1
  have hlen := sh.2.2.2.2.1
  rw [e, (allocated_eq heap content d0).2.2.1] at hlen
  rw [allocated_row heap content d0 (k + 1) (by omega)] at hrow
  simp only [Option.some.injEq] at hrow
  subst hrow
  exact hres

/-- The row that a load leaves for a vertex line with three numbers. -/
theorem coreParser_row_scanned {heap : Heap α} {content : List Char} {d0 d : Data α}
    (h : coreParser heap (some content) d0 = some d) {k : Nat} {l : List Char}
    (hk : ((getlines content).filter isVertexLine)[k]? = some l) {x y z : α}
    (hxyz : scanDoubles 3 ((c_str l).drop 1) = [x, y, z]) :
    d.matrix_of_vertexes.matrix[k + 1]? = some [x, y, z] := by
  rw [coreParser_row h hk, sscanfVertex, hxyz,
    storeScanned_full [x, y, z] [heap.dbl (k + 1) 0, heap.dbl (k + 1) 1, heap.dbl (k + 1) 2] rfl]

theorem readFace_bounds {heap : Heap α} {d : Data α} {j : Nat} {line : List Char}
    {r : Data α × Nat} (h : readFace heap d j line = some r) (c : Nat) :
    r.1.maxAt c = d.maxAt c ∧ r.1.minAt c = d.minAt c := by
  obtain ⟨vs, -, -, -, -, h1⟩ := readFace_eq_some h
  rw [h1]
  exact ⟨rfl, rfl⟩

/-- The bounding box after the fill pass: on each axis the running `fmax`
(`fmin`) of the rows written, in order, started from the bound held before. -/
theorem secondRead_bounds (heap : Heap α) (c : Nat) (hc : c < 3) (lines : List (List Char))
    (s r : Data α × Nat × Nat) (h : lines.foldlM (secondReadLine heap) s = some r) :
    r.1.maxAt c = (((r.1.matrix_of_vertexes.matrix.drop s.2.1).take
        (lines.countP isVertexLine)).map fun row => row.getD c 0).foldl
          (fun m x => fmax x m) (s.1.maxAt c) ∧
    r.1.minAt c = (((r.1.matrix_of_vertexes.matrix.drop s.2.1).take
        (lines.countP isVertexLine)).map fun row => row.getD c 0).foldl
          (fun m x => fmin x m) (s.1.minAt c) := by
  revert h
  refine secondRead_induction heap
    (P := fun lines s r =>
      r.1.maxAt c = (((r.1.matrix_of_vertexes.matrix.drop s.2.1).take
          (lines.countP isVertexLine)).map fun row => row.getD c 0).foldl
            (fun m x => fmax x m) (s.1.maxAt c) ∧
      r.1.minAt c = (((r.1.matrix_of_vertexes.matrix.drop s.2.1).take
          (lines.countP isVertexLine)).map fun row => row.getD c 0).foldl
            (fun m x => fmin x m) (s.1.minAt c))
    ?_ ?_ ?_ ?_ lines s r
  · intro s
    simp
  · intro l ls d i j rv r h1 hr hfold ⟨ih1, ih2⟩
    obtain ⟨b1, b2⟩ := readVertex_bounds hr c hc
    obtain ⟨sh1, q2, hlt, -⟩ := readVertex_shape hr
    obtain ⟨sh2, -⟩ := secondRead_shape heap _ _ _ _ _ hfold
    have hrow := (secondRead_rows heap _ _ _ hfold).2 i (by simp only; omega)
    simp only at hrow
    have hlen : i < r.1.matrix_of_vertexes.matrix.length := by
      rw [sh2.2.2.2.2.1, sh1.2.2.2.2.1]; exact hlt
    have hco : r.1.coord i c = rv.1.coord i c := coord_eq_of_getElem? hrow c
    have hd : r.1.matrix_of_vertexes.matrix.drop i
        = r.1.matrix_of_vertexes.matrix[i] :: r.1.matrix_of_vertexes.matrix.drop (i + 1) :=
      List.drop_eq_getElem_cons hlen
    have hx : (r.1.matrix_of_vertexes.matrix[i]).getD c 0 = r.1.coord i c := by
      simp [Data.coord, List.getD_eq_getElem?_getD, List.getElem?_eq_getElem hlen]
    simp only at ih1 ih2 ⊢
    rw [q2] at ih1 ih2
    rw [List.countP_cons_of_pos _ _ h1, hd, List.take_succ_cons, List.map_cons,
      List.foldl_cons, List.foldl_cons, hx, hco, ← b1, ← b2]
    exact ⟨ih1, ih2⟩
  · intro l ls d i j rf r h1 h2 hr _ ⟨ih1, ih2⟩
    obtain ⟨b1, b2⟩ := readFace_bounds hr c
    simp only at ih1 ih2 ⊢
    rw [List.countP_cons_of_neg _ _ (by simp [h1]), ← b1, ← b2]
    exact ⟨ih1, ih2⟩
  · intro l ls s r h1 h2 _ ⟨ih1, ih2⟩
    rw [List.countP_cons_of_neg _ _ (by simp [h1])]
    exact ⟨ih1, ih2⟩

/-- The bounding box after a load: on each axis the running `fmax` of the
vertices from `DBL_MIN` and the running `fmin` of the vertices from `DBL_MAX`. -/
theorem coreParser_bounds {heap : Heap α} {content : List Char} {d0 d : Data α}
    (h : coreParser heap (some content) d0 = some d) (c : Nat) (hc : c < 3) :
    d.maxAt c = (((d.matrix_of_vertexes.matrix.drop 1).take d.count_of_vertexes).map
        fun row => row.getD c 0).foldl (fun m x => fmax x m) DBL_MIN ∧
    d.minAt c = (((d.matrix_of_vertexes.matrix.drop 1).take d.count_of_vertexes).map
        fun row => row.getD c 0).foldl (fun m x => fmin x m) DBL_MAX := by
  obtain ⟨r, hr, e⟩ := coreParser_eq_some h
  obtain ⟨c1, -⟩ := coreParser_shape h
  have hb := secondRead_bounds heap c hc _ _ _ hr
  simp only at hb
  rw [e, ← c1] at hb
  have e1 : (polygonMemoryAllocation heap (createMatrixOfVertexes heap
      (firstReadParser (some content) (initializeModel d0)))).maxAt c = DBL_MIN := by
    have e := firstRead_fold (getlines content) (initializeModel d0)
      (by simp [initializeModel, UINT_MOD]) (by simp [initializeModel, UINT_MOD])
    simp only [firstReadParser, e]
    interval_cases c <;> rfl
  have e2 : (polygonMemoryAllocation heap (createMatrixOfVertexes heap
      (firstReadParser (some content) (initializeModel d0)))).minAt c = DBL_MAX := by
    have e := firstRead_fold (getlines content) (initializeModel d0)
      (by simp [initializeModel, UINT_MOD]) (by simp [initializeModel, UINT_MOD])
    simp only [firstReadParser, e]
    interval_cases c <;> rfl
  rw [e1, e2] at hb
  exact hb

/-- The mesh loaded from a file whose only vertex line carries three numbers. -/
theorem coreParser_one_vertex {heap : Heap α} {content : List Char} {d0 d : Data α}
    (h : coreParser heap (some content) d0 = some d) {l : List Char}
    (hl : (getlines content).filter isVertexLine = [l]) {x y z : α}
    (hx : scanDoubles 3 ((c_str l).drop 1) = [x, y, z]) :
    d.count_of_vertexes = 1 ∧ d.matrix_of_vertexes.matrix[1]? = some [x, y, z] ∧
    (d.maxX = fmax x DBL_MIN ∧ d.maxY = fmax y DBL_MIN ∧ d.maxZ = fmax z DBL_MIN) ∧
    (d.minX = fmin x DBL_MAX ∧ d.minY = fmin y DBL_MAX ∧ d.minZ = fmin z DBL_MAX) := by
  obtain ⟨c1, -, c3, -⟩ := coreParser_shape h
  have hn : (getlines content).countP isVertexLine = 1 := by
    rw [List.countP_eq_length_filter, hl]; rfl
  rw [hn] at c1 c3
  have r1 := coreParser_row_scanned h (k := 0) (l := l) (by rw [hl]; rfl) hx
  have hrows := rows_one c3 r1
  have b0 := coreParser_bounds h 0 (by decide)
  have b1 := coreParser_bounds h 1 (by decide)
  have b2 := coreParser_bounds h 2 (by decide)
  rw [c1, hrows] at b0 b1 b2
  simp only [Data.maxAt, Data.minAt, List.map_cons, List.map_nil, List.foldl_cons,
    List.foldl_nil, List.getD_cons_zero, List.getD_cons_succ] at b0 b1 b2
  exact ⟨c1, r1, ⟨b0.1, b1.1, b2.1⟩, ⟨b0.2, b1.2, b2.2⟩⟩

/-- The mesh loaded from a file whose two vertex lines carry three numbers each. -/
theorem coreParser_two_vertices {heap : Heap α} {content : List Char} {d0 d : Data α}
    (h : coreParser heap (some content) d0 = some d) {l1 l2 : List Char}
    (hl : (getlines content).filter isVertexLine = [l1, l2]) {x1 y1 z1 x2 y2 z2 : α}
    (h1 : scanDoubles 3 ((c_str l1).drop 1) = [x1, y1, z1])
    (h2 : scanDoubles 3 ((c_str l2).drop 1) = [x2, y2, z2]) :
    d.count_of_vertexes = 2 ∧ d.matrix_of_vertexes.matrix[1]? = some [x1, y1, z1] ∧
    d.matrix_of_vertexes.matrix[2]? = some [x2, y2, z2] ∧
    (d.maxX = fmax x2 (fmax x1 DBL_MIN) ∧ d.maxY = fmax y2 (fmax y1 DBL_MIN) ∧
      d.maxZ = fmax z2 (fmax z1 DBL_MIN)) ∧
    (d.minX = fmin x2 (fmin x1 DBL_MAX) ∧ d.minY = fmin y2 (fmin y1 DBL_MAX) ∧
      d.minZ = fmin z2 (fmin z1 DBL_MAX)) := by
  obtain ⟨c1, -, c3, -⟩ := coreParser_shape h
  have hn : (getlines content).countP isVertexLine = 2 := by
    rw [List.countP_eq_length_filter, hl]; rfl
  rw [hn] at c1 c3
  have r1 := coreParser_row_scanned h (k := 0) (l := l1) (by rw [hl]; rfl) h1
  have r2 := coreParser_row_scanned h (k := 1) (l := l2) (by rw [hl]; rfl) h2
  have hrows := rows_two c3 r1 r2
  have b0 := coreParser_bounds h 0 (by decide)
  have b1 := coreParser_bounds h 1 (by decide)
  have b2 := coreParser_bounds h 2 (by decide)
  rw [c1, hrows] at b0 b1 b2
  simp only [Data.maxAt, Data.minAt, List.map_cons, List.map_nil, List.foldl_cons,
    List.foldl_nil, List.getD_cons_zero, List.getD_cons_succ] at b0 b1 b2
  exact ⟨c1, r1, r2, ⟨b0.1, b1.1, b2.1⟩, ⟨b0.2, b1.2, b2.2⟩⟩

/-- The fill pass on a list of lines is the fill pass on its marker lines. -/
theorem secondRead_filter (heap : Heap α) (lines : List (List Char)) :
    ∀ s : Data α × Nat × Nat, lines.foldlM (secondReadLine heap) s
      = (lines.filter isMarkerLine).foldlM (secondReadLine heap) s := by
  induction lines with
  | nil => intro s; rfl
  | cons l ls ih =>
    intro s
    by_cases hm : isMarkerLine l = true
    · rw [List.filter_cons_of_pos hm, List.foldlM_cons, List.foldlM_cons]
      cases secondReadLine heap s l with
      | none => rfl
      | some s' => exact ih s'
    · have hm' : isVertexLine l = false ∧ isFaceLine l = false := by
        simpa [isMarkerLine] using hm
      rw [List.filter_cons_of_neg hm, List.foldlM_cons,
        secondReadLine_other heap s hm'.1 hm'.2]
      exact ih s

theorem keptIndices_all {toks : List (List Char)}
    (h : ∀ t ∈ toks, toUInt (atof t : α) ≠ 0) :
    keptIndices α toks = toks.map fun t => toUInt (atof t : α) := by
  unfold keptIndices
  rw [List.filter_eq_self]
  intro v hv
  obtain ⟨t, ht, e⟩ := List.mem_map.1 hv
  simp only [bne_iff_ne, ne_eq]
  rw [← e]
  exact h t ht

/-- The row that a load leaves for a well-formed vertex line: the three numbers
of the line, whatever the storage held. -/
theorem coreParser_row_wf {heap : Heap α} {content : List Char} {d0 d : Data α}
    (h : coreParser heap (some content) d0 = some d) {k : Nat} {l : List Char}
    (hk : ((getlines content).filter isVertexLine)[k]? = some l)
    (hw : WellFormedVertexLine α l) :
    d.matrix_of_vertexes.matrix[k + 1]? = some (scanDoubles 3 ((c_str l).drop 1)) := by
  rw [coreParser_row h hk, sscanfVertex, storeScanned_full _ _ (by rw [hw]; rfl)]

/-- The face that a load leaves for a well-formed face line: the converted
tokens after the marker, whatever the storage held. -/
theorem coreParser_face_wf {heap : Heap α} {content : List Char} {d0 d : Data α}
    (h : coreParser heap (some content) d0 = some d) {j : Nat} {l : List Char}
    (hl : ((getlines content).filter isFaceLine)[j]? = some l)
    (hw : WellFormedFaceLine α l) :
    d.array_of_polygon[j + 1]? = some
      ⟨(strtokAll (c_str l)).tail.map fun t => toUInt (atof t : α),
        (strtokAll (c_str l)).tail.length⟩ := by
  have hf : isFaceLine l = true := by
    have := List.getElem?_mem hl
    exact (List.mem_filter.1 this).2
  obtain ⟨s, -, htok, hkept⟩ := keptIndices_face (α := α) hf
  obtain ⟨hle, hres⟩ := coreParser_face h hl
  have htail : (strtokAll (c_str l)).tail = strtokAll s := by rw [htok]; rfl
  unfold WellFormedFaceLine at hw
  rw [htail] at hw ⊢
  rw [hkept, keptIndices_all hw] at hle hres
  rw [List.length_map] at hle hres
  have hn : countVertexesForPolygon (c_str l) = (strtokAll s).length := by
    have e := countVertexesForPolygon_eq (c_str l)
    rw [htok, List.length_cons] at e
    have hb : countVertexesForPolygon (c_str l) < UINT_MOD := by
      rw [e]; exact Nat.mod_lt _ (by decide)
    simp only [UINT_MOD] at e hb
    omega
  rw [hres, hn]
  simp [vertexesForPolygonMemoryAllocation]

end Loader

/-! ## Loops over the vertex rows -/

section Rows

variable {α : Type} [LinearOrderedField α]

theorem coord_of_getElem? {d : Data α} {i : Nat} {row : List α}
    (h : d.matrix_of_vertexes.matrix[i]? = some row) (c : Nat) :
    d.coord i c = row.getD c 0 := by
  simp [Data.coord, List.getD_eq_getElem?_getD, h]

/-- The coordinates of a vertex of a well-formed mesh after a loop over the
rows `1 ≤ i < rows`. -/
theorem Data.WellFormed.loop_coord {d : Data α} (hw : d.WellFormed) {i : Nat} (h1 : 1 ≤ i)
    (h2 : i ≤ d.count_of_vertexes) {x y z : α}
    (hr : d.matrix_of_vertexes.matrix[i]? = some [x, y, z]) (body : List α → List α)
    (c : Nat) :
    (d.loopRows 1 d.matrix_of_vertexes.rows body).coord i c = (body [x, y, z]).getD c 0 := by
  have hlt : i < d.matrix_of_vertexes.rows := by rw [hw.1]; omega
  rw [coord_of_getElem? (loopRows_row 1 d.matrix_of_vertexes.rows body hr) c]
  simp [h1, hlt]

end Rows

/-! ## Loading a file -/

section LoadClaims

variable {α : Type} [LinearOrderedField α] [FloorRing α]

/-- C1: when the file cannot be opened, `coreParser` still returns a mesh (no
error is signalled), and that mesh has vertex count 0 and face count 0, whatever
the mesh held before the call. -/
theorem coreParser_unopened (heap : Heap α) (d : Data α) :
    ∃ d', coreParser heap none d = some d' ∧
      d'.count_of_vertexes = 0 ∧ d'.count_of_polygons = 0 := by
  refine ⟨_, rfl, ?_, ?_⟩ <;> rfl

/-- C2: for every readable file, the load returns a mesh whenever the file is
within the range of the `int` counters; every mesh it returns has as vertex
count the number of lines whose first two characters are `"v "` and as face
count the number of lines whose first two characters are `"f "`; a line that is
neither (such as `vn ...`, `vt ...`, `# ...`, a lone `v`, an empty line) changes
no count. -/
theorem coreParser_counts (heap : Heap α) (content : List Char) (d0 : Data α) :
    (InRange content → ∃ d, coreParser heap (some content) d0 = some d) ∧
    (∀ d, coreParser heap (some content) d0 = some d →
      d.count_of_vertexes = (getlines content).countP (fun l => l.take 2 == ['v', ' ']) ∧
      d.count_of_polygons = (getlines content).countP (fun l => l.take 2 == ['f', ' '])) ∧
    (∀ (d : Data α) (l : List Char), (l.take 2 == ['v', ' ']) = false →
      (l.take 2 == ['f', ' ']) = false → firstReadLine d l = d) ∧
    (∀ l ∈ ["vn 0 0 1".data, "vt 0 1".data, "# v 1 2 3".data, "v".data, "".data],
      (List.take 2 l == ['v', ' ']) = false ∧ (List.take 2 l == ['f', ' ']) = false) := by
  refine ⟨coreParser_isSome heap content d0, ?_, ?_, by decide⟩
  · intro d h
    obtain ⟨c1, c2, -⟩ := coreParser_shape h
    exact ⟨c1, c2⟩
  · intro d l h1 h2
    rw [firstReadLine_counts]
    simp only [isVertexLine, isFaceLine, h1, h2]
    rfl

/-- C3: for every readable file the load returns a mesh whenever the file is
within the range of the `int` counters, and in every mesh it returns the slot
`k + 1` of the vertex table is what `sscanf` makes of the `k + 1`-th line that
starts with `"v "` (whatever the other lines are, well-formed or not, so every
vertex line uses up its own slot); when that line carries three numbers `x`,
`y`, `z` after the marker, the slot holds exactly `(x, y, z)`. -/
theorem coreParser_vertex_slot (heap : Heap α) (content : List Char) (d0 : Data α) :
    (InRange content → ∃ d, coreParser heap (some content) d0 = some d) ∧
    ∀ d, coreParser heap (some content) d0 = some d →
      ∀ (k : Nat) (l : List Char),
        ((getlines content).filter (fun l => l.take 2 == ['v', ' ']))[k]? = some l →
        d.matrix_of_vertexes.matrix[k + 1]? = some (sscanfVertex l
          [heap.dbl (k + 1) 0, heap.dbl (k + 1) 1, heap.dbl (k + 1) 2]) ∧
        ∀ x y z : α, scanDoubles 3 ((c_str l).drop 1) = [x, y, z] →
          d.matrix_of_vertexes.matrix[k + 1]? = some [x, y, z] := by
  refine ⟨coreParser_isSome heap content d0, ?_⟩
  intro d h k l hk
  exact ⟨coreParser_row h hk, fun x y z hxyz => coreParser_row_scanned h hk hxyz⟩

/-- C4, amended: for every readable file the load returns a mesh whenever the
file is within the range of the `int` counters, and in every mesh it returns,
if the tokens of the `j + 1`-th line that starts with `"f "` are the marker `f`
followed by `k ≥ 1` decimal integers, each between `1` and `2 ^ 32 - 1`, then
face `j + 1` has exactly `k` indices, those integers in the order written. -/
theorem coreParser_face_slot (heap : Heap α) (content : List Char) (d0 : Data α) :
    (InRange content → ∃ d, coreParser heap (some content) d0 = some d) ∧
    ∀ d, coreParser heap (some content) d0 = some d →
      ∀ (j : Nat) (l : List Char) (dss : List (List Char)),
        ((getlines content).filter (fun l => l.take 2 == ['f', ' ']))[j]? = some l →
        strtokAll (c_str l) = ['f'] :: dss → dss ≠ [] →
        (∀ ds ∈ dss, ds ≠ [] ∧ (∀ c ∈ ds, isdigit c = true) ∧
          0 < decValue ds ∧ decValue ds < 2 ^ 32) →
        d.array_of_polygon[j + 1]? = some ⟨dss.map decValue, dss.length⟩ := by
  refine ⟨coreParser_isSome heap content d0, ?_⟩
  intro d h j l dss hl htok hne hds
  obtain ⟨hle, hres⟩ := coreParser_face h (j := j) (l := l) hl
  have hk : keptIndices α (strtokAll (c_str l)) = dss.map decValue := by
    rw [htok, keptIndices_cons_zero _ toUInt_atof_f]
    exact keptIndices_digits dss hds
  rw [hk, List.length_map] at hle hres
  have hpos : 0 < dss.length := List.length_pos.2 hne
  have hn : countVertexesForPolygon (c_str l) = dss.length := by
    have e := countVertexesForPolygon_eq (c_str l)
    rw [htok, List.length_cons] at e
    have hb : countVertexesForPolygon (c_str l) < UINT_MOD := by
      rw [e]; exact Nat.mod_lt _ (by decide)
    simp only [UINT_MOD] at e hb
    omega
  rw [hres, hn]
  simp [vertexesForPolygonMemoryAllocation]

/-- C5, the code at the failing input: after loading the one-line file
`v -1 -2 -3` the only vertex is `(-1, -2, -3)`, the lower bounds are `-1`, `-2`,
`-3`, and the three upper bounds are still the start value `DBL_MIN`, which is
positive: no upper bound is the maximum of the loaded coordinates. -/
theorem coreParser_bounds_negative (heap : Heap α) (d0 : Data α) :
    ∃ d, coreParser heap (some "v -1 -2 -3".data) d0 = some d ∧
      d.count_of_vertexes = 1 ∧
      d.matrix_of_vertexes.matrix[1]? = some ([-1, -2, -3] : List α) ∧
      d.minX = -1 ∧ d.minY = -2 ∧ d.minZ = -3 ∧
      d.maxX = DBL_MIN ∧ d.maxY = DBL_MIN ∧ d.maxZ = DBL_MIN ∧
      d.maxX ≠ -1 ∧ d.maxY ≠ -2 ∧ d.maxZ ≠ -3 := by
  obtain ⟨d, hd⟩ := coreParser_isSome heap "v -1 -2 -3".data d0 (by unfold InRange; decide)
  have hk : ((getlines "v -1 -2 -3".data).filter isVertexLine)[0]?
      = some "v -1 -2 -3".data := by decide
  have hrow := coreParser_row_scanned hd hk (scanDoubles_run1 (α := α))
  obtain ⟨c1, -, c3, -⟩ := coreParser_shape hd
  have hc : d.count_of_vertexes = 1 := by rw [c1]; decide
  have hlen : d.matrix_of_vertexes.matrix.length = 2 := by rw [c3]; decide
  have hlt : 1 < d.matrix_of_vertexes.matrix.length := by omega
  have hget : d.matrix_of_vertexes.matrix[1] = [-1, -2, -3] := by
    have := List.getElem?_eq_getElem hlt
    rw [hrow] at this
    exact (Option.some.inj this).symm
  have hrows : (d.matrix_of_vertexes.matrix.drop 1).take d.count_of_vertexes
      = [[-1, -2, -3]] := by
    rw [hc, List.drop_eq_getElem_cons hlt, hget]
    simp
  have hp : (0 : α) < DBL_MIN := DBL_MIN_pos
  have hM : (0 : α) < DBL_MAX := by unfold DBL_MAX; norm_num
  have b0 := coreParser_bounds hd 0 (by decide)
  have b1 := coreParser_bounds hd 1 (by decide)
  have b2 := coreParser_bounds hd 2 (by decide)
  rw [hrows] at b0 b1 b2
  simp only [Data.maxAt, Data.minAt, List.map_cons, List.map_nil, List.foldl_cons,
    List.foldl_nil, List.getD_cons_zero, List.getD_cons_succ] at b0 b1 b2
  have f1 : ∀ x : α, x < 0 → fmax x DBL_MIN = DBL_MIN ∧ fmin x DBL_MAX = x := by
    intro x hx
    constructor
    · simp [fmax, hx.trans hp]
    · have : ¬ DBL_MAX < x := not_lt.2 (hx.trans hM).le
      simp [fmin, this]
  obtain ⟨m0, n0⟩ := f1 (-1) (by norm_num)
  obtain ⟨m1, n1⟩ := f1 (-2) (by norm_num)
  obtain ⟨m2, n2⟩ := f1 (-3) (by norm_num)
  rw [m0, n0] at b0
  rw [m1, n1] at b1
  rw [m2, n2] at b2
  refine ⟨d, hd, hc, hrow, b0.2, b1.2, b2.2, b0.1, b1.1, b2.1, ?_, ?_, ?_⟩
  · rw [b0.1]; intro e; rw [e] at hp; norm_num at hp
  · rw [b1.1]; intro e; rw [e] at hp; norm_num at hp
  · rw [b2.1]; intro e; rw [e] at hp; norm_num at hp

/-- C6, amended: for every readable file the load returns a mesh whenever the
file is within the range of the `int` counters, and in every mesh it returns,
face `j + 1` begins with the indices kept from the `j + 1`-th face line, each of
which lies between `1` and `2 ^ 32 - 1`; none is compared with the vertex
count. -/
theorem coreParser_index_range (heap : Heap α) (content : List Char) (d0 : Data α) :
    (InRange content → ∃ d, coreParser heap (some content) d0 = some d) ∧
    ∀ d, coreParser heap (some content) d0 = some d →
      ∀ (j : Nat) (l : List Char),
        ((getlines content).filter (fun l => l.take 2 == ['f', ' ']))[j]? = some l →
        ∃ f, d.array_of_polygon[j + 1]? = some f ∧
          f.vertexes.take (keptIndices α (strtokAll (c_str l))).length
            = keptIndices α (strtokAll (c_str l)) ∧
          ∀ v ∈ keptIndices α (strtokAll (c_str l)), 1 ≤ v ∧ v < 2 ^ 32 := by
  refine ⟨coreParser_isSome heap content d0, ?_⟩
  intro d h j l hl
  obtain ⟨-, hres⟩ := coreParser_face h (j := j) (l := l) hl
  refine ⟨_, hres, ?_, fun v hv => mem_keptIndices hv⟩
  simp

end LoadClaims

section LoadRuns

theorem coreParser_counts_witness :
    InRange "v 1 2 3\nvn 0 0 1\nv\n\nf 1 2 3\n# c\nv 4 5 6".data ∧
    ∃ d, coreParser zeroHeap (some "v 1 2 3\nvn 0 0 1\nv\n\nf 1 2 3\n# c\nv 4 5 6".data) blankData
        = some d ∧ d.count_of_vertexes = 2 ∧ d.count_of_polygons = 1 := by
  have hr : InRange "v 1 2 3\nvn 0 0 1\nv\n\nf 1 2 3\n# c\nv 4 5 6".data := by
    unfold InRange; decide
  obtain ⟨d, hd⟩ := (coreParser_counts zeroHeap _ blankData).1 hr
  obtain ⟨h1, h2⟩ := (coreParser_counts zeroHeap _ blankData).2.1 d hd
  refine ⟨hr, d, hd, ?_, ?_⟩
  · rw [h1]; decide
  · rw [h2]; decide

theorem coreParser_vertex_slot_witness :
    InRange "v 1 2\nf 1 2\nv 1.5 -2 3e1".data ∧
    ∃ d, coreParser zeroHeap (some "v 1 2\nf 1 2\nv 1.5 -2 3e1".data) blankData = some d ∧
      d.matrix_of_vertexes.matrix[2]? = some ([3 / 2, -2, 30] : List ℚ) := by
  have hr : InRange "v 1 2\nf 1 2\nv 1.5 -2 3e1".data := by
    unfold InRange; decide
  obtain ⟨d, hd⟩ := (coreParser_vertex_slot zeroHeap _ blankData).1 hr
  refine ⟨hr, d, hd, ?_⟩
  refine ((coreParser_vertex_slot zeroHeap _ blankData).2 d hd 1 "v 1.5 -2 3e1".data
    (by decide)).2 _ _ _ ?_
  have h1 : List.drop 1 (c_str "v 1.5 -2 3e1".data) = " 1.5 -2 3e1".data := by decide
  rw [h1]
  simp [scanDoubles, strtod, readSign, readFraction, readExponent, decValue, isspace,
    isdigit]
  norm_num

theorem keptIndices_run1 :
    keptIndices ℚ (strtokAll (c_str "f 4294967296 1".data)) = [1] := by
  have e : strtokAll (c_str "f 4294967296 1".data) = ['f'] :: ["4294967296".data, "1".data] := by
    decide
  have h1 : toUInt (atof "4294967296".data : ℚ) = 0 := by
    rw [atof_digits (by decide) (by decide), toUInt_natCast]; decide
  have h2 : toUInt (atof "1".data : ℚ) = 1 := by
    rw [atof_digits (by decide) (by decide), toUInt_natCast]; decide
  rw [e, keptIndices_cons_zero _ toUInt_atof_f, keptIndices_cons_zero _ h1,
    keptIndices_cons_pos _ (by rw [h2]; decide), h2]
  rfl

/-- C4, as stated, fails: the face line `f 4294967296 1` carries two positive
decimal integers, and the face stored for it is not `[4294967296, 1]`: the
first token is reduced to `0` and dropped, so the array holds `1` and then an
entry that was never written. -/
theorem coreParser_face_slot_counterexample :
    strtokAll (c_str "f 4294967296 1".data) = ["f".data, "4294967296".data, "1".data] ∧
    ∃ d, coreParser zeroHeap (some "f 4294967296 1".data) blankData = some d ∧
      d.array_of_polygon[1]? = some ⟨[1, 0], 2⟩ ∧
      d.array_of_polygon[1]? ≠ some ⟨[4294967296, 1], 2⟩ := by
  refine ⟨by decide, ?_⟩
  obtain ⟨d, hd⟩ := coreParser_isSome zeroHeap "f 4294967296 1".data blankData
    (by unfold InRange; decide)
  have hl : ((getlines "f 4294967296 1".data).filter isFaceLine)[0]?
      = some "f 4294967296 1".data := by decide
  obtain ⟨-, hres⟩ := coreParser_face hd hl
  have hn : countVertexesForPolygon (c_str "f 4294967296 1".data) = 2 := by decide
  rw [keptIndices_run1, hn] at hres
  have hres' : d.array_of_polygon[1]? = some ⟨[1, 0], 2⟩ := by
    rw [hres]; rfl
  refine ⟨d, hd, hres', ?_⟩
  rw [hres']
  decide

theorem coreParser_face_slot_witness :
    InRange "v 0 0 0\nf 3 1 2".data ∧
    ∃ d, coreParser zeroHeap (some "v 0 0 0\nf 3 1 2".data) blankData = some d ∧
      d.array_of_polygon[1]? = some ⟨[3, 1, 2], 3⟩ := by
  have hr : InRange "v 0 0 0\nf 3 1 2".data := by unfold InRange; decide
  obtain ⟨d, hd⟩ := (coreParser_face_slot zeroHeap _ blankData).1 hr
  refine ⟨hr, d, hd, ?_⟩
  exact (coreParser_face_slot zeroHeap _ blankData).2 d hd 0 "f 3 1 2".data
    ["3".data, "1".data, "2".data] (by decide) (by decide) (by decide) (by decide)

theorem keptIndices_run2 :
    keptIndices ℚ (strtokAll (c_str "f 1 2 3".data)) = [1, 2, 3] := by
  have e : strtokAll (c_str "f 1 2 3".data) = ['f'] :: ["1".data, "2".data, "3".data] := by
    decide
  rw [e, keptIndices_cons_zero _ toUInt_atof_f, keptIndices_digits _ (by decide)]
  decide

/-- C6, as stated, fails: after loading the file with the two lines `v 0 0 0`
and `f 1 2 3` the vertex count is `1` and face `1` holds the indices `1, 2, 3`,
of which `2` and `3` lie outside `[1, vertexCount]`. -/
theorem coreParser_index_range_counterexample :
    ∃ d, coreParser zeroHeap (some "v 0 0 0\nf 1 2 3".data) blankData = some d ∧
      d.count_of_vertexes = 1 ∧
      d.array_of_polygon[1]? = some ⟨[1, 2, 3], 3⟩ ∧
      ¬ ∀ (j : Nat) (f : Facets), d.array_of_polygon[j]? = some f →
          ∀ v ∈ f.vertexes, 1 ≤ v ∧ v ≤ d.count_of_vertexes := by
  obtain ⟨d, hd⟩ := coreParser_isSome zeroHeap "v 0 0 0\nf 1 2 3".data blankData
    (by unfold InRange; decide)
  have hl : ((getlines "v 0 0 0\nf 1 2 3".data).filter isFaceLine)[0]?
      = some "f 1 2 3".data := by decide
  obtain ⟨-, hres⟩ := coreParser_face hd hl
  have hn : countVertexesForPolygon (c_str "f 1 2 3".data) = 3 := by decide
  rw [keptIndices_run2, hn] at hres
  have hres' : d.array_of_polygon[1]? = some ⟨[1, 2, 3], 3⟩ := by
    rw [hres]; rfl
  have hc : d.count_of_vertexes = 1 := by
    rw [(coreParser_shape hd).1]; decide
  refine ⟨d, hd, hc, hres', ?_⟩
  intro hall
  have := (hall 1 _ hres' 3 (by decide)).2
  rw [hc] at this
  exact absurd this (by decide)

theorem coreParser_index_range_witness :
    InRange "v 0 0 0\nf 1 2 3".data ∧
    ∃ d f, coreParser zeroHeap (some "v 0 0 0\nf 1 2 3".data) blankData = some d ∧
      d.array_of_polygon[1]? = some f ∧ f.vertexes.take 3 = [1, 2, 3] ∧
      ∀ v ∈ [1, 2, 3], 1 ≤ v ∧ v < 2 ^ 32 := by
  have hr : InRange "v 0 0 0\nf 1 2 3".data := by unfold InRange; decide
  obtain ⟨d, hd⟩ := (coreParser_index_range zeroHeap _ blankData).1 hr
  obtain ⟨f, h1, h2, h3⟩ := (coreParser_index_range zeroHeap _ blankData).2 d hd 0
    "f 1 2 3".data (by decide)
  rw [keptIndices_run2] at h2 h3
  exact ⟨hr, d, f, hd, h1, h2, h3⟩

end LoadRuns

/-! ## The affine transforms -/

section TransformClaims

variable {α : Type} [LinearOrderedField α]

/-- C7: on every well-formed mesh, for every delta and every vertex index `i`
in `1..vertexCount`, `movingX` adds delta to the X coordinate of vertex `i` and
leaves its Y and Z coordinates unchanged; `movingY` and `movingZ` do the same
for the Y and the Z coordinate. -/
theorem moving_coords (d : Data α) (hw : d.WellFormed) (a : α) (i : Nat) (h1 : 1 ≤ i)
    (h2 : i ≤ d.count_of_vertexes) :
    ((movingX a d).coord i 0 = d.coord i 0 + a ∧ (movingX a d).coord i 1 = d.coord i 1 ∧
      (movingX a d).coord i 2 = d.coord i 2) ∧
    ((movingY a d).coord i 0 = d.coord i 0 ∧ (movingY a d).coord i 1 = d.coord i 1 + a ∧
      (movingY a d).coord i 2 = d.coord i 2) ∧
    ((movingZ a d).coord i 0 = d.coord i 0 ∧ (movingZ a d).coord i 1 = d.coord i 1 ∧
      (movingZ a d).coord i 2 = d.coord i 2 + a) := by
  obtain ⟨x, y, z, hr⟩ := hw.row h2
  have hc : ∀ c, d.coord i c = [x, y, z].getD c 0 := coord_of_getElem? hr
  have key := hw.loop_coord h1 h2 hr
  simp only [movingX, movingY, movingZ, key, hc]
  simp

/-- C8: on every well-formed mesh, for every angle `a` and every vertex index
`i` in `1..vertexCount`, with `(X, Y, Z)` the coordinates before the call:
`rotationX` gives `Y' = cos a * Y - sin a * Z` and `Z' = sin a * Y + cos a * Z`;
`rotationY` gives `X' = cos a * X + sin a * Z` and `Z' = -sin a * X + cos a * Z`;
`rotationZ` gives `X' = cos a * X - sin a * Y` and `Y' = sin a * X + cos a * Y`. -/
theorem rotation_coords (cos sin : α → α) (d : Data α) (hw : d.WellFormed) (a : α) (i : Nat)
    (h1 : 1 ≤ i) (h2 : i ≤ d.count_of_vertexes) :
    ((rotationX cos sin a d).coord i 1 = cos a * d.coord i 1 - sin a * d.coord i 2 ∧
      (rotationX cos sin a d).coord i 2 = sin a * d.coord i 1 + cos a * d.coord i 2) ∧
    ((rotationY cos sin a d).coord i 0 = cos a * d.coord i 0 + sin a * d.coord i 2 ∧
      (rotationY cos sin a d).coord i 2 = -sin a * d.coord i 0 + cos a * d.coord i 2) ∧
    ((rotationZ cos sin a d).coord i 0 = cos a * d.coord i 0 - sin a * d.coord i 1 ∧
      (rotationZ cos sin a d).coord i 1 = sin a * d.coord i 0 + cos a * d.coord i 1) := by
  obtain ⟨x, y, z, hr⟩ := hw.row h2
  have hc : ∀ c, d.coord i c = [x, y, z].getD c 0 := coord_of_getElem? hr
  have key := hw.loop_coord h1 h2 hr
  simp only [rotationX, rotationY, rotationZ, key, hc]
  simp

theorem scaleRow_three (a x y z : α) : scaleRow 3 a [x, y, z] = [x * a, y * a, z * a] := by
  simp [scaleRow, List.range_succ]

/-- C9: on every well-formed mesh, if the factor is positive `scaling`
multiplies the three coordinates of every vertex with index in `1..vertexCount`
by it; if the factor is zero or negative `scaling` changes nothing at all. -/
theorem scaling_coords (d : Data α) (hw : d.WellFormed) (f : α) :
    (0 < f → ∀ i, 1 ≤ i → i ≤ d.count_of_vertexes →
      (scaling f d).coord i 0 = d.coord i 0 * f ∧ (scaling f d).coord i 1 = d.coord i 1 * f ∧
      (scaling f d).coord i 2 = d.coord i 2 * f) ∧
    (f ≤ 0 → scaling f d = d) := by
  constructor
  · intro hf i h1 h2
    obtain ⟨x, y, z, hr⟩ := hw.row h2
    have hc : ∀ c, d.coord i c = [x, y, z].getD c 0 := coord_of_getElem? hr
    have key := hw.loop_coord h1 h2 hr
    simp only [scaling, hf, if_true, key, hc, hw.2.2.1, scaleRow_three]
    simp
  · intro hf
    simp [scaling, not_lt.2 hf]

theorem moving_wellFormed {d : Data α} (hw : d.WellFormed) (a : α) :
    (movingX a d).WellFormed ∧ (movingY a d).WellFormed ∧ (movingZ a d).WellFormed :=
  ⟨hw.loopRows _ _ (by intro r hr; simp [hr]), hw.loopRows _ _ (by intro r hr; simp [hr]),
    hw.loopRows _ _ (by intro r hr; simp [hr])⟩

theorem rotation_wellFormed (cos sin : α → α) {d : Data α} (hw : d.WellFormed) (a : α) :
    (rotationX cos sin a d).WellFormed ∧ (rotationY cos sin a d).WellFormed ∧
      (rotationZ cos sin a d).WellFormed :=
  ⟨hw.loopRows _ _ (by intro r hr; simp [hr]), hw.loopRows _ _ (by intro r hr; simp [hr]),
    hw.loopRows _ _ (by intro r hr; simp [hr])⟩

theorem moving_eq_spec {d : Data α} (hw : d.WellFormed) (a : α) :
    movingX a d = Spec.translateAxis d .X a ∧ movingY a d = Spec.translateAxis d .Y a ∧
      movingZ a d = Spec.translateAxis d .Z a := by
  simp only [movingX, movingY, movingZ, Spec.translateAxis, Spec.onVertices, hw.1]
  exact ⟨hw.loopRows_congr _ _ (by intro x y z; simp),
    hw.loopRows_congr _ _ (by intro x y z; simp),
    hw.loopRows_congr _ _ (by intro x y z; simp)⟩

theorem rotation_eq_spec (cos sin : α → α) {d : Data α} (hw : d.WellFormed) (a : α) :
    rotationX cos sin a d = Spec.rotateAxis cos sin d .X a ∧
      rotationY cos sin a d = Spec.rotateAxis cos sin d .Y a ∧
      rotationZ cos sin a d = Spec.rotateAxis cos sin d .Z a := by
  simp only [rotationX, rotationY, rotationZ, Spec.rotateAxis, Spec.onVertices, hw.1]
  exact ⟨hw.loopRows_congr _ _ (by intro x y z; simp),
    hw.loopRows_congr _ _ (by intro x y z; simp),
    hw.loopRows_congr _ _ (by intro x y z; simp)⟩

theorem scaling_eq_spec {d : Data α} (hw : d.WellFormed) (f : α) :
    scaling f d = Spec.scale d f := by
  simp only [scaling, Spec.scale, Spec.onVertices, hw.1, hw.2.2.1, gt_iff_lt]
  by_cases hf : 0 < f
  · simp only [hf, if_true]
    exact hw.loopRows_congr _ _ (by intro x y z; simp [scaleRow_three])
  · simp only [hf, if_false]

/-- C10: on every well-formed mesh and for every 3x3 parameter block `p`,
`affineTransform` is the composition, in this order, of the translations along
X, Y, Z by `p[0][0]`, `p[0][1]`, `p[0][2]`, the rotations about X, Y, Z by
`p[1][0]`, `p[1][1]`, `p[1][2]` and the scaling by `p[2][0]`, each as the
specification words it; and two blocks that differ only in `p[2][1]` and
`p[2][2]` give the same result. -/
theorem affineTransform_refines (cos sin : α → α) (d : Data α) (hw : d.WellFormed)
    (p p' : Fin 3 → Fin 3 → α) :
    affineTransform cos sin p d = Spec.applyAffine cos sin d p ∧
    ((∀ i j, ¬(i = 2 ∧ (j = 1 ∨ j = 2)) → p i j = p' i j) →
      affineTransform cos sin p d = affineTransform cos sin p' d) := by
  constructor
  · have w1 := (moving_wellFormed hw (p 0 0)).1
    have w2 := (moving_wellFormed w1 (p 0 1)).2.1
    have w3 := (moving_wellFormed w2 (p 0 2)).2.2
    have w4 := (rotation_wellFormed cos sin w3 (p 1 0)).1
    have w5 := (rotation_wellFormed cos sin w4 (p 1 1)).2.1
    have w6 := (rotation_wellFormed cos sin w5 (p 1 2)).2.2
    simp only [affineTransform, Spec.applyAffine]
    rw [scaling_eq_spec w6, (rotation_eq_spec cos sin w5 _).2.2,
      (rotation_eq_spec cos sin w4 _).2.1, (rotation_eq_spec cos sin w3 _).1,
      (moving_eq_spec w2 _).2.2, (moving_eq_spec w1 _).2.1, (moving_eq_spec hw _).1]
  · intro h
    simp only [affineTransform]
    rw [h 0 0 (by decide), h 0 1 (by decide), h 0 2 (by decide), h 1 0 (by decide),
      h 1 1 (by decide), h 1 2 (by decide), h 2 0 (by decide)]

end TransformClaims

section TransformRuns

theorem sampleMesh_wellFormed : sampleMesh.WellFormed := by
  refine ⟨rfl, rfl, rfl, ?_⟩
  intro r hr
  simp only [sampleMesh, List.mem_cons, List.mem_singleton, List.not_mem_nil, or_false] at hr
  rcases hr with rfl | rfl | rfl <;> rfl

theorem moving_coords_witness :
    sampleMesh.WellFormed ∧ 1 ≤ 2 ∧ 2 ≤ sampleMesh.count_of_vertexes ∧
    (movingX 2 sampleMesh).coord 2 0 = 1 ∧ (movingY 2 sampleMesh).coord 2 1 = 2 ∧
    (movingZ 2 sampleMesh).coord 2 2 = 6 ∧ (movingZ 2 sampleMesh).coord 2 0 = -1 := by
  have h := moving_coords sampleMesh sampleMesh_wellFormed 2 2 (by decide) (by decide)
  have c0 : sampleMesh.coord 2 0 = -1 := rfl
  have c1 : sampleMesh.coord 2 1 = 0 := rfl
  have c2 : sampleMesh.coord 2 2 = 4 := rfl
  rw [c0, c1, c2] at h
  refine ⟨sampleMesh_wellFormed, by decide, by decide, ?_, ?_, ?_, ?_⟩
  · rw [h.1.1]; norm_num
  · rw [h.2.1.2.1]; norm_num
  · rw [h.2.2.2.2]; norm_num
  · rw [h.2.2.1]

theorem rotation_coords_witness :
    sampleMesh.WellFormed ∧ 1 ≤ 1 ∧ 1 ≤ sampleMesh.count_of_vertexes ∧
    (rotationX sampleCos sampleSin 1 sampleMesh).coord 1 1 = -3 ∧
    (rotationX sampleCos sampleSin 1 sampleMesh).coord 1 2 = 2 ∧
    (rotationY sampleCos sampleSin 1 sampleMesh).coord 1 0 = 3 ∧
    (rotationZ sampleCos sampleSin 1 sampleMesh).coord 1 1 = 1 := by
  have h := rotation_coords sampleCos sampleSin sampleMesh sampleMesh_wellFormed 1 1
    (by decide) (by decide)
  have c0 : sampleMesh.coord 1 0 = 1 := rfl
  have c1 : sampleMesh.coord 1 1 = 2 := rfl
  have c2 : sampleMesh.coord 1 2 = 3 := rfl
  have hc : sampleCos 1 = 0 := by norm_num [sampleCos]
  have hs : sampleSin 1 = 1 := by norm_num [sampleSin]
  rw [c0, c1, c2, hc, hs] at h
  refine ⟨sampleMesh_wellFormed, by decide, by decide, ?_, ?_, ?_, ?_⟩
  · rw [h.1.1]; norm_num
  · rw [h.1.2]; norm_num
  · rw [h.2.1.1]; norm_num
  · rw [h.2.2.2]; norm_num

theorem scaling_coords_witness :
    sampleMesh.WellFormed ∧ (0 : ℚ) < 2 ∧ (-1 : ℚ) ≤ 0 ∧
    (scaling 2 sampleMesh).coord 1 0 = 2 ∧ (scaling 2 sampleMesh).coord 1 1 = 4 ∧
    (scaling 2 sampleMesh).coord 1 2 = 6 ∧ scaling (-1) sampleMesh = sampleMesh := by
  have h := (scaling_coords sampleMesh sampleMesh_wellFormed 2).1 (by norm_num) 1
    (by decide) (by decide)
  have c0 : sampleMesh.coord 1 0 = 1 := rfl
  have c1 : sampleMesh.coord 1 1 = 2 := rfl
  have c2 : sampleMesh.coord 1 2 = 3 := rfl
  rw [c0, c1, c2] at h
  refine ⟨sampleMesh_wellFormed, by norm_num, by norm_num, ?_, ?_, ?_,
    (scaling_coords sampleMesh sampleMesh_wellFormed (-1)).2 (by norm_num)⟩
  · rw [h.1]; norm_num
  · rw [h.2.1]; norm_num
  · rw [h.2.2]; norm_num

theorem affineTransform_refines_witness :
    sampleMesh.WellFormed ∧
    affineTransform sampleCos sampleSin (sampleBlock 5 7) sampleMesh
      = Spec.applyAffine sampleCos sampleSin sampleMesh (sampleBlock 5 7) ∧
    affineTransform sampleCos sampleSin (sampleBlock 5 7) sampleMesh
      = affineTransform sampleCos sampleSin (sampleBlock 0 0) sampleMesh := by
  have h := affineTransform_refines sampleCos sampleSin sampleMesh sampleMesh_wellFormed
    (sampleBlock 5 7) (sampleBlock 0 0)
  refine ⟨sampleMesh_wellFormed, h.1, h.2 ?_⟩
  intro i j hij
  fin_cases i <;> fin_cases j <;> simp [sampleBlock] at hij ⊢

end TransformRuns

/-! ## Inverses, frame and the empty mesh -/

section AlgebraClaims

variable {α : Type} [LinearOrderedField α]

/-- C14: on every well-formed mesh and for every `a`, `movingX a` followed by
`movingX (-a)` gives back the mesh it started from, so every coordinate of
every vertex is restored; the same holds for `movingY` and for `movingZ`. -/
theorem moving_inverse (d : Data α) (hw : d.WellFormed) (a : α) :
    movingX (-a) (movingX a d) = d ∧ movingY (-a) (movingY a d) = d ∧
      movingZ (-a) (movingZ a d) = d := by
  refine ⟨?_, ?_, ?_⟩
  · simp only [movingX]
    exact (loopRows_loopRows d _ _ _ _).trans (hw.loopRows_fix _ _ (by intro x y z; simp))
  · simp only [movingY]
    exact (loopRows_loopRows d _ _ _ _).trans (hw.loopRows_fix _ _ (by intro x y z; simp))
  · simp only [movingZ]
    exact (loopRows_loopRows d _ _ _ _).trans (hw.loopRows_fix _ _ (by intro x y z; simp))

/-- A rotation by `a` followed by the rotation by `-a` about the same axis gives
back a well-formed mesh, for any `cos` and `sin` that are even and odd and
satisfy the Pythagorean identity at `a`. -/
theorem rotation_inverse_of (cos sin : α → α) (d : Data α) (hw : d.WellFormed) (a : α)
    (hc : cos (-a) = cos a) (hs : sin (-a) = -sin a) (h1 : cos a ^ 2 + sin a ^ 2 = 1) :
    rotationX cos sin (-a) (rotationX cos sin a d) = d ∧
      rotationY cos sin (-a) (rotationY cos sin a d) = d ∧
      rotationZ cos sin (-a) (rotationZ cos sin a d) = d := by
  refine ⟨?_, ?_, ?_⟩
  · simp only [rotationX]
    refine (loopRows_loopRows d _ _ _ _).trans (hw.loopRows_fix _ _ ?_)
    intro x y z
    simp only [List.getD_cons_zero, List.getD_cons_succ, List.set_cons_zero,
      List.set_cons_succ, hc, hs, List.cons.injEq, and_true, true_and]
    constructor
    · linear_combination y * h1
    · linear_combination z * h1
  · simp only [rotationY]
    refine (loopRows_loopRows d _ _ _ _).trans (hw.loopRows_fix _ _ ?_)
    intro x y z
    simp only [List.getD_cons_zero, List.getD_cons_succ, List.set_cons_zero,
      List.set_cons_succ, hc, hs, List.cons.injEq, and_true, true_and]
    constructor
    · linear_combination x * h1
    · linear_combination z * h1
  · simp only [rotationZ]
    refine (loopRows_loopRows d _ _ _ _).trans (hw.loopRows_fix _ _ ?_)
    intro x y z
    simp only [List.getD_cons_zero, List.getD_cons_succ, List.set_cons_zero,
      List.set_cons_succ, hc, hs, List.cons.injEq, and_true, true_and]
    constructor
    · linear_combination x * h1
    · linear_combination y * h1

/-- C16: on every well-formed mesh and for every `f > 0`, `scaling f` followed
by `scaling (1 / f)` gives back the mesh it started from, so every coordinate
of every vertex is restored. -/
theorem scaling_inverse (d : Data α) (hw : d.WellFormed) (f : α) (hf : 0 < f) :
    scaling (1 / f) (scaling f d) = d := by
  have hf' : 0 < 1 / f := one_div_pos.2 hf
  have hne : f ≠ 0 := ne_of_gt hf
  simp only [scaling, hf, hf', if_true]
  refine (loopRows_loopRows d _ _ _ _).trans (hw.loopRows_fix _ _ ?_)
  intro x y z
  have hcol : (d.loopRows 1 d.matrix_of_vertexes.rows
      (scaleRow d.matrix_of_vertexes.columns f)).matrix_of_vertexes.columns = 3 := hw.2.2.1
  rw [hcol, hw.2.2.1, scaleRow_three, scaleRow_three]
  simp [mul_assoc, hne]

theorem scaling_frame (f : α) (d : Data α) : SameFrame d (scaling f d) := by
  unfold scaling
  split
  · exact sameFrame_loopRows d _ _ _
  · exact sameFrame_refl d

theorem setInCenter_eq_some {d d' : Data α} (h : setInCenter d = some d') :
    d.span ≠ 0 ∧
    d' = d.loopRows 1 (d.count_of_vertexes + 1) fun r =>
      ((r.set 0 ((r.getD 0 0 - (d.minX + (d.maxX - d.minX) / 2)) * (3 / d.span))).set 1
        ((r.getD 1 0 - (d.minY + (d.maxY - d.minY) / 2)) * (3 / d.span))).set 2
          ((r.getD 2 0 - (d.minZ + (d.maxZ - d.minZ) / 2)) * (3 / d.span)) := by
  unfold setInCenter at h
  split at h
  · simp at h
  · rename_i hs
    refine ⟨hs, ?_⟩
    simp only [Option.some.injEq] at h
    rw [← h]
    have e : (3 / 2 - (3 / 2 * (-1)) : α) = 3 := by norm_num
    simp only [e]

/-- C17: for every mesh and every argument, `movingX`, `movingY`, `movingZ`,
`rotationX`, `rotationY`, `rotationZ`, `scaling`, `affineTransform` and (when
it has a result) `setInCenter` leave the vertex count, the face count, the array
of faces with every index list in it, and the six bounds of the bounding box as
they were. -/
theorem transforms_frame (cos sin : α → α) (d : Data α) (a : α)
    (p : Fin 3 → Fin 3 → α) :
    (SameFrame d (movingX a d) ∧ SameFrame d (movingY a d) ∧ SameFrame d (movingZ a d)) ∧
    (SameFrame d (rotationX cos sin a d) ∧ SameFrame d (rotationY cos sin a d) ∧
      SameFrame d (rotationZ cos sin a d)) ∧
    SameFrame d (scaling a d) ∧
    SameFrame d (affineTransform cos sin p d) ∧
    ∀ d', setInCenter d = some d' → SameFrame d d' := by
  refine ⟨⟨sameFrame_loopRows d _ _ _, sameFrame_loopRows d _ _ _, sameFrame_loopRows d _ _ _⟩,
    ⟨sameFrame_loopRows d _ _ _, sameFrame_loopRows d _ _ _, sameFrame_loopRows d _ _ _⟩,
    scaling_frame a d, ?_, ?_⟩
  · unfold affineTransform
    exact sameFrame_trans (sameFrame_trans (sameFrame_trans (sameFrame_trans (sameFrame_trans
      (sameFrame_trans (sameFrame_loopRows d _ _ _) (sameFrame_loopRows _ _ _ _))
      (sameFrame_loopRows _ _ _ _)) (sameFrame_loopRows _ _ _ _))
      (sameFrame_loopRows _ _ _ _)) (sameFrame_loopRows _ _ _ _)) (scaling_frame _ _)
  · intro d' h
    rw [(setInCenter_eq_some h).2]
    exact sameFrame_loopRows d _ _ _

theorem span_initial (d : Data α) (h1 : d.minX = DBL_MAX) (h2 : d.minY = DBL_MAX)
    (h3 : d.minZ = DBL_MAX) (h4 : d.maxX = DBL_MIN) (h5 : d.maxY = DBL_MIN)
    (h6 : d.maxZ = DBL_MIN) : d.span = DBL_MIN - DBL_MAX ∧ d.span ≠ 0 := by
  have e : d.span = DBL_MIN - DBL_MAX := by
    simp [Data.span, h1, h2, h3, h4, h5, h6, fmax]
  refine ⟨e, ?_⟩
  rw [e]
  have : (DBL_MIN : α) < DBL_MAX := by
    have h1 : (DBL_MIN : α) ≤ 1 := by
      unfold DBL_MIN
      rw [div_le_one (by positivity)]
      exact one_le_pow₀ (by norm_num)
    have h2 : (1 : α) < DBL_MAX := by
      unfold DBL_MAX
      have : (1 : α) ≤ 2 ^ 971 := one_le_pow₀ (by norm_num)
      have h53 : (1 : α) < 2 ^ 53 - 1 := by norm_num
      nlinarith
    exact lt_of_le_of_lt h1 h2
  exact ne_of_lt (sub_neg.2 this)

theorem setInCenter_some {d : Data α} (hs : d.span ≠ 0) :
    setInCenter d = some (d.loopRows 1 (d.count_of_vertexes + 1) fun r =>
      ((r.set 0 ((r.getD 0 0 - (d.minX + (d.maxX - d.minX) / 2)) * (3 / d.span))).set 1
        ((r.getD 1 0 - (d.minY + (d.maxY - d.minY) / 2)) * (3 / d.span))).set 2
          ((r.getD 2 0 - (d.minZ + (d.maxZ - d.minZ) / 2)) * (3 / d.span))) := by
  unfold setInCenter
  rw [if_neg hs]
  have e : (3 / 2 - (3 / 2 * (-1)) : α) = 3 := by norm_num
  simp only [e]

theorem setInCenter_none {d : Data α} (hs : d.span = 0) : setInCenter d = none := by
  unfold setInCenter
  rw [if_pos hs]

/-- The coordinates that `setInCenter` leaves in a well-formed mesh. -/
theorem Data.WellFormed.setInCenter_coord {d : Data α} (hw : d.WellFormed) (hs : d.span ≠ 0) :
    ∃ d', setInCenter d = some d' ∧ ∀ i, 1 ≤ i → i ≤ d.count_of_vertexes →
      d'.coord i 0 = (d.coord i 0 - (d.minX + (d.maxX - d.minX) / 2)) * (3 / d.span) ∧
      d'.coord i 1 = (d.coord i 1 - (d.minY + (d.maxY - d.minY) / 2)) * (3 / d.span) ∧
      d'.coord i 2 = (d.coord i 2 - (d.minZ + (d.maxZ - d.minZ) / 2)) * (3 / d.span) := by
  refine ⟨_, setInCenter_some hs, ?_⟩
  intro i h1 h2
  obtain ⟨x, y, z, hr⟩ := hw.row h2
  have hc : ∀ c, d.coord i c = [x, y, z].getD c 0 := coord_of_getElem? hr
  rw [← hw.1]
  have key := hw.loop_coord h1 h2 hr
  simp only [key, hc]
  simp

end AlgebraClaims

section EmptyClaims

variable {α : Type} [LinearOrderedField α] [FloorRing α]

theorem coreParser_none_eq {heap : Heap α} {d0 d : Data α}
    (h : coreParser heap none d0 = some d) :
    d.count_of_vertexes = 0 ∧ d.count_of_polygons = 0 ∧ d.matrix_of_vertexes.rows = 1 ∧
    d.minX = DBL_MAX ∧ d.minY = DBL_MAX ∧ d.minZ = DBL_MAX ∧
    d.maxX = DBL_MIN ∧ d.maxY = DBL_MIN ∧ d.maxZ = DBL_MIN := by
  have e : d = polygonMemoryAllocation heap (createMatrixOfVertexes heap (initializeModel d0)) :=
    (Option.some.inj h).symm
  rw [e]
  exact ⟨rfl, rfl, rfl, rfl, rfl, rfl, rfl, rfl, rfl⟩

/-- C18: on the mesh that `coreParser` returns for a file that cannot be opened
(no vertex, no face, the start values as bounds), `movingX`, `movingY`,
`movingZ`, `rotationX`, `rotationY`, `rotationZ`, `scaling` and
`affineTransform` return the mesh as it was, and `setInCenter` has a result
(its divisor is `DBL_MIN - DBL_MAX`, not zero), which is the mesh as it was. -/
theorem transforms_on_empty (heap : Heap α) (d0 d : Data α)
    (h : coreParser heap none d0 = some d) (cos sin : α → α) (a : α)
    (p : Fin 3 → Fin 3 → α) :
    (movingX a d = d ∧ movingY a d = d ∧ movingZ a d = d) ∧
    (rotationX cos sin a d = d ∧ rotationY cos sin a d = d ∧ rotationZ cos sin a d = d) ∧
    scaling a d = d ∧ affineTransform cos sin p d = d ∧
    d.span ≠ 0 ∧ setInCenter d = some d := by
  obtain ⟨c1, -, hr, b1, b2, b3, b4, b5, b6⟩ := coreParser_none_eq h
  have key : ∀ body : List α → List α, d.loopRows 1 d.matrix_of_vertexes.rows body = d := by
    intro body
    exact loopRows_of_le d (by rw [hr]) body
  have hsc : ∀ f : α, scaling f d = d := by
    intro f
    unfold scaling
    split
    · exact key _
    · rfl
  have hsp := (span_initial d b1 b2 b3 b4 b5 b6).2
  refine ⟨⟨key _, key _, key _⟩, ⟨key _, key _, key _⟩, hsc a, ?_, hsp, ?_⟩
  · unfold affineTransform
    have m1 : movingX (p 0 0) d = d := key _
    have m2 : movingY (p 0 1) d = d := key _
    have m3 : movingZ (p 0 2) d = d := key _
    have r1 : rotationX cos sin (p 1 0) d = d := key _
    have r2 : rotationY cos sin (p 1 1) d = d := key _
    have r3 : rotationZ cos sin (p 1 2) d = d := key _
    rw [m1, m2, m3, r1, r2, r3, hsc]
  · unfold setInCenter
    rw [if_neg hsp]
    simp only [Option.some.injEq]
    exact loopRows_of_le d (by rw [c1]) _

end EmptyClaims

section NormalizeClaims

variable {α : Type} [LinearOrderedField α] [FloorRing α]

/-- C11: for every mesh that a load has just returned and whose largest
bounding-box extent is not zero, `setInCenter` has a result, in which every
coordinate of every vertex `1..vertexCount` is `(old - center) * scaleFactor`
with `center = min + (max - min) / 2` on that axis, taken from the bounding box,
and the one factor `3 / max (maxX - minX, maxY - minY, maxZ - minZ)` on all
three axes. -/
theorem setInCenter_coords (heap : Heap α) (content : List Char) (d0 d : Data α)
    (h : coreParser heap (some content) d0 = some d)
    (hs : fmax (fmax (d.maxX - d.minX) (d.maxY - d.minY)) (d.maxZ - d.minZ) ≠ 0) :
    ∃ d', setInCenter d = some d' ∧ ∀ i, 1 ≤ i → i ≤ d.count_of_vertexes →
      d'.coord i 0 = (d.coord i 0 - (d.minX + (d.maxX - d.minX) / 2)) *
        (3 / fmax (fmax (d.maxX - d.minX) (d.maxY - d.minY)) (d.maxZ - d.minZ)) ∧
      d'.coord i 1 = (d.coord i 1 - (d.minY + (d.maxY - d.minY) / 2)) *
        (3 / fmax (fmax (d.maxX - d.minX) (d.maxY - d.minY)) (d.maxZ - d.minZ)) ∧
      d'.coord i 2 = (d.coord i 2 - (d.minZ + (d.maxZ - d.minZ) / 2)) *
        (3 / fmax (fmax (d.maxX - d.minX) (d.maxY - d.minY)) (d.maxZ - d.minZ)) :=
  (coreParser_wellFormed h).setInCenter_coord hs

/-- C12, the code at the failing input: the file with the two vertex lines
`v -1 -1 -1` and `v -3 -1 -1` has its largest extent, `2`, along X and no extent
along Y and Z; after the load and `setInCenter` the extent of the vertices along
X is `6 / (3 + DBL_MIN)`, not `3`, and the midpoint of the vertices on X is not
`0`. -/
theorem setInCenter_negative_mesh (heap : Heap α) (d0 : Data α) :
    ∃ d d', coreParser heap (some "v -1 -1 -1\nv -3 -1 -1".data) d0 = some d ∧
      setInCenter d = some d' ∧
      (d.coord 1 0 = -1 ∧ d.coord 2 0 = -3) ∧
      (d.coord 1 1 = -1 ∧ d.coord 2 1 = -1) ∧ (d.coord 1 2 = -1 ∧ d.coord 2 2 = -1) ∧
      d'.coord 2 0 < d'.coord 1 0 ∧
      d'.coord 1 0 - d'.coord 2 0 = 6 / (3 + DBL_MIN) ∧
      d'.coord 1 0 - d'.coord 2 0 ≠ 3 ∧
      (d'.coord 2 0 + d'.coord 1 0) / 2 ≠ 0 := by
  obtain ⟨d, hd⟩ := coreParser_isSome heap "v -1 -1 -1\nv -3 -1 -1".data d0
    (by unfold InRange; decide)
  have hl : (getlines "v -1 -1 -1\nv -3 -1 -1".data).filter isVertexLine
      = ["v -1 -1 -1".data, "v -3 -1 -1".data] := by decide
  obtain ⟨s1, s2⟩ := scanDoubles_run2 (α := α)
  obtain ⟨c, r1, r2, ⟨mx, my, mz⟩, ⟨nx, ny, nz⟩⟩ := coreParser_two_vertices hd hl s1 s2
  have hp : (0 : α) < DBL_MIN := DBL_MIN_pos
  have hM : (-1 : α) ≤ DBL_MAX := le_trans (by norm_num) (DBL_MAX_gt (α := α))
  rw [fmax_DBL_MIN_of_neg (by norm_num), fmax_DBL_MIN_of_neg (by norm_num)] at mx my mz
  rw [fmin_DBL_MAX hM] at nx ny nz
  have e3 : fmin (-3 : α) (-1) = -3 := by simp [fmin]
  have e1 : fmin (-1 : α) (-1) = -1 := by simp [fmin]
  rw [e3] at nx
  rw [e1] at ny nz
  have hspan : d.span = DBL_MIN + 3 := by
    simp only [Data.span, mx, my, mz, nx, ny, nz, sub_neg_eq_add]
    have a1 : ¬ ((DBL_MIN : α) + 3 < DBL_MIN + 1) := by linarith
    simp [fmax, a1]
  have hs : d.span ≠ 0 := by rw [hspan]; linarith
  obtain ⟨d', hd', hco⟩ := (coreParser_wellFormed hd).setInCenter_coord hs
  have k1 := (hco 1 (by decide) (by rw [c]; decide)).1
  have k2 := (hco 2 (by decide) (by rw [c])).1
  have q10 : d.coord 1 0 = -1 := by rw [coord_of_getElem? r1]; rfl
  have q11 : d.coord 1 1 = -1 := by rw [coord_of_getElem? r1]; rfl
  have q12 : d.coord 1 2 = -1 := by rw [coord_of_getElem? r1]; rfl
  have q20 : d.coord 2 0 = -3 := by rw [coord_of_getElem? r2]; rfl
  have q21 : d.coord 2 1 = -1 := by rw [coord_of_getElem? r2]; rfl
  have q22 : d.coord 2 2 = -1 := by rw [coord_of_getElem? r2]; rfl
  rw [q10, mx, nx, hspan] at k1
  rw [q20, mx, nx, hspan] at k2
  generalize (DBL_MIN : α) = m at hp k1 k2 ⊢
  have hm3 : m + 3 ≠ 0 := by linarith
  have hm3' : 3 + m ≠ 0 := by linarith
  have hz : (0 : α) < 3 / (m + 3) := by positivity
  have hdiff : d'.coord 1 0 - d'.coord 2 0 = 6 / (3 + m) := by
    rw [k1, k2]; field_simp; ring
  refine ⟨d, d', hd, hd', ⟨q10, q20⟩, ⟨q11, q21⟩, ⟨q12, q22⟩, ?_, hdiff, ?_, ?_⟩
  · rw [k1, k2]
    apply mul_lt_mul_of_pos_right _ hz
    linarith
  · rw [hdiff]
    intro e
    rw [div_eq_iff hm3'] at e
    linarith
  · rw [k1, k2]
    intro e
    have e' : ((-3 - (-3 + (m - -3) / 2)) + (-1 - (-3 + (m - -3) / 2))) * (3 / (m + 3)) = 0 := by
      linear_combination 2 * e
    rcases mul_eq_zero.1 e' with e'' | e''
    · linarith
    · exact absurd e'' (ne_of_gt hz)

/-- C13, amended: `setInCenter` is not guarded.  It has no result exactly when
the largest extent of the bounding box is zero, because it divides by that
extent without testing it; and the mesh loaded from a file whose single vertex
line carries three numbers between `DBL_MIN` and `DBL_MAX` is such a mesh. -/
theorem setInCenter_unguarded (heap : Heap α) (content : List Char) (d0 d : Data α)
    (h : coreParser heap (some content) d0 = some d) :
    (∀ m : Data α, setInCenter m = none ↔
      fmax (fmax (m.maxX - m.minX) (m.maxY - m.minY)) (m.maxZ - m.minZ) = 0) ∧
    ∀ (l : List Char) (x y z : α), (getlines content).filter isVertexLine = [l] →
      scanDoubles 3 ((c_str l).drop 1) = [x, y, z] →
      (DBL_MIN ≤ x ∧ x ≤ DBL_MAX) → (DBL_MIN ≤ y ∧ y ≤ DBL_MAX) →
      (DBL_MIN ≤ z ∧ z ≤ DBL_MAX) →
      fmax (fmax (d.maxX - d.minX) (d.maxY - d.minY)) (d.maxZ - d.minZ) = 0 ∧
        setInCenter d = none := by
  constructor
  · intro m
    constructor
    · intro hn
      by_contra hne
      rw [setInCenter_some hne] at hn
      simp at hn
    · intro hz
      exact setInCenter_none hz
  · intro l x y z hl hx ⟨x1, x2⟩ ⟨y1, y2⟩ ⟨z1, z2⟩
    obtain ⟨-, -, ⟨mx, my, mz⟩, ⟨nx, ny, nz⟩⟩ := coreParser_one_vertex h hl hx
    rw [fmax_DBL_MIN x1] at mx
    rw [fmax_DBL_MIN y1] at my
    rw [fmax_DBL_MIN z1] at mz
    rw [fmin_DBL_MAX x2] at nx
    rw [fmin_DBL_MAX y2] at ny
    rw [fmin_DBL_MAX z2] at nz
    have hz : fmax (fmax (d.maxX - d.minX) (d.maxY - d.minY)) (d.maxZ - d.minZ) = 0 := by
      rw [mx, my, mz, nx, ny, nz]
      simp [fmax]
    exact ⟨hz, setInCenter_none hz⟩

end NormalizeClaims

section ReloadClaims

variable {α : Type} [LinearOrderedField α] [FloorRing α]

theorem coreParser_prior (heap : Heap α) (file : Option (List Char)) (m m' : Data α) :
    coreParser heap file m = coreParser heap file m' := rfl

/-- Two loads of one file of well-formed lines agree on every vertex row and
every face from index `1` on, whatever the storage held in each. -/
theorem coreParser_tables_wf {heap heap' : Heap α} {content : List Char} {d0 d0' d d' : Data α}
    (h : coreParser heap (some content) d0 = some d)
    (h' : coreParser heap' (some content) d0' = some d') (hw : WellFormedFile α content) :
    (∀ i, 1 ≤ i → d'.matrix_of_vertexes.matrix[i]? = d.matrix_of_vertexes.matrix[i]?) ∧
    (∀ j, 1 ≤ j → d'.array_of_polygon[j]? = d.array_of_polygon[j]?) := by
  obtain ⟨-, -, c3, c4, -⟩ := coreParser_shape h
  obtain ⟨-, -, c3', c4', -⟩ := coreParser_shape h'
  constructor
  · intro i hi
    obtain ⟨k, rfl⟩ : ∃ k, i = k + 1 := ⟨i - 1, by omega⟩
    cases hk : ((getlines content).filter isVertexLine)[k]? with
    | none =>
      have hlen : ((getlines content).filter isVertexLine).length ≤ k :=
        List.getElem?_eq_none_iff.1 hk
      rw [← List.countP_eq_length_filter] at hlen
      rw [List.getElem?_eq_none (by omega), List.getElem?_eq_none (by omega)]
    | some l =>
      have hm := List.mem_filter.1 (List.getElem?_mem hk)
      have hv := (hw l hm.1).1 hm.2
      rw [coreParser_row_wf h hk hv, coreParser_row_wf h' hk hv]
  · intro j hj
    obtain ⟨k, rfl⟩ : ∃ k, j = k + 1 := ⟨j - 1, by omega⟩
    cases hk : ((getlines content).filter isFaceLine)[k]? with
    | none =>
      have hlen : ((getlines content).filter isFaceLine).length ≤ k :=
        List.getElem?_eq_none_iff.1 hk
      rw [← List.countP_eq_length_filter] at hlen
      rw [List.getElem?_eq_none (by omega), List.getElem?_eq_none (by omega)]
    | some l =>
      have hm := List.mem_filter.1 (List.getElem?_mem hk)
      have hv := (hw l hm.1).2 hm.2
      rw [coreParser_face_wf h hk hv, coreParser_face_wf h' hk hv]

/-- C19: two loads of one file of well-formed vertex and face lines, from any
two earlier states of the mesh (for instance the second from the released,
transformed or normalized result of the first) and with any contents of the
fresh storage, return meshes with the same vertex count, face count, vertex
rows `1..`, faces `1..` and the same six bounds; the load never reads the
earlier state, and with the same storage contents the load after a release
returns the very same mesh. -/
theorem coreParser_reload (heap heap' : Heap α) (content : List Char) (d0 d0' d d' : Data α)
    (h : coreParser heap (some content) d0 = some d)
    (h' : coreParser heap' (some content) d0' = some d') (hw : WellFormedFile α content) :
    (d'.count_of_vertexes = d.count_of_vertexes ∧ d'.count_of_polygons = d.count_of_polygons) ∧
    (∀ i, 1 ≤ i → d'.matrix_of_vertexes.matrix[i]? = d.matrix_of_vertexes.matrix[i]?) ∧
    (∀ j, 1 ≤ j → d'.array_of_polygon[j]? = d.array_of_polygon[j]?) ∧
    (d'.minX = d.minX ∧ d'.minY = d.minY ∧ d'.minZ = d.minZ ∧
      d'.maxX = d.maxX ∧ d'.maxY = d.maxY ∧ d'.maxZ = d.maxZ) ∧
    (∀ (file : Option (List Char)) (m m' : Data α),
      coreParser heap file m = coreParser heap file m') ∧
    coreParser heap (some content) (releaseResources d) = some d := by
  obtain ⟨c1, c2, -⟩ := coreParser_shape h
  obtain ⟨c1', c2', -⟩ := coreParser_shape h'
  obtain ⟨hrows, hfaces⟩ := coreParser_tables_wf h h' hw
  have hcv : d'.count_of_vertexes = d.count_of_vertexes := by rw [c1, c1']
  have hlist : (d'.matrix_of_vertexes.matrix.drop 1).take d'.count_of_vertexes
      = (d.matrix_of_vertexes.matrix.drop 1).take d.count_of_vertexes := by
    apply List.ext_getElem?
    intro k
    rw [getElem?_rows, getElem?_rows, hcv, hrows (k + 1) (by omega)]
  have hb : ∀ c, c < 3 → d'.maxAt c = d.maxAt c ∧ d'.minAt c = d.minAt c := by
    intro c hc
    obtain ⟨e1, e2⟩ := coreParser_bounds h c hc
    obtain ⟨e1', e2'⟩ := coreParser_bounds h' c hc
    rw [e1, e2, e1', e2', hlist]
    exact ⟨rfl, rfl⟩
  refine ⟨⟨hcv, by rw [c2, c2']⟩, hrows, hfaces,
    ⟨(hb 0 (by decide)).2, (hb 1 (by decide)).2, (hb 2 (by decide)).2,
      (hb 0 (by decide)).1, (hb 1 (by decide)).1, (hb 2 (by decide)).1⟩,
    coreParser_prior heap, ?_⟩
  rw [coreParser_prior heap (some content) (releaseResources d) d0, h]

/-- C20: two readable files whose lines starting with `"v "` or `"f "` are the
same, in the same order (so that one comes from the other by inserting and
deleting lines that start with neither), load to the same result: the load of
one returns a mesh exactly when the load of the other does, and then it is the
same mesh, with the same counts, vertex rows, faces and bounds. -/
theorem coreParser_ignores_other_lines (heap : Heap α) (c1 c2 : List Char) (d1 d2 : Data α)
    (h : (getlines c1).filter (fun l => l.take 2 == ['v', ' '] || l.take 2 == ['f', ' '])
      = (getlines c2).filter (fun l => l.take 2 == ['v', ' '] || l.take 2 == ['f', ' '])) :
    coreParser heap (some c1) d1 = coreParser heap (some c2) d2 := by
  have h' : (getlines c1).filter isMarkerLine = (getlines c2).filter isMarkerLine := h
  have hv : (getlines c1).countP isVertexLine = (getlines c2).countP isVertexLine := by
    rw [← (countP_filter_marker (getlines c1)).1, ← (countP_filter_marker (getlines c2)).1, h']
  have hf : (getlines c1).countP isFaceLine = (getlines c2).countP isFaceLine := by
    rw [← (countP_filter_marker (getlines c1)).2, ← (countP_filter_marker (getlines c2)).2, h']
  simp only [coreParser, secondReadParser]
  rw [allocated_congr heap c1 c2 d1 d2 hv hf, secondRead_filter heap (getlines c1),
    secondRead_filter heap (getlines c2), h']

end ReloadClaims

section AlgebraRuns

/-- C15: on every well-formed mesh with real coordinates and for every angle
`a`, the rotation by `a` about an axis followed by the rotation by `-a` about
the same axis gives back the mesh it started from, so every coordinate of every
vertex is restored; `cos` and `sin` are the real cosine and sine. -/
theorem rotation_inverse (d : Data ℝ) (hw : d.WellFormed) (a : ℝ) :
    rotationX Real.cos Real.sin (-a) (rotationX Real.cos Real.sin a d) = d ∧
      rotationY Real.cos Real.sin (-a) (rotationY Real.cos Real.sin a d) = d ∧
      rotationZ Real.cos Real.sin (-a) (rotationZ Real.cos Real.sin a d) = d :=
  rotation_inverse_of Real.cos Real.sin d hw a (Real.cos_neg a) (Real.sin_neg a)
    (Real.cos_sq_add_sin_sq a)

theorem moving_inverse_witness :
    sampleMesh.WellFormed ∧ movingX (-2) (movingX 2 sampleMesh) = sampleMesh ∧
      movingY (-2) (movingY 2 sampleMesh) = sampleMesh ∧
      movingZ (-2) (movingZ 2 sampleMesh) = sampleMesh :=
  ⟨sampleMesh_wellFormed, moving_inverse sampleMesh sampleMesh_wellFormed 2⟩

theorem realMesh_wellFormed : realMesh.WellFormed := by
  refine ⟨rfl, rfl, rfl, ?_⟩
  intro r hr
  simp only [realMesh, List.mem_cons, List.mem_singleton, List.not_mem_nil, or_false] at hr
  rcases hr with rfl | rfl | rfl <;> rfl

theorem rotation_inverse_witness :
    realMesh.WellFormed ∧
    rotationX Real.cos Real.sin (-1) (rotationX Real.cos Real.sin 1 realMesh) = realMesh ∧
      rotationY Real.cos Real.sin (-1) (rotationY Real.cos Real.sin 1 realMesh) = realMesh ∧
      rotationZ Real.cos Real.sin (-1) (rotationZ Real.cos Real.sin 1 realMesh) = realMesh :=
  ⟨realMesh_wellFormed, rotation_inverse realMesh realMesh_wellFormed 1⟩

theorem scaling_inverse_witness :
    sampleMesh.WellFormed ∧ (0 : ℚ) < 2 ∧ scaling (1 / 2) (scaling 2 sampleMesh) = sampleMesh :=
  ⟨sampleMesh_wellFormed, by norm_num,
    scaling_inverse sampleMesh sampleMesh_wellFormed 2 (by norm_num)⟩

theorem transforms_on_empty_witness :
    ∃ d, coreParser zeroHeap none blankData = some d ∧
      movingX 2 d = d ∧ scaling 2 d = d ∧
      affineTransform sampleCos sampleSin (sampleBlock 0 0) d = d ∧ setInCenter d = some d := by
  refine ⟨_, rfl, ?_⟩
  have h := transforms_on_empty zeroHeap blankData _ rfl sampleCos sampleSin 2 (sampleBlock 0 0)
  exact ⟨h.1.1, h.2.2.1, h.2.2.2.1, h.2.2.2.2.2⟩

theorem setInCenter_coords_witness :
    ∃ d d', coreParser zeroHeap (some "v 1 2 3\nv 3 6 4".data) blankData = some d ∧
      fmax (fmax (d.maxX - d.minX) (d.maxY - d.minY)) (d.maxZ - d.minZ) = 4 ∧
      setInCenter d = some d' ∧
      d'.coord 1 0 = -3 / 4 ∧ d'.coord 1 1 = -3 / 2 ∧ d'.coord 1 2 = -3 / 8 ∧
      d'.coord 2 0 = 3 / 4 ∧ d'.coord 2 1 = 3 / 2 ∧ d'.coord 2 2 = 3 / 8 := by
  obtain ⟨d, hd⟩ := coreParser_isSome zeroHeap "v 1 2 3\nv 3 6 4".data blankData
    (by unfold InRange; decide)
  have hl : (getlines "v 1 2 3\nv 3 6 4".data).filter isVertexLine
      = ["v 1 2 3".data, "v 3 6 4".data] := by decide
  obtain ⟨c, r1, r2, ⟨mx, my, mz⟩, ⟨nx, ny, nz⟩⟩ :=
    coreParser_two_vertices hd hl scanDoubles_run3.2.1 scanDoubles_run3.2.2
  have g : ∀ x : ℚ, 1 ≤ x → x ≤ 100 → fmax x DBL_MIN = x ∧ fmin x DBL_MAX = x := by
    intro x h1 h2
    obtain ⟨a, b⟩ := DBL_range_small h1 h2
    exact ⟨fmax_DBL_MIN a, fmin_DBL_MAX b⟩
  rw [(g 1 (by norm_num) (by norm_num)).1] at mx
  rw [(g 2 (by norm_num) (by norm_num)).1] at my
  rw [(g 3 (by norm_num) (by norm_num)).1] at mz
  rw [(g 1 (by norm_num) (by norm_num)).2] at nx
  rw [(g 2 (by norm_num) (by norm_num)).2] at ny
  rw [(g 3 (by norm_num) (by norm_num)).2] at nz
  have e1 : d.maxX = 3 := by rw [mx]; norm_num [fmax]
  have e2 : d.maxY = 6 := by rw [my]; norm_num [fmax]
  have e3 : d.maxZ = 4 := by rw [mz]; norm_num [fmax]
  have e4 : d.minX = 1 := by rw [nx]; norm_num [fmin]
  have e5 : d.minY = 2 := by rw [ny]; norm_num [fmin]
  have e6 : d.minZ = 3 := by rw [nz]; norm_num [fmin]
  have hsp : fmax (fmax (d.maxX - d.minX) (d.maxY - d.minY)) (d.maxZ - d.minZ) = 4 := by
    rw [e1, e2, e3, e4, e5, e6]; norm_num [fmax]
  obtain ⟨d', hd', hco⟩ := setInCenter_coords zeroHeap _ blankData d hd (by rw [hsp]; norm_num)
  have k1 := hco 1 (by decide) (by rw [c]; decide)
  have k2 := hco 2 (by decide) (by rw [c])
  rw [hsp, e1, e2, e3, e4, e5, e6, coord_of_getElem? r1, coord_of_getElem? r1,
    coord_of_getElem? r1] at k1
  rw [hsp, e1, e2, e3, e4, e5, e6, coord_of_getElem? r2, coord_of_getElem? r2,
    coord_of_getElem? r2] at k2
  simp only [List.getD_cons_zero, List.getD_cons_succ] at k1 k2
  refine ⟨d, d', hd, hsp, hd', ?_, ?_, ?_, ?_, ?_, ?_⟩
  · rw [k1.1]; norm_num
  · rw [k1.2.1]; norm_num
  · rw [k1.2.2]; norm_num
  · rw [k2.1]; norm_num
  · rw [k2.2.1]; norm_num
  · rw [k2.2.2]; norm_num

/-- C13, as stated, fails: on the mesh loaded from the one-line file `v 1 1 1`
the largest extent of the bounding box is zero and `setInCenter` divides by it:
the call has no result, it neither leaves the mesh as it was nor reports
anything. -/
theorem setInCenter_unguarded_counterexample :
    ∃ d, coreParser zeroHeap (some "v 1 1 1".data) blankData = some d ∧
      d.count_of_vertexes = 1 ∧
      fmax (fmax (d.maxX - d.minX) (d.maxY - d.minY)) (d.maxZ - d.minZ) = 0 ∧
      setInCenter d = none ∧ setInCenter d ≠ some d := by
  obtain ⟨d, hd⟩ := coreParser_isSome zeroHeap "v 1 1 1".data blankData
    (by unfold InRange; decide)
  have hl : (getlines "v 1 1 1".data).filter isVertexLine = ["v 1 1 1".data] := by decide
  obtain ⟨c, -, ⟨mx, my, mz⟩, ⟨nx, ny, nz⟩⟩ := coreParser_one_vertex hd hl scanDoubles_run3.1
  have hr : (DBL_MIN : ℚ) ≤ 1 ∧ (1 : ℚ) ≤ DBL_MAX := DBL_range_small (by norm_num) (by norm_num)
  rw [fmax_DBL_MIN hr.1] at mx my mz
  rw [fmin_DBL_MAX hr.2] at nx ny nz
  have hz : fmax (fmax (d.maxX - d.minX) (d.maxY - d.minY)) (d.maxZ - d.minZ) = 0 := by
    rw [mx, my, mz, nx, ny, nz]
    simp [fmax]
  have hn : setInCenter d = none := setInCenter_none hz
  refine ⟨d, hd, c, hz, hn, ?_⟩
  rw [hn]
  simp

theorem setInCenter_unguarded_witness :
    ∃ d, coreParser zeroHeap (some "v 1 1 1".data) blankData = some d ∧
      fmax (fmax (d.maxX - d.minX) (d.maxY - d.minY)) (d.maxZ - d.minZ) = 0 ∧
      setInCenter d = none := by
  obtain ⟨d, hd⟩ := coreParser_isSome zeroHeap "v 1 1 1".data blankData
    (by unfold InRange; decide)
  have hr : (DBL_MIN : ℚ) ≤ 1 ∧ (1 : ℚ) ≤ DBL_MAX := DBL_range_small (by norm_num) (by norm_num)
  have h := (setInCenter_unguarded zeroHeap "v 1 1 1".data blankData d hd).2 "v 1 1 1".data 1 1 1
    (by decide) scanDoubles_run3.1 hr hr hr
  exact ⟨d, hd, h.1, h.2⟩

theorem wellFormedFile_run : WellFormedFile ℚ "v 1 2 3\n# c\nf 1 1 1".data := by
  have hl : getlines "v 1 2 3\n# c\nf 1 1 1".data
      = ["v 1 2 3".data, "# c".data, "f 1 1 1".data] := by decide
  intro l hmem
  rw [hl] at hmem
  simp only [List.mem_cons, List.mem_singleton, List.not_mem_nil, or_false] at hmem
  rcases hmem with rfl | rfl | rfl
  · refine ⟨fun _ => ?_, fun hf => absurd hf (by decide)⟩
    unfold WellFormedVertexLine
    rw [scanDoubles_run3.2.1]
    rfl
  · exact ⟨fun hv => absurd hv (by decide), fun hf => absurd hf (by decide)⟩
  · refine ⟨fun hv => absurd hv (by decide), fun _ => ?_⟩
    have ht : (strtokAll (c_str "f 1 1 1".data)).tail = ["1".data, "1".data, "1".data] := by
      decide
    unfold WellFormedFaceLine
    rw [ht]
    intro t hmem
    simp only [List.mem_cons, List.mem_singleton, List.not_mem_nil, or_false, or_self] at hmem
    rw [hmem, atof_digits (by decide) (by decide), toUInt_natCast]
    decide

theorem coreParser_reload_witness :
    WellFormedFile ℚ "v 1 2 3\n# c\nf 1 1 1".data ∧
    ∃ d d', coreParser zeroHeap (some "v 1 2 3\n# c\nf 1 1 1".data) blankData = some d ∧
      coreParser staleHeap (some "v 1 2 3\n# c\nf 1 1 1".data) (releaseResources d) = some d' ∧
      d'.count_of_vertexes = d.count_of_vertexes ∧
      d'.matrix_of_vertexes.matrix[1]? = d.matrix_of_vertexes.matrix[1]? ∧
      d'.array_of_polygon[1]? = d.array_of_polygon[1]? ∧ d'.maxX = d.maxX := by
  obtain ⟨d, hd⟩ := coreParser_isSome zeroHeap "v 1 2 3\n# c\nf 1 1 1".data blankData
    (by unfold InRange; decide)
  obtain ⟨d', hd'⟩ := coreParser_isSome staleHeap "v 1 2 3\n# c\nf 1 1 1".data
    (releaseResources d) (by unfold InRange; decide)
  have h := coreParser_reload zeroHeap staleHeap _ blankData (releaseResources d) d d' hd hd'
    wellFormedFile_run
  exact ⟨wellFormedFile_run, d, d', hd, hd', h.1.1, h.2.1 1 (by decide), h.2.2.1 1 (by decide),
    h.2.2.2.1.2.2.2.1⟩

theorem coreParser_ignores_other_lines_witness :
    (getlines "v 1 2 3\nf 1 1 1".data).filter
        (fun l => l.take 2 == ['v', ' '] || l.take 2 == ['f', ' '])
      = (getlines "# c\nv 1 2 3\nvn 0 0 1\n\n v 9 9 9\nf 1 1 1\nvt 0 0".data).filter
        (fun l => l.take 2 == ['v', ' '] || l.take 2 == ['f', ' ']) ∧
    coreParser zeroHeap (some "v 1 2 3\nf 1 1 1".data) blankData
      = coreParser zeroHeap
          (some "# c\nv 1 2 3\nvn 0 0 1\n\n v 9 9 9\nf 1 1 1\nvt 0 0".data) sampleMesh :=
  ⟨by decide, coreParser_ignores_other_lines zeroHeap _ _ blankData sampleMesh (by decide)⟩

theorem transforms_frame_witness :
    ∃ d', setInCenter sampleMesh = some d' ∧ SameFrame sampleMesh d' ∧
      SameFrame sampleMesh (movingX 2 sampleMesh) ∧
      SameFrame sampleMesh (affineTransform sampleCos sampleSin (sampleBlock 0 0) sampleMesh) := by
  have hs : sampleMesh.span ≠ 0 := by
    norm_num [Data.span, sampleMesh, fmax]
  have h := transforms_frame sampleCos sampleSin sampleMesh 2 (sampleBlock 0 0)
  exact ⟨_, setInCenter_some hs, h.2.2.2.2 _ (setInCenter_some hs), h.1.1, h.2.2.2.1⟩

end AlgebraRuns

/-! ## Counts and lines of a given shape -/

section ShapeLemmas

theorem isVertexLine_of_matchesVertex {l : List Char} (h : Spec.matchesVertex l = true) :
    isVertexLine l = true := by
  unfold Spec.matchesVertex at h
  exact (Bool.and_eq_true _ _ ▸ h).1

theorem isFaceLine_of_matchesFace {l : List Char} (h : Spec.matchesFace l = true) :
    isFaceLine l = true := by
  unfold Spec.matchesFace at h
  exact (Bool.and_eq_true _ _ ▸ h).1

end ShapeLemmas

section ShapeClaims

variable {α : Type} [LinearOrderedField α] [FloorRing α]

/-- C21, amended: for every readable file the load returns a mesh whenever the
file is within the range of the `int` counters, and in every mesh it returns the
vertex count is the number of lines whose first two characters are `"v "` and
the face count the number of lines whose first two characters are `"f "`,
whatever follows the marker.  So the counts are at least the numbers of lines
matching `v <float> <float> <float>` and `f ...` with three or more tokens, and
equal to them when every line that starts with the marker matches; in the count
pass every line that starts with `"v "` adds a vertex and every line that starts
with `"f "` adds a face. -/
theorem coreParser_counts_marker (heap : Heap α) (content : List Char) (d0 : Data α) :
    (InRange content → ∃ d, coreParser heap (some content) d0 = some d) ∧
    (∀ d, coreParser heap (some content) d0 = some d →
      (d.count_of_vertexes = (getlines content).countP (fun l => l.take 2 == ['v', ' ']) ∧
        d.count_of_polygons = (getlines content).countP (fun l => l.take 2 == ['f', ' '])) ∧
      ((getlines content).countP Spec.matchesVertex ≤ d.count_of_vertexes ∧
        (getlines content).countP Spec.matchesFace ≤ d.count_of_polygons) ∧
      ((∀ l ∈ getlines content, (l.take 2 == ['v', ' ']) = true → Spec.matchesVertex l = true) →
        d.count_of_vertexes = (getlines content).countP Spec.matchesVertex) ∧
      ((∀ l ∈ getlines content, (l.take 2 == ['f', ' ']) = true → Spec.matchesFace l = true) →
        d.count_of_polygons = (getlines content).countP Spec.matchesFace)) ∧
    (∀ (d : Data α) (l : List Char), (l.take 2 == ['v', ' ']) = true →
      (firstReadLine d l).count_of_vertexes = (d.count_of_vertexes + 1) % 2 ^ 32) ∧
    (∀ (d : Data α) (l : List Char), (l.take 2 == ['f', ' ']) = true →
      (firstReadLine d l).count_of_polygons = (d.count_of_polygons + 1) % 2 ^ 32) := by
  refine ⟨coreParser_isSome heap content d0, ?_, ?_, ?_⟩
  · intro d h
    obtain ⟨c1, c2, -⟩ := coreParser_shape h
    refine ⟨⟨c1, c2⟩, ⟨?_, ?_⟩, ?_, ?_⟩
    · rw [c1]
      exact List.countP_mono_left fun l _ hl => isVertexLine_of_matchesVertex hl
    · rw [c2]
      exact List.countP_mono_left fun l _ hl => isFaceLine_of_matchesFace hl
    · intro hall
      rw [c1]
      exact List.countP_congr fun l hl => ⟨hall l hl, isVertexLine_of_matchesVertex⟩
    · intro hall
      rw [c2]
      exact List.countP_congr fun l hl => ⟨hall l hl, isFaceLine_of_matchesFace⟩
  · intro d l hl
    have hv : isVertexLine l = true := hl
    rw [firstReadLine_counts]
    simp [hv, UINT_MOD]
  · intro d l hl
    have hf : isFaceLine l = true := hl
    rw [firstReadLine_counts]
    simp [hf, UINT_MOD]

end ShapeClaims

section ShapeRuns

/-- C21, as stated, fails: in the file with the two lines `v 1 2` and `f 1` no
line matches `v <float> <float> <float>` and no line is an `f` line with three
tokens after the marker, and the load returns vertex count `1` and face count
`1`: the line that begins `"v "` without three numbers adds a vertex and the
line that begins `"f "` with a single token adds a face. -/
theorem coreParser_counts_marker_counterexample :
    Spec.matchesVertex "v 1 2".data = false ∧ Spec.matchesFace "f 1".data = false ∧
    (getlines "v 1 2\nf 1".data).countP Spec.matchesVertex = 0 ∧
    (getlines "v 1 2\nf 1".data).countP Spec.matchesFace = 0 ∧
    ∃ d, coreParser zeroHeap (some "v 1 2\nf 1".data) blankData = some d ∧
      d.count_of_vertexes = 1 ∧ d.count_of_polygons = 1 ∧
      d.count_of_vertexes ≠ (getlines "v 1 2\nf 1".data).countP Spec.matchesVertex ∧
      d.count_of_polygons ≠ (getlines "v 1 2\nf 1".data).countP Spec.matchesFace := by
  have m1 : (getlines "v 1 2\nf 1".data).countP Spec.matchesVertex = 0 := by decide
  have m2 : (getlines "v 1 2\nf 1".data).countP Spec.matchesFace = 0 := by decide
  refine ⟨by decide, by decide, m1, m2, ?_⟩
  obtain ⟨d, hd⟩ := coreParser_isSome zeroHeap "v 1 2\nf 1".data blankData
    (by unfold InRange; decide)
  obtain ⟨c1, c2, -⟩ := coreParser_shape hd
  have h1 : d.count_of_vertexes = 1 := by rw [c1]; decide
  have h2 : d.count_of_polygons = 1 := by rw [c2]; decide
  refine ⟨d, hd, h1, h2, ?_, ?_⟩
  · rw [h1, m1]; decide
  · rw [h2, m2]; decide

theorem coreParser_counts_marker_witness :
    InRange "v 1 2 3\nv 1.5 -2 3e1\nvn 0 0 1\nf 1 2 2".data ∧
    (∀ l ∈ getlines "v 1 2 3\nv 1.5 -2 3e1\nvn 0 0 1\nf 1 2 2".data,
      (l.take 2 == ['v', ' ']) = true → Spec.matchesVertex l = true) ∧
    ∃ d, coreParser zeroHeap (some "v 1 2 3\nv 1.5 -2 3e1\nvn 0 0 1\nf 1 2 2".data) blankData
        = some d ∧
      d.count_of_vertexes = 2 ∧ d.count_of_polygons = 1 ∧
      d.count_of_vertexes
        = (getlines "v 1 2 3\nv 1.5 -2 3e1\nvn 0 0 1\nf 1 2 2".data).countP Spec.matchesVertex := by
  have hr : InRange "v 1 2 3\nv 1.5 -2 3e1\nvn 0 0 1\nf 1 2 2".data := by
    unfold InRange; decide
  have hall : ∀ l ∈ getlines "v 1 2 3\nv 1.5 -2 3e1\nvn 0 0 1\nf 1 2 2".data,
      (l.take 2 == ['v', ' ']) = true → Spec.matchesVertex l = true := by decide
  obtain ⟨d, hd⟩ := (coreParser_counts_marker zeroHeap _ blankData).1 hr
  obtain ⟨⟨h1, h2⟩, -, h3, -⟩ := (coreParser_counts_marker zeroHeap _ blankData).2.1 d hd
  refine ⟨hr, hall, d, hd, ?_, ?_, h3 hall⟩
  · rw [h1]; decide
  · rw [h2]; decide

end ShapeRuns

/-! ## The slots of the two tables -/

section SlotLemmas

variable {α : Type} [LinearOrderedField α]

theorem allocated_facet (heap : Heap α) (content : List Char) (d : Data α) (j : Nat)
    (h : j < ((getlines content).countP isFaceLine % UINT_MOD + 1) % UINT_MOD) :
    (polygonMemoryAllocation heap (createMatrixOfVertexes heap
        (firstReadParser (some content) (initializeModel d)))).array_of_polygon[j]?
      = some (heap.facet j) := by
  have e := firstRead_fold (getlines content) (initializeModel d)
    (by simp [initializeModel, UINT_MOD]) (by simp [initializeModel, UINT_MOD])
  simp only [firstReadParser, e]
  simp only [polygonMemoryAllocation, createMatrixOfVertexes, initializeModel, Nat.zero_add]
  rw [List.getElem?_map, List.getElem?_range h]
  rfl

theorem getElem?_filter_iff {β : Type} (p : β → Bool) (xs : List β) (k : Nat) :
    k < xs.countP p ↔ ∃ x, (xs.filter p)[k]? = some x := by
  rw [List.countP_eq_length_filter]
  constructor
  · intro h
    exact ⟨_, List.getElem?_eq_getElem h⟩
  · rintro ⟨x, hx⟩
    exact (List.getElem?_eq_some_iff.1 hx).1

end SlotLemmas

section SlotClaims

variable {α : Type} [LinearOrderedField α] [FloorRing α]

/-- The slots `0` of the two tables after a load: what the storage held when it
was allocated. -/
theorem coreParser_slot_zero {heap : Heap α} {content : List Char} {d0 d : Data α}
    (h : coreParser heap (some content) d0 = some d) :
    d.matrix_of_vertexes.matrix[0]? = some [heap.dbl 0 0, heap.dbl 0 1, heap.dbl 0 2] ∧
    d.array_of_polygon[0]? = some (heap.facet 0) := by
  obtain ⟨r, hr, e⟩ := coreParser_eq_some h
  obtain ⟨-, -, c3, c4, -⟩ := coreParser_shape h
  obtain ⟨-, -, a3, a4, -⟩ := allocated_eq heap content d0
  obtain ⟨sh, -⟩ := secondRead_shape heap _ _ _ _ _ hr
  have l1 := sh.2.2.2.2.1
  have l2 := sh.2.2.2.2.2
  rw [e, c3, a3] at l1
  rw [e, c4, a4] at l2
  have r0 := (secondRead_rows heap _ _ _ hr).2 0 Nat.one_pos
  have f0 := (secondRead_faces heap _ _ _ hr).2 0 Nat.one_pos
  simp only at r0 f0
  rw [e] at r0 f0
  rw [r0, f0, allocated_row heap content d0 0 (by omega),
    allocated_facet heap content d0 0 (by omega)]
  exact ⟨rfl, rfl⟩

/-- The counters of the fill pass at the end of a load: one past the vertex
count and one past the face count. -/
theorem coreParser_counters {heap : Heap α} {content : List Char} {d0 d : Data α}
    (h : coreParser heap (some content) d0 = some d) :
    ∃ r : Data α × Nat × Nat,
      (getlines content).foldlM (secondReadLine heap)
        (polygonMemoryAllocation heap (createMatrixOfVertexes heap
          (firstReadParser (some content) (initializeModel d0))), 1, 1) = some r ∧
      r.1 = d ∧ r.2.1 = d.count_of_vertexes + 1 ∧ r.2.2 = d.count_of_polygons + 1 := by
  obtain ⟨r, hr, e⟩ := coreParser_eq_some h
  obtain ⟨c1, c2, -⟩ := coreParser_shape h
  obtain ⟨-, hi, hj, -⟩ := secondRead_shape heap _ _ _ _ _ hr
  exact ⟨r, hr, e, by rw [hi, c1, Nat.add_comm], by rw [hj, c2, Nat.add_comm]⟩

/-- C22: for every readable file the load returns a mesh whenever the file is
within the range of the `int` counters (no access outside a table is made), and
in every mesh it returns: the vertex table has `vertexCount + 1` slots and the
face table `faceCount + 1`; the lines that start with `"v "` are numbered by
exactly the `k < vertexCount`, and line `k` fills slot `k + 1` with one `sscanf`
on the storage as allocated; slot `0` holds the storage as allocated; the same
for the lines that start with `"f "` and the face table; and the two counters
of the fill pass end at `vertexCount + 1` and `faceCount + 1`, the counts that
the count pass found. -/
theorem coreParser_slots (heap : Heap α) (content : List Char) (d0 : Data α) :
    (InRange content → ∃ d, coreParser heap (some content) d0 = some d) ∧
    ∀ d, coreParser heap (some content) d0 = some d →
      (d.matrix_of_vertexes.matrix.length = d.count_of_vertexes + 1 ∧
        d.array_of_polygon.length = d.count_of_polygons + 1) ∧
      ((∀ k, k < d.count_of_vertexes ↔
          ∃ l, ((getlines content).filter (fun l => l.take 2 == ['v', ' ']))[k]? = some l) ∧
        (∀ k l, ((getlines content).filter (fun l => l.take 2 == ['v', ' ']))[k]? = some l →
          d.matrix_of_vertexes.matrix[k + 1]? = some (sscanfVertex l
            [heap.dbl (k + 1) 0, heap.dbl (k + 1) 1, heap.dbl (k + 1) 2])) ∧
        d.matrix_of_vertexes.matrix[0]? = some [heap.dbl 0 0, heap.dbl 0 1, heap.dbl 0 2]) ∧
      ((∀ k, k < d.count_of_polygons ↔
          ∃ l, ((getlines content).filter (fun l => l.take 2 == ['f', ' ']))[k]? = some l) ∧
        (∀ k l, ((getlines content).filter (fun l => l.take 2 == ['f', ' ']))[k]? = some l →
          ∃ vs, parserVertexesForPolygon (α := α) (c_str l)
              (vertexesForPolygonMemoryAllocation heap (k + 1)
                (countVertexesForPolygon (c_str l))) = some vs ∧
            d.array_of_polygon[k + 1]? = some ⟨vs, countVertexesForPolygon (c_str l)⟩) ∧
        d.array_of_polygon[0]? = some (heap.facet 0)) ∧
      ∃ r : Data α × Nat × Nat,
        (getlines content).foldlM (secondReadLine heap)
          (polygonMemoryAllocation heap (createMatrixOfVertexes heap
            (firstReadParser (some content) (initializeModel d0))), 1, 1) = some r ∧
        r.1 = d ∧ r.2.1 = d.count_of_vertexes + 1 ∧ r.2.2 = d.count_of_polygons + 1 := by
  refine ⟨coreParser_isSome heap content d0, ?_⟩
  intro d h
  obtain ⟨c1, c2, c3, c4, -⟩ := coreParser_shape h
  obtain ⟨z1, z2⟩ := coreParser_slot_zero h
  refine ⟨⟨by rw [c3, c1], by rw [c4, c2]⟩, ⟨?_, ?_, z1⟩, ⟨?_, ?_, z2⟩, coreParser_counters h⟩
  · intro k
    rw [c1]
    exact getElem?_filter_iff isVertexLine _ k
  · intro k l hk
    exact coreParser_row h hk
  · intro k
    rw [c2]
    exact getElem?_filter_iff isFaceLine _ k
  · intro k l hk
    obtain ⟨r, hr, e⟩ := coreParser_eq_some h
    obtain ⟨vs, hp, hres⟩ := (secondRead_faces heap _ _ _ hr).1 k l hk
    simp only at hp hres
    rw [e, Nat.add_comm 1 k] at hres
    rw [Nat.add_comm 1 k] at hp
    exact ⟨vs, hp, hres⟩

end SlotClaims

section SlotRuns

theorem coreParser_slots_witness :
    InRange "v 1 2 3\nvn 0 0 1\nv 3\nf 1 2".data ∧
    ∃ d, coreParser staleHeap (some "v 1 2 3\nvn 0 0 1\nv 3\nf 1 2".data) blankData = some d ∧
      d.count_of_vertexes = 2 ∧ d.matrix_of_vertexes.matrix.length = 3 ∧
      d.array_of_polygon.length = 2 ∧
      d.matrix_of_vertexes.matrix[0]? = some [7, 7, 7] ∧
      d.matrix_of_vertexes.matrix[2]? = some [3, 7, 7] ∧
      d.array_of_polygon[0]? = some ⟨[5], 4⟩ := by
  have hr : InRange "v 1 2 3\nvn 0 0 1\nv 3\nf 1 2".data := by unfold InRange; decide
  obtain ⟨d, hd⟩ := (coreParser_slots staleHeap _ blankData).1 hr
  obtain ⟨⟨l1, l2⟩, ⟨v1, v2, v3⟩, ⟨f1, f2, f3⟩, -⟩ :=
    (coreParser_slots staleHeap _ blankData).2 d hd
  have hc : d.count_of_vertexes = 2 := by rw [(coreParser_shape hd).1]; decide
  have hp : d.count_of_polygons = 1 := by rw [(coreParser_shape hd).2.1]; decide
  have h2 := v2 1 "v 3".data (by decide)
  have e : sscanfVertex "v 3".data [staleHeap.dbl 2 0, staleHeap.dbl 2 1, staleHeap.dbl 2 2]
      = ([3, 7, 7] : List ℚ) := by
    have h1 : List.drop 1 (c_str "v 3".data) = " 3".data := by decide
    unfold sscanfVertex
    rw [h1]
    simp [scanDoubles, strtod, readSign, readFraction, readExponent, decValue, isspace,
      isdigit, storeScanned, staleHeap]
  rw [e] at h2
  exact ⟨hr, d, hd, hc, by rw [l1, hc], by rw [l2, hp], v3, h2, f3⟩

end SlotRuns

/-! ## The recorded size of a face -/

section TokenLemmas

theorem tokensScan_congr {p q : Char → Bool} (s : List Char) (h : ∀ c ∈ s, p c = q c) :
    Spec.tokensScan p s = Spec.tokensScan q s := by
  induction s with
  | nil => rfl
  | cons c cs ih =>
    have e := ih fun x hx => h x (List.mem_cons_of_mem _ hx)
    simp only [Spec.tokensScan, e, h c (List.mem_cons_self _ _)]

theorem strtokScan_eq_tokensScan (s : List Char) :
    strtokScan s = Spec.tokensScan (fun c => decide (c = ' ')) s := by
  induction s with
  | nil => rfl
  | cons c cs ih => simp only [strtokScan, Spec.tokensScan, ih, decide_eq_true_eq]

theorem c_str_of_no_nul {l : List Char} (h : ∀ c ∈ l, c ≠ Char.ofNat 0) : c_str l = l := by
  unfold c_str
  rw [List.takeWhile_eq_self_iff]
  intro c hc
  simpa using h c hc

/-- On a line whose only white space is the space character, and without a NUL,
the tokens that `strtok` cuts are the tokens cut at white space. -/
theorem strtokAll_eq_whitespaceTokens {l : List Char}
    (hs : ∀ c ∈ l, isspace c = true → c = ' ') (hz : ∀ c ∈ l, c ≠ Char.ofNat 0) :
    strtokAll (c_str l) = Spec.whitespaceTokens l := by
  have e : strtokScan l = Spec.tokensScan isspace l := by
    rw [strtokScan_eq_tokensScan]
    apply tokensScan_congr
    intro c hc
    by_cases h : isspace c = true
    · rw [h, hs c hc h]; rfl
    · have h' : isspace c = false := by simpa using h
      have hne : c ≠ ' ' := by
        intro e
        rw [e] at h'
        exact absurd h' (by decide)
      rw [h']
      simpa using hne
  rw [c_str_of_no_nul hz]
  simp only [strtokAll, Spec.whitespaceTokens, e]

end TokenLemmas

section TokenClaims

variable {α : Type} [LinearOrderedField α] [FloorRing α]

/-- The count that `countVertexesForPolygon` records for a face line. -/
theorem countVertexesForPolygon_face {l : List Char} (h : isFaceLine l = true) :
    countVertexesForPolygon (c_str l) = ((strtokAll (c_str l)).length - 1) % 2 ^ 32 ∧
    (l.length ≤ INT_MAX →
      countVertexesForPolygon (c_str l) = (strtokAll (c_str l)).length - 1) := by
  obtain ⟨s, hs⟩ := c_str_face h
  have htok : strtokAll (c_str l) = ['f'] :: strtokAll s := by rw [hs, strtokAll_face]
  have hpos : 1 ≤ (strtokAll (c_str l)).length := by rw [htok]; simp
  have e := countVertexesForPolygon_eq (c_str l)
  simp only [UINT_MOD] at e
  refine ⟨by rw [e]; omega, ?_⟩
  intro hl
  have hlen : (strtokAll (c_str l)).length ≤ INT_MAX :=
    (length_strtokAll_le _).trans ((length_c_str_le l).trans hl)
  simp only [INT_MAX] at hlen
  rw [e]
  omega

/-- C23, amended: for every readable file the load returns a mesh whenever the
file is within the range of the `int` counters, and in every mesh it returns the
number of index slots recorded for the face of the `j + 1`-th line that starts
with `"f "` is the number of tokens of the line minus one, in `unsigned int`
arithmetic, where the tokens are those that `strtok` cuts at the space character
alone in the line as a C string; for a line of at most `INT_MAX` characters that
is the token count minus one, and when the only white space in the line is the
space character (and there is no NUL) it is the count of the tokens cut at white
space minus one. -/
theorem coreParser_face_count (heap : Heap α) (content : List Char) (d0 : Data α) :
    (InRange content → ∃ d, coreParser heap (some content) d0 = some d) ∧
    ∀ d, coreParser heap (some content) d0 = some d →
      ∀ (j : Nat) (l : List Char),
        ((getlines content).filter (fun l => l.take 2 == ['f', ' ']))[j]? = some l →
        ∃ f, d.array_of_polygon[j + 1]? = some f ∧
          f.numbers_of_vertexes_for_polygon = ((strtokAll (c_str l)).length - 1) % 2 ^ 32 ∧
          (l.length ≤ 2 ^ 31 - 1 →
            f.numbers_of_vertexes_for_polygon = (strtokAll (c_str l)).length - 1 ∧
            ((∀ c ∈ l, isspace c = true → c = ' ') → (∀ c ∈ l, c ≠ Char.ofNat 0) →
              f.numbers_of_vertexes_for_polygon = (Spec.whitespaceTokens l).length - 1)) := by
  refine ⟨coreParser_isSome heap content d0, ?_⟩
  intro d h j l hl
  have hf : isFaceLine l = true := (List.mem_filter.1 (List.getElem?_mem hl)).2
  obtain ⟨-, hres⟩ := coreParser_face h (j := j) (l := l) hl
  obtain ⟨e1, e2⟩ := countVertexesForPolygon_face hf
  refine ⟨_, hres, e1, ?_⟩
  intro hlen
  refine ⟨e2 hlen, ?_⟩
  intro hs hz
  rw [← strtokAll_eq_whitespaceTokens hs hz]
  exact e2 hlen

end TokenClaims

section TokenRuns

/-- C23, as stated, fails: the face line `f 1<TAB>2 3` has four tokens when it
is cut at white space, so the claim gives three index slots, and the load
records two: `strtok` cuts at the space character only and takes `1<TAB>2` for
one token. -/
theorem coreParser_face_count_counterexample :
    Spec.whitespaceTokens "f 1\t2 3".data = ["f".data, "1".data, "2".data, "3".data] ∧
    strtokAll (c_str "f 1\t2 3".data) = ["f".data, "1\t2".data, "3".data] ∧
    ∃ d f, coreParser zeroHeap (some "f 1\t2 3".data) blankData = some d ∧
      d.array_of_polygon[1]? = some f ∧ f.numbers_of_vertexes_for_polygon = 2 ∧
      f.numbers_of_vertexes_for_polygon ≠ (Spec.whitespaceTokens "f 1\t2 3".data).length - 1 := by
  refine ⟨by decide, by decide, ?_⟩
  obtain ⟨d, hd⟩ := coreParser_isSome zeroHeap "f 1\t2 3".data blankData
    (by unfold InRange; decide)
  have hl : ((getlines "f 1\t2 3".data).filter isFaceLine)[0]? = some "f 1\t2 3".data := by
    decide
  obtain ⟨-, hres⟩ := coreParser_face hd hl
  have hn : countVertexesForPolygon (c_str "f 1\t2 3".data) = 2 := by decide
  rw [hn] at hres
  exact ⟨d, _, hd, hres, rfl, by decide⟩

theorem coreParser_face_count_witness :
    InRange "v 0 0 0\nf 1 2  3 4 ".data ∧
    ∃ d f, coreParser zeroHeap (some "v 0 0 0\nf 1 2  3 4 ".data) blankData = some d ∧
      d.array_of_polygon[1]? = some f ∧ f.numbers_of_vertexes_for_polygon = 4 ∧
      (Spec.whitespaceTokens "f 1 2  3 4 ".data).length - 1 = 4 := by
  have hr : InRange "v 0 0 0\nf 1 2  3 4 ".data := by unfold InRange; decide
  obtain ⟨d, hd⟩ := (coreParser_face_count zeroHeap _ blankData).1 hr
  obtain ⟨f, h1, -, h3⟩ := (coreParser_face_count zeroHeap _ blankData).2 d hd 0
    "f 1 2  3 4 ".data (by decide)
  have h4 := (h3 (by decide)).2 (by decide) (by decide)
  refine ⟨hr, d, f, hd, h1, ?_, by decide⟩
  rw [h4]
  decide

end TokenRuns

/-! ## Index groups with slashes -/

section GroupLemmas

variable {α : Type} [LinearOrderedField α]

/-- A token that starts with decimal digits and goes on, if at all, with a
slash converts to the value of those digits: `atof` stops at the slash. -/
theorem atof_group {t : List Char} (h : isIndexGroup t = true) :
    (atof t : α) = (decValue (t.takeWhile isdigit) : α) := by
  simp only [isIndexGroup, Bool.and_eq_true, Bool.or_eq_true, Bool.not_eq_true',
    List.isEmpty_eq_false, List.isEmpty_iff, beq_iff_eq, decide_eq_true_eq] at h
  obtain ⟨⟨⟨h1, h2⟩, -⟩, -⟩ := h
  match t, h1 with
  | c :: s, h1 =>
    have hc : isdigit c = true := by
      by_contra hn
      simp [List.takeWhile, hn] at h1
    have hsp : (c :: s).dropWhile isspace = c :: s := by
      simp [List.dropWhile, not_isspace_of_isdigit hc]
    have hne : (c :: s).takeWhile isdigit ≠ [] := by simpa using h1
    rcases h2 with h2 | h2
    · simp only [atof, strtod, hsp, readSign_of_isdigit s hc, h2, readFraction]
      simp [readExponent, hne]
    · cases hr : (c :: s).dropWhile isdigit with
      | nil => rw [hr] at h2; simp at h2
      | cons x r =>
        rw [hr] at h2
        simp only [List.head?_cons, Option.some.injEq] at h2
        subst h2
        simp only [atof, strtod, hsp, readSign_of_isdigit s hc, hr, readFraction]
        simp [readExponent, hne]

end GroupLemmas

section GroupClaims

variable {α : Type} [LinearOrderedField α] [FloorRing α]

theorem keptIndices_groups (toks : List (List Char))
    (h : ∀ t ∈ toks, isIndexGroup t = true) :
    keptIndices α toks = Spec.leadingIndices toks := by
  induction toks with
  | nil => rfl
  | cons t ts ih =>
    have ht := h t (List.mem_cons_self _ _)
    have e : toUInt (atof t : α) = decValue (t.takeWhile isdigit) := by
      rw [atof_group ht, toUInt_natCast]
      simp only [isIndexGroup, Bool.and_eq_true, decide_eq_true_eq] at ht
      exact Nat.mod_eq_of_lt ht.2
    have hpos : 0 < decValue (t.takeWhile isdigit) := by
      simp only [isIndexGroup, Bool.and_eq_true, decide_eq_true_eq] at ht
      exact ht.1.2
    rw [keptIndices_cons_pos ts (by rw [e]; omega), e,
      ih (fun x hx => h x (List.mem_cons_of_mem _ hx))]
    rfl

/-- C25, amended: for every readable file the load returns a mesh whenever the
file is within the range of the `int` counters, and in every mesh it returns,
if every token after the marker of the `j + 1`-th line that starts with `"f "`
is a vertex index between `1` and `2 ^ 32 - 1` in decimal digits, alone or
followed by a slash and anything (`7`, `7/2`, `7/2/5`, `7//5`), then face `j + 1`
holds exactly the leading vertex indices of the tokens, in order, and its
recorded count is their number: the conversion stops at the first slash. -/
theorem coreParser_index_groups (heap : Heap α) (content : List Char) (d0 : Data α) :
    (InRange content → ∃ d, coreParser heap (some content) d0 = some d) ∧
    ∀ d, coreParser heap (some content) d0 = some d →
      ∀ (j : Nat) (l : List Char),
        ((getlines content).filter (fun l => l.take 2 == ['f', ' ']))[j]? = some l →
        (∀ t ∈ (strtokAll (c_str l)).tail, isIndexGroup t = true) →
        d.array_of_polygon[j + 1]? = some
          ⟨Spec.leadingIndices (strtokAll (c_str l)).tail, (strtokAll (c_str l)).tail.length⟩ := by
  refine ⟨coreParser_isSome heap content d0, ?_⟩
  intro d h j l hl hg
  have hf : isFaceLine l = true := (List.mem_filter.1 (List.getElem?_mem hl)).2
  obtain ⟨s, -, htok, hkept⟩ := keptIndices_face (α := α) hf
  obtain ⟨hle, hres⟩ := coreParser_face h (j := j) (l := l) hl
  have htail : (strtokAll (c_str l)).tail = strtokAll s := by rw [htok]; rfl
  rw [htail] at hg ⊢
  rw [hkept, keptIndices_groups _ hg] at hle hres
  have hlen : (Spec.leadingIndices (strtokAll s)).length = (strtokAll s).length := by
    simp [Spec.leadingIndices]
  rw [hlen] at hle hres
  have hn : countVertexesForPolygon (c_str l) = (strtokAll s).length := by
    have e := countVertexesForPolygon_eq (c_str l)
    rw [htok, List.length_cons] at e
    have hb : countVertexesForPolygon (c_str l) < UINT_MOD := by
      rw [e]; exact Nat.mod_lt _ (by decide)
    simp only [UINT_MOD] at e hb
    omega
  rw [hres, hn]
  simp [vertexesForPolygonMemoryAllocation]

end GroupClaims

section GroupRuns

/-- C25, as stated, fails: for the face line `f 1/1/1 2/2/2 3/3/3` the leading
vertex indices of the three groups are `1, 2, 3`, and the load stores exactly
`1, 2, 3` with the count `3`: the stored index list does not differ from the
list of the leading indices. -/
theorem coreParser_index_groups_counterexample :
    (strtokAll (c_str "f 1/1/1 2/2/2 3/3/3".data)).tail
      = ["1/1/1".data, "2/2/2".data, "3/3/3".data] ∧
    Spec.leadingIndices (strtokAll (c_str "f 1/1/1 2/2/2 3/3/3".data)).tail = [1, 2, 3] ∧
    ∃ d f, coreParser staleHeap (some "f 1/1/1 2/2/2 3/3/3".data) blankData = some d ∧
      d.array_of_polygon[1]? = some f ∧ f = ⟨[1, 2, 3], 3⟩ ∧
      f.vertexes = Spec.leadingIndices (strtokAll (c_str "f 1/1/1 2/2/2 3/3/3".data)).tail := by
  refine ⟨by decide, by decide, ?_⟩
  obtain ⟨d, hd⟩ := coreParser_isSome staleHeap "f 1/1/1 2/2/2 3/3/3".data blankData
    (by unfold InRange; decide)
  have hl : ((getlines "f 1/1/1 2/2/2 3/3/3".data).filter isFaceLine)[0]?
      = some "f 1/1/1 2/2/2 3/3/3".data := by decide
  obtain ⟨-, hres⟩ := coreParser_face hd hl
  have hk : keptIndices ℚ (strtokAll (c_str "f 1/1/1 2/2/2 3/3/3".data)) = [1, 2, 3] := by
    have e : strtokAll (c_str "f 1/1/1 2/2/2 3/3/3".data)
        = ['f'] :: ["1/1/1".data, "2/2/2".data, "3/3/3".data] := by decide
    rw [e, keptIndices_cons_zero _ toUInt_atof_f, keptIndices_groups _ (by decide)]
    decide
  have hn : countVertexesForPolygon (c_str "f 1/1/1 2/2/2 3/3/3".data) = 3 := by decide
  rw [hk, hn] at hres
  exact ⟨d, _, hd, hres, rfl, by decide⟩

theorem coreParser_index_groups_witness :
    InRange "v 0 0 0\nf 3/1 1//2 2".data ∧
    (∀ t ∈ (strtokAll (c_str "f 3/1 1//2 2".data)).tail, isIndexGroup t = true) ∧
    ∃ d, coreParser staleHeap (some "v 0 0 0\nf 3/1 1//2 2".data) blankData = some d ∧
      d.array_of_polygon[1]? = some ⟨[3, 1, 2], 3⟩ := by
  have hr : InRange "v 0 0 0\nf 3/1 1//2 2".data := by unfold InRange; decide
  obtain ⟨d, hd⟩ := (coreParser_index_groups staleHeap _ blankData).1 hr
  have h := (coreParser_index_groups staleHeap _ blankData).2 d hd 0 "f 3/1 1//2 2".data
    (by decide) (by decide)
  have e : Spec.leadingIndices (strtokAll (c_str "f 3/1 1//2 2".data)).tail = [3, 1, 2] := by
    decide
  have n : (strtokAll (c_str "f 3/1 1//2 2".data)).tail.length = 3 := by decide
  rw [e, n] at h
  exact ⟨hr, by decide, d, hd, h⟩

end GroupRuns

/-! ## The indices kept from a face line -/

section ParseLemmas

variable {α : Type} [LinearOrderedField α]

theorem atof_samples :
    (atof "0".data : α) = 0 ∧ (atof "abc".data : α) = 0 ∧ (atof "f".data : α) = 0 ∧
    (atof "0.5".data : α) = 1 / 2 ∧ (atof "0.25".data : α) = 1 / 4 := by
  refine ⟨?_, ?_, ?_, ?_, ?_⟩ <;>
  simp [atof, strtod, readSign, readFraction, readExponent, decValue, isspace, isdigit] <;>
  norm_num

end ParseLemmas

section KeptLemmas

variable {α : Type} [LinearOrderedField α] [FloorRing α]

theorem toUInt_of_lt_one {x : α} (h0 : 0 ≤ x) (h1 : x < 1) : toUInt x = 0 := by
  have hf : Int.floor x = 0 := Int.floor_eq_iff.2 ⟨by simpa using h0, by simpa using h1⟩
  simp [toUInt, h0, hf]

theorem toUInt_zero : toUInt (0 : α) = 0 := toUInt_of_lt_one (le_refl 0) zero_lt_one

theorem atof_ne_zero_of_toUInt {t : List Char} (h : toUInt (atof t : α) ≠ 0) :
    (atof t : α) ≠ 0 := by
  intro e
  rw [e] at h
  exact h toUInt_zero

/-- All tokens are kept exactly when every one converts to a value that is not
zero. -/
theorem length_keptIndices_eq_iff (ts : List (List Char)) :
    (keptIndices α ts).length = ts.length ↔ ∀ t ∈ ts, toUInt (atof t : α) ≠ 0 := by
  induction ts with
  | nil => simp [keptIndices_nil]
  | cons t ts ih =>
    by_cases hz : toUInt (atof t : α) = 0
    · rw [keptIndices_cons_zero ts hz]
      have hle := length_keptIndices_le (α := α) ts
      constructor
      · intro h
        simp only [List.length_cons] at h
        omega
      · intro h
        exact absurd hz (h t (List.mem_cons_self _ _))
    · rw [keptIndices_cons_pos ts hz]
      simp only [List.length_cons, Nat.add_right_cancel_iff, ih, List.mem_cons, forall_eq_or_imp,
        hz, not_false_eq_true, true_and, ne_eq]

/-- On tokens that parse to natural numbers below `2 ^ 32` the stored values are
the nonzero parses. -/
theorem nonzeroParses_eq (ts : List (List Char))
    (h : ∀ t ∈ ts, ∃ n : Nat, n < 2 ^ 32 ∧ (atof t : α) = n) :
    (keptIndices α ts).map (Nat.cast : Nat → α) = Spec.nonzeroParses ts := by
  induction ts with
  | nil => rfl
  | cons t ts ih =>
    obtain ⟨n, hn, e⟩ := h t (List.mem_cons_self _ _)
    have ih' := ih fun x hx => h x (List.mem_cons_of_mem _ hx)
    have eu : toUInt (atof t : α) = n := by
      rw [e, toUInt_natCast]
      exact Nat.mod_eq_of_lt (by simpa [UINT_MOD] using hn)
    have ecs : Spec.nonzeroParses (α := α) (t :: ts)
        = if (atof t : α) = 0 then Spec.nonzeroParses ts
          else (atof t : α) :: Spec.nonzeroParses ts := by
      by_cases hz : (atof t : α) = 0 <;> simp [Spec.nonzeroParses, hz]
    by_cases hz : n = 0
    · have e0 : (atof t : α) = 0 := by rw [e, hz]; simp
      rw [keptIndices_cons_zero ts (by rw [eu, hz]), ecs, if_pos e0, ih']
    · have e0 : (atof t : α) ≠ 0 := by rw [e]; exact_mod_cast hz
      rw [keptIndices_cons_pos ts (by rw [eu]; exact hz), ecs, if_neg e0, List.map_cons, ih',
        eu, e]

/-- The loop of `parserVertexesForPolygon` on the `j + 1`-th face line of a
load: its final array and its final counter `e`, the number of indices
written. -/
theorem coreParser_face_fold {heap : Heap α} {content : List Char} {d0 d : Data α}
    (h : coreParser heap (some content) d0 = some d) {j : Nat} {l : List Char}
    (hl : ((getlines content).filter isFaceLine)[j]? = some l) :
    ∃ vs, (strtokAll (c_str l)).foldlM (storeIndex (α := α))
        (vertexesForPolygonMemoryAllocation heap (j + 1) (countVertexesForPolygon (c_str l)), 0)
        = some (vs, (keptIndices α (strtokAll (c_str l)).tail).length) ∧
      d.array_of_polygon[j + 1]? = some ⟨vs, countVertexesForPolygon (c_str l)⟩ ∧
      vs.length = countVertexesForPolygon (c_str l) ∧
      (keptIndices α (strtokAll (c_str l)).tail).length ≤ countVertexesForPolygon (c_str l) := by
  have hf : isFaceLine l = true := (List.mem_filter.1 (List.getElem?_mem hl)).2
  obtain ⟨s, -, htok, hkept⟩ := keptIndices_face (α := α) hf
  have htail : (strtokAll (c_str l)).tail = strtokAll s := by rw [htok]; rfl
  obtain ⟨r, hr, e⟩ := coreParser_eq_some h
  obtain ⟨vs, hp, hres⟩ := (secondRead_faces heap _ _ _ hr).1 j l hl
  simp only at hp hres
  rw [e, Nat.add_comm 1 j] at hres
  rw [Nat.add_comm 1 j] at hp
  obtain ⟨hle, -⟩ := parserVertexesForPolygon_eq hp
  simp only [parserVertexesForPolygon, Option.map_eq_some'] at hp
  obtain ⟨q, hq, eq⟩ := hp
  obtain ⟨h1, -⟩ := storeIndex_fold (α := α) _ _ _ _ hq
  have hlen : vs.length = countVertexesForPolygon (c_str l) := by
    rw [← eq, h1]
    simp [length_storeScanned, vertexesForPolygonMemoryAllocation]
  have hq2 : q = (vs, (keptIndices α (strtokAll (c_str l)).tail).length) := by
    rw [htail, ← hkept, ← eq, h1]
    simp
  rw [hq2] at hq
  refine ⟨vs, hq, hres, hlen, ?_⟩
  rw [htail, ← hkept]
  simpa [vertexesForPolygonMemoryAllocation] using hle

end KeptLemmas

section KeptClaims

variable {α : Type} [LinearOrderedField α] [FloorRing α]

/-- C24, amended: for every readable file the load returns a mesh whenever the
file is within the range of the `int` counters, and in every mesh it returns the
array of face `j + 1` begins with the kept indices of the `j + 1`-th line that
starts with `"f "`, in the order of the tokens and without a gap, and holds the
storage as allocated after them.  The kept indices are the values of `atof`
converted to `unsigned int`, for exactly the tokens whose converted value is
not zero; when every token parses to a natural number below `2 ^ 32` these are
the nonzero parses.  The tokens `0`, `abc` and `f` convert to zero, and so does
`0.5`, whose parse is not zero. -/
theorem coreParser_kept_indices (heap : Heap α) (content : List Char) (d0 : Data α) :
    (InRange content → ∃ d, coreParser heap (some content) d0 = some d) ∧
    (∀ d, coreParser heap (some content) d0 = some d →
      ∀ (j : Nat) (l : List Char),
        ((getlines content).filter (fun l => l.take 2 == ['f', ' ']))[j]? = some l →
        ∃ f, d.array_of_polygon[j + 1]? = some f ∧
          keptIndices α (strtokAll (c_str l))
            = ((strtokAll (c_str l)).map fun t => toUInt (atof t : α)).filter
                (fun v => v != 0) ∧
          f.vertexes.take (keptIndices α (strtokAll (c_str l))).length
            = keptIndices α (strtokAll (c_str l)) ∧
          f.vertexes.drop (keptIndices α (strtokAll (c_str l))).length
            = (vertexesForPolygonMemoryAllocation heap (j + 1)
                f.numbers_of_vertexes_for_polygon).drop
                  (keptIndices α (strtokAll (c_str l))).length ∧
          ((∀ t ∈ strtokAll (c_str l), ∃ n : Nat, n < 2 ^ 32 ∧ (atof t : α) = n) →
            (keptIndices α (strtokAll (c_str l))).map (Nat.cast : Nat → α)
              = Spec.nonzeroParses (strtokAll (c_str l)))) ∧
    (toUInt (atof "0".data : α) = 0 ∧ toUInt (atof "abc".data : α) = 0 ∧
      toUInt (atof "f".data : α) = 0 ∧
      (atof "0.5".data : α) ≠ 0 ∧ toUInt (atof "0.5".data : α) = 0) := by
  refine ⟨coreParser_isSome heap content d0, ?_, ?_⟩
  · intro d h j l hl
    obtain ⟨-, hres⟩ := coreParser_face h (j := j) (l := l) hl
    refine ⟨_, hres, rfl, by simp, by simp, nonzeroParses_eq _⟩
  · obtain ⟨a1, a2, a3, a4, -⟩ := atof_samples (α := α)
    rw [a1, a2, a3, a4]
    refine ⟨toUInt_zero, toUInt_zero, toUInt_zero, by norm_num,
      toUInt_of_lt_one (by norm_num) (by norm_num)⟩

/-- C28, amended: for every readable file the load returns a mesh whenever the
file is within the range of the `int` counters, and in every mesh it returns,
for the `j + 1`-th line that starts with `"f "`: the loop of
`parserVertexesForPolygon` ends with its counter `e`, the number of indices
written, at most the number of slots allocated from `countVertexesForPolygon`,
which is the recorded count (the marker `f` converts to zero).  For a line of
at most `INT_MAX` characters that number of slots is the count of the tokens cut
at spaces minus one; `e` equals it exactly when every token after the marker
converts to an `unsigned int` that is not zero, and is smaller when some token
converts to zero; when the two are equal every token after the marker has a
nonzero parse. -/
theorem parserVertexesForPolygon_within (heap : Heap α) (content : List Char) (d0 : Data α) :
    (InRange content → ∃ d, coreParser heap (some content) d0 = some d) ∧
    ∀ d, coreParser heap (some content) d0 = some d →
      ∀ (j : Nat) (l : List Char),
        ((getlines content).filter (fun l => l.take 2 == ['f', ' ']))[j]? = some l →
        ∃ vs e, (strtokAll (c_str l)).foldlM (storeIndex (α := α))
            (vertexesForPolygonMemoryAllocation heap (j + 1)
              (countVertexesForPolygon (c_str l)), 0) = some (vs, e) ∧
          d.array_of_polygon[j + 1]? = some ⟨vs, countVertexesForPolygon (c_str l)⟩ ∧
          vs.length = countVertexesForPolygon (c_str l) ∧
          e ≤ countVertexesForPolygon (c_str l) ∧
          toUInt (atof ['f'] : α) = 0 ∧
          (l.length ≤ 2 ^ 31 - 1 →
            countVertexesForPolygon (c_str l) = (strtokAll (c_str l)).length - 1 ∧
            (e = countVertexesForPolygon (c_str l) ↔
              ∀ t ∈ (strtokAll (c_str l)).tail, toUInt (atof t : α) ≠ 0) ∧
            ((∃ t ∈ (strtokAll (c_str l)).tail, toUInt (atof t : α) = 0) →
              e < countVertexesForPolygon (c_str l)) ∧
            (e = countVertexesForPolygon (c_str l) →
              ∀ t ∈ (strtokAll (c_str l)).tail, (atof t : α) ≠ 0)) := by
  refine ⟨coreParser_isSome heap content d0, ?_⟩
  intro d h j l hl
  have hf : isFaceLine l = true := (List.mem_filter.1 (List.getElem?_mem hl)).2
  obtain ⟨vs, hq, hres, hlen, hle⟩ := coreParser_face_fold h hl
  refine ⟨vs, _, hq, hres, hlen, hle, toUInt_atof_f, ?_⟩
  intro hmax
  obtain ⟨s, hs⟩ := c_str_face hf
  have htok : strtokAll (c_str l) = ['f'] :: strtokAll s := by rw [hs, strtokAll_face]
  have hpos : 1 ≤ (strtokAll (c_str l)).length := by rw [htok]; simp
  have hn : countVertexesForPolygon (c_str l) = (strtokAll (c_str l)).length - 1 := by
    have e := countVertexesForPolygon_eq (c_str l)
    have hlen : (strtokAll (c_str l)).length ≤ INT_MAX :=
      (length_strtokAll_le _).trans ((length_c_str_le l).trans hmax)
    simp only [UINT_MOD, INT_MAX] at e hlen
    rw [e]
    omega
  have hn' : countVertexesForPolygon (c_str l) = (strtokAll (c_str l)).tail.length := by
    rw [hn, List.length_tail]
  have hiff := length_keptIndices_eq_iff (α := α) (strtokAll (c_str l)).tail
  refine ⟨hn, ?_, ?_, ?_⟩
  · rw [hn']; exact hiff
  · rintro ⟨t, ht, hz⟩
    rw [hn'] at hle ⊢
    rcases Nat.lt_or_ge (keptIndices α (strtokAll (c_str l)).tail).length
      (strtokAll (c_str l)).tail.length with h1 | h1
    · exact h1
    · exact absurd hz (hiff.1 (le_antisymm hle h1) t ht)
  · intro he t ht
    rw [hn'] at he
    exact atof_ne_zero_of_toUInt (hiff.1 he t ht)

end KeptClaims

section KeptRuns

/-- C24, as stated, fails: in the face line `f 0.5 1 2` the tokens with a
nonzero numeric parse are `0.5`, `1`, `2`, with the values `1/2`, `1`, `2`, and
the load stores `1`, `2` and leaves the third slot as allocated: the token
`0.5` is not stored although its parse is not zero, so no prefix of the stored
array is the list of the nonzero parses. -/
theorem coreParser_kept_indices_counterexample :
    Spec.nonzeroParses (strtokAll (c_str "f 0.5 1 2".data)) = ([1 / 2, 1, 2] : List ℚ) ∧
    ∃ d f, coreParser zeroHeap (some "f 0.5 1 2".data) blankData = some d ∧
      d.array_of_polygon[1]? = some f ∧ f = ⟨[1, 2, 0], 3⟩ ∧
      ∀ n, (f.vertexes.take n).map (Nat.cast : Nat → ℚ)
        ≠ Spec.nonzeroParses (strtokAll (c_str "f 0.5 1 2".data)) := by
  have e : strtokAll (c_str "f 0.5 1 2".data)
      = ['f'] :: ["0.5".data, "1".data, "2".data] := by decide
  obtain ⟨-, -, a3, a4, -⟩ := atof_samples (α := ℚ)
  have a1 : (atof "1".data : ℚ) = 1 := by rw [atof_digits (by decide) (by decide)]; simp [decValue]
  have a2 : (atof "2".data : ℚ) = 2 := by rw [atof_digits (by decide) (by decide)]; simp [decValue]
  have hsp : Spec.nonzeroParses (strtokAll (c_str "f 0.5 1 2".data))
      = ([1 / 2, 1, 2] : List ℚ) := by
    rw [e]
    have a3' : (atof ['f'] : ℚ) = 0 := a3
    have b0 : ((0 : ℚ) != 0) = false := by simp
    have b1 : ((1 / 2 : ℚ) != 0) = true := by simp
    have b2 : ((1 : ℚ) != 0) = true := by simp
    have b3 : ((2 : ℚ) != 0) = true := by simp
    simp only [Spec.nonzeroParses, List.map_cons, List.map_nil, a3', a4, a1, a2, List.filter,
      b0, b1, b2, b3]
  refine ⟨hsp, ?_⟩
  obtain ⟨d, hd⟩ := coreParser_isSome zeroHeap "f 0.5 1 2".data blankData
    (by unfold InRange; decide)
  have hl : ((getlines "f 0.5 1 2".data).filter isFaceLine)[0]? = some "f 0.5 1 2".data := by
    decide
  obtain ⟨-, hres⟩ := coreParser_face hd hl
  have hk : keptIndices ℚ (strtokAll (c_str "f 0.5 1 2".data)) = [1, 2] := by
    have h5 : toUInt (atof "0.5".data : ℚ) = 0 := by
      rw [a4]; exact toUInt_of_lt_one (by norm_num) (by norm_num)
    rw [e, keptIndices_cons_zero _ toUInt_atof_f, keptIndices_cons_zero _ h5,
      keptIndices_digits _ (by decide)]
    decide
  have hn : countVertexesForPolygon (c_str "f 0.5 1 2".data) = 3 := by decide
  rw [hk, hn] at hres
  have hres' : d.array_of_polygon[1]? = some ⟨[1, 2, 0], 3⟩ := by rw [hres]; rfl
  refine ⟨d, _, hd, hres', rfl, ?_⟩
  intro n
  rw [hsp]
  match n with
  | 0 => simp
  | n + 1 => simp

theorem coreParser_kept_indices_witness :
    InRange "v 0 0 0\nf 1 0 abc 2 3".data ∧
    ∃ d f, coreParser zeroHeap (some "v 0 0 0\nf 1 0 abc 2 3".data) blankData = some d ∧
      d.array_of_polygon[1]? = some f ∧ f.vertexes.take 3 = [1, 2, 3] ∧
      f.numbers_of_vertexes_for_polygon = 5 := by
  have hr : InRange "v 0 0 0\nf 1 0 abc 2 3".data := by unfold InRange; decide
  obtain ⟨d, hd⟩ := (coreParser_kept_indices zeroHeap _ blankData).1 hr
  obtain ⟨f, h1, -, h2, -, -⟩ := (coreParser_kept_indices zeroHeap _ blankData).2.1 d hd 0
    "f 1 0 abc 2 3".data (by decide)
  have hk : keptIndices ℚ (strtokAll (c_str "f 1 0 abc 2 3".data)) = [1, 2, 3] := by
    have e : strtokAll (c_str "f 1 0 abc 2 3".data)
        = ['f'] :: ["1".data, "0".data, "abc".data, "2".data, "3".data] := by decide
    obtain ⟨b1, b2, -, -, -⟩ := atof_samples (α := ℚ)
    have h1 : toUInt (atof "1".data : ℚ) = 1 := by
      rw [atof_digits (by decide) (by decide), toUInt_natCast]; decide
    rw [e, keptIndices_cons_zero _ toUInt_atof_f, keptIndices_cons_pos _ (by rw [h1]; decide),
      h1, keptIndices_cons_zero _ (by rw [b1]; exact toUInt_zero),
      keptIndices_cons_zero _ (by rw [b2]; exact toUInt_zero), keptIndices_digits _ (by decide)]
    decide
  rw [hk] at h2
  obtain ⟨-, hres⟩ := coreParser_face hd (j := 0) (l := "f 1 0 abc 2 3".data) (by decide)
  rw [h1] at hres
  have hf := Option.some.inj hres
  have hn : countVertexesForPolygon (c_str "f 1 0 abc 2 3".data) = 5 := by decide
  exact ⟨hr, d, f, hd, h1, h2, by rw [hf, hn]⟩

/-- C28, as stated, fails: in the face line `f 1 2 0.25` every token after the
marker parses to a nonzero value (`1`, `2`, `1/4`), and the loop writes two
indices into the three slots that were allocated: the two numbers are not
equal. -/
theorem parserVertexesForPolygon_within_counterexample :
    (strtokAll (c_str "f 1 2 0.25".data)).tail = ["1".data, "2".data, "0.25".data] ∧
    (∀ t ∈ (strtokAll (c_str "f 1 2 0.25".data)).tail, (atof t : ℚ) ≠ 0) ∧
    ∃ d vs, coreParser zeroHeap (some "f 1 2 0.25".data) blankData = some d ∧
      (strtokAll (c_str "f 1 2 0.25".data)).foldlM (storeIndex (α := ℚ))
        (vertexesForPolygonMemoryAllocation zeroHeap 1 3, 0) = some (vs, 2) ∧
      d.array_of_polygon[1]? = some ⟨vs, 3⟩ ∧ vs.length = 3 := by
  have ht : (strtokAll (c_str "f 1 2 0.25".data)).tail = ["1".data, "2".data, "0.25".data] := by
    decide
  obtain ⟨-, -, -, -, a5⟩ := atof_samples (α := ℚ)
  have a1 : (atof "1".data : ℚ) = 1 := by rw [atof_digits (by decide) (by decide)]; simp [decValue]
  have a2 : (atof "2".data : ℚ) = 2 := by rw [atof_digits (by decide) (by decide)]; simp [decValue]
  refine ⟨ht, ?_, ?_⟩
  · rw [ht]
    intro t hmem
    simp only [List.mem_cons, List.mem_singleton, List.not_mem_nil, or_false] at hmem
    rcases hmem with rfl | rfl | rfl
    · rw [a1]; norm_num
    · rw [a2]; norm_num
    · rw [a5]; norm_num
  · obtain ⟨d, hd⟩ := coreParser_isSome zeroHeap "f 1 2 0.25".data blankData
      (by unfold InRange; decide)
    have hl : ((getlines "f 1 2 0.25".data).filter isFaceLine)[0]? = some "f 1 2 0.25".data := by
      decide
    obtain ⟨vs, hq, hres, hlen, -⟩ := coreParser_face_fold hd hl
    have hn : countVertexesForPolygon (c_str "f 1 2 0.25".data) = 3 := by decide
    have hk : keptIndices ℚ (strtokAll (c_str "f 1 2 0.25".data)).tail = [1, 2] := by
      have h1 : toUInt (atof "1".data : ℚ) = 1 := by rw [a1]; exact toUInt_natCast 1
      have h2 : toUInt (atof "2".data : ℚ) = 2 := by rw [a2]; exact toUInt_natCast 2
      have h5 : toUInt (atof "0.25".data : ℚ) = 0 := by
        rw [a5]; exact toUInt_of_lt_one (by norm_num) (by norm_num)
      rw [ht, keptIndices_cons_pos _ (by rw [h1]; decide), h1,
        keptIndices_cons_pos _ (by rw [h2]; decide), h2, keptIndices_cons_zero _ h5]
      rfl
    rw [hk, hn] at hq
    rw [hn] at hres hlen
    exact ⟨d, vs, hd, hq, hres, hlen⟩

theorem parserVertexesForPolygon_within_witness :
    InRange "v 0 0 0\nf 1 0 3".data ∧
    ∃ d vs e, coreParser zeroHeap (some "v 0 0 0\nf 1 0 3".data) blankData = some d ∧
      d.array_of_polygon[1]? = some ⟨vs, 3⟩ ∧ vs.length = 3 ∧ e < 3 := by
  have hr : InRange "v 0 0 0\nf 1 0 3".data := by unfold InRange; decide
  obtain ⟨d, hd⟩ := (parserVertexesForPolygon_within zeroHeap _ blankData).1 hr
  obtain ⟨vs, e, -, h2, h3, -, -, h6⟩ := (parserVertexesForPolygon_within zeroHeap _ blankData).2
    d hd 0 "f 1 0 3".data (by decide)
  have hn : countVertexesForPolygon (c_str "f 1 0 3".data) = 3 := by decide
  have h7 := (h6 (by decide)).2.2.1 ⟨"0".data, by decide, by
    rw [(atof_samples (α := ℚ)).1]; exact toUInt_zero⟩
  rw [hn] at h2 h3 h7
  exact ⟨hr, d, vs, e, hd, h2, h3, h7⟩

end KeptRuns

/-! ## The order of the steps of the composite transform -/

section OrderRuns

/-- C26: the order of the steps of `affineTransform` matters.  On the mesh whose
vertex 1 is `(1, 2, 3)`, with the translation by `1` along X, the quarter turn
about Z (angle `π / 2`, real cosine and sine) and the scale `2`:
`affineTransform` (translations, then rotations, then scale) leaves vertex 1 at
`X = -4`, `Y = 4`; the same steps with the rotations before the translations
leave it at `X = -2`, and with the scale before the translations at `Y = 3`. -/
theorem affineTransform_order :
    ∃ (d : Data ℝ) (p : Fin 3 → Fin 3 → ℝ),
      d.WellFormed ∧ 1 ≤ d.count_of_vertexes ∧
      (affineTransform Real.cos Real.sin p d).coord 1 0 = -4 ∧
      (affineTransform Real.cos Real.sin p d).coord 1 1 = 4 ∧
      (scaling (p 2 0) (movingZ (p 0 2) (movingY (p 0 1) (movingX (p 0 0)
        (rotationZ Real.cos Real.sin (p 1 2) (rotationY Real.cos Real.sin (p 1 1)
          (rotationX Real.cos Real.sin (p 1 0) d))))))).coord 1 0 = -2 ∧
      (rotationZ Real.cos Real.sin (p 1 2) (rotationY Real.cos Real.sin (p 1 1)
        (rotationX Real.cos Real.sin (p 1 0)
          (movingZ (p 0 2) (movingY (p 0 1) (movingX (p 0 0)
            (scaling (p 2 0) d))))))).coord 1 1 = 3 ∧
      (scaling (p 2 0) (movingZ (p 0 2) (movingY (p 0 1) (movingX (p 0 0)
        (rotationZ Real.cos Real.sin (p 1 2) (rotationY Real.cos Real.sin (p 1 1)
          (rotationX Real.cos Real.sin (p 1 0) d))))))).coord 1 0
        ≠ (affineTransform Real.cos Real.sin p d).coord 1 0 ∧
      (rotationZ Real.cos Real.sin (p 1 2) (rotationY Real.cos Real.sin (p 1 1)
        (rotationX Real.cos Real.sin (p 1 0)
          (movingZ (p 0 2) (movingY (p 0 1) (movingX (p 0 0)
            (scaling (p 2 0) d))))))).coord 1 1
        ≠ (affineTransform Real.cos Real.sin p d).coord 1 1 := by
  refine ⟨realMesh,
    fun i j => if i = 0 then (if j = 0 then 1 else 0)
      else if i = 1 then (if j = 2 then Real.pi / 2 else 0) else 2,
    realMesh_wellFormed, by decide, ?_, ?_, ?_, ?_, ?_, ?_⟩ <;>
  simp [affineTransform, scaling, movingX, movingY, movingZ, rotationX, rotationY, rotationZ,
    Data.loopRows, forRows, realMesh, Data.coord, scaleRow, List.range_succ] <;> norm_num

end OrderRuns

/-! ## The bounding box contains the mesh -/

section BoxLemmas

variable {α : Type} [LinearOrderedField α]

theorem le_fmax_left (x m : α) : x ≤ fmax x m := by
  unfold fmax
  split
  · exact le_of_lt (by assumption)
  · exact le_refl x

theorem le_fmax_right (x m : α) : m ≤ fmax x m := by
  unfold fmax
  split
  · exact le_refl m
  · exact not_lt.1 (by assumption)

theorem fmin_le_left (x m : α) : fmin x m ≤ x := by
  unfold fmin
  split
  · exact le_of_lt (by assumption)
  · exact le_refl x

theorem fmin_le_right (x m : α) : fmin x m ≤ m := by
  unfold fmin
  split
  · exact le_refl m
  · exact not_lt.1 (by assumption)

/-- A running `fmax` is at least its start value and at least every value met. -/
theorem foldl_fmax_ge (xs : List α) : ∀ m : α,
    m ≤ xs.foldl (fun m x => fmax x m) m ∧
    ∀ x ∈ xs, x ≤ xs.foldl (fun m x => fmax x m) m := by
  induction xs with
  | nil => intro m; exact ⟨le_refl m, by intro x hx; simp at hx⟩
  | cons y ys ih =>
    intro m
    rw [List.foldl_cons]
    obtain ⟨h1, h2⟩ := ih (fmax y m)
    refine ⟨le_trans (le_fmax_right y m) h1, ?_⟩
    intro x hx
    rcases List.mem_cons.1 hx with rfl | hx
    · exact le_trans (le_fmax_left x m) h1
    · exact h2 x hx

/-- A running `fmin` is at most its start value and at most every value met. -/
theorem foldl_fmin_le (xs : List α) : ∀ m : α,
    xs.foldl (fun m x => fmin x m) m ≤ m ∧
    ∀ x ∈ xs, xs.foldl (fun m x => fmin x m) m ≤ x := by
  induction xs with
  | nil => intro m; exact ⟨le_refl m, by intro x hx; simp at hx⟩
  | cons y ys ih =>
    intro m
    rw [List.foldl_cons]
    obtain ⟨h1, h2⟩ := ih (fmin y m)
    refine ⟨le_trans h1 (fmin_le_right y m), ?_⟩
    intro x hx
    rcases List.mem_cons.1 hx with rfl | hx
    · exact le_trans h1 (fmin_le_left x m)
    · exact h2 x hx

/-- The coordinate of a row `1..n` is among the coordinates of the rows
`1..n`. -/
theorem coord_mem_rows {d : Data α} {i n : Nat} (h1 : 1 ≤ i) (h2 : i ≤ n)
    (hlen : n + 1 ≤ d.matrix_of_vertexes.matrix.length) (c : Nat) :
    d.coord i c ∈ ((d.matrix_of_vertexes.matrix.drop 1).take n).map
      fun row => row.getD c 0 := by
  obtain ⟨k, rfl⟩ : ∃ k, i = k + 1 := ⟨i - 1, by omega⟩
  have hlt : k + 1 < d.matrix_of_vertexes.matrix.length := by omega
  have hk : ((d.matrix_of_vertexes.matrix.drop 1).take n)[k]?
      = some d.matrix_of_vertexes.matrix[k + 1] := by
    rw [getElem?_rows, if_pos (by omega), List.getElem?_eq_getElem hlt]
  refine List.mem_map.2 ⟨_, List.getElem?_mem hk, ?_⟩
  simp [Data.coord, List.getD_eq_getElem?_getD, List.getElem?_eq_getElem hlt]

end BoxLemmas

section BoxClaims

variable {α : Type} [LinearOrderedField α] [FloorRing α]

/-- The bounding box after the fill pass, started from any bounds, contains
every row that the pass wrote. -/
theorem secondRead_contains (heap : Heap α) (content : List Char) {d1 d2 : Data α}
    (h : secondReadParser heap (some content) d1 = some d2) (i : Nat) (h1 : 1 ≤ i)
    (h2 : i ≤ (getlines content).countP isVertexLine) (c : Nat) (hc : c < 3) :
    d2.minAt c ≤ d2.coord i c ∧ d2.coord i c ≤ d2.maxAt c := by
  simp only [secondReadParser, Option.map_eq_some'] at h
  obtain ⟨r, hr, e⟩ := h
  obtain ⟨e1, e2⟩ := secondRead_bounds heap c hc _ _ r hr
  obtain ⟨sh, hi, -, hbi, -⟩ := secondRead_shape heap _ _ _ _ _ hr
  have hlen : (getlines content).countP isVertexLine + 1 ≤ r.1.matrix_of_vertexes.matrix.length := by
    have := (hbi (by omega)).1
    rw [sh.2.2.2.2.1]
    omega
  have hm := coord_mem_rows (d := r.1) h1 h2 hlen c
  rw [← e, e1, e2]
  exact ⟨(foldl_fmin_le _ _).2 _ hm, (foldl_fmax_ge _ _).2 _ hm⟩

/-- C27: for every readable file the load returns a mesh whenever the file is
within the range of the `int` counters, and in every mesh it returns, every
vertex `1..vertexCount` lies in the bounding box on every axis:
`min[axis] ≤ coordinate ≤ max[axis]`.  Nothing is asked of the coordinates, so
this holds wherever they lie relative to the start values `DBL_MAX` and
`DBL_MIN`, and the fill pass gives the same from any other start values of the
bounds. -/
theorem coreParser_box_contains (heap : Heap α) (content : List Char) (d0 : Data α) :
    (InRange content → ∃ d, coreParser heap (some content) d0 = some d) ∧
    (∀ d, coreParser heap (some content) d0 = some d →
      ∀ i, 1 ≤ i → i ≤ d.count_of_vertexes →
        (d.minX ≤ d.coord i 0 ∧ d.coord i 0 ≤ d.maxX) ∧
        (d.minY ≤ d.coord i 1 ∧ d.coord i 1 ≤ d.maxY) ∧
        (d.minZ ≤ d.coord i 2 ∧ d.coord i 2 ≤ d.maxZ)) ∧
    (∀ d1 d2 : Data α, secondReadParser heap (some content) d1 = some d2 →
      ∀ i, 1 ≤ i → i ≤ (getlines content).countP (fun l => l.take 2 == ['v', ' ']) →
        (d2.minX ≤ d2.coord i 0 ∧ d2.coord i 0 ≤ d2.maxX) ∧
        (d2.minY ≤ d2.coord i 1 ∧ d2.coord i 1 ≤ d2.maxY) ∧
        (d2.minZ ≤ d2.coord i 2 ∧ d2.coord i 2 ≤ d2.maxZ)) := by
  refine ⟨coreParser_isSome heap content d0, ?_, ?_⟩
  · intro d h i h1 h2
    obtain ⟨c1, -, c3, -⟩ := coreParser_shape h
    have hlen : d.count_of_vertexes + 1 ≤ d.matrix_of_vertexes.matrix.length := by
      rw [c3, c1]
    have key : ∀ c, c < 3 → d.minAt c ≤ d.coord i c ∧ d.coord i c ≤ d.maxAt c := by
      intro c hc
      obtain ⟨e1, e2⟩ := coreParser_bounds h c hc
      have hm := coord_mem_rows h1 h2 hlen c
      rw [e1, e2]
      exact ⟨(foldl_fmin_le _ _).2 _ hm, (foldl_fmax_ge _ _).2 _ hm⟩
    exact ⟨key 0 (by decide), key 1 (by decide), key 2 (by decide)⟩
  · intro d1 d2 h i h1 h3
    exact ⟨secondRead_contains heap content h i h1 h3 0 (by decide),
      secondRead_contains heap content h i h1 h3 1 (by decide),
      secondRead_contains heap content h i h1 h3 2 (by decide)⟩

end BoxClaims

section BoxRuns

theorem coreParser_box_contains_witness :
    InRange "v -1 -2 -3\nv 3 6 4".data ∧
    ∃ d, coreParser zeroHeap (some "v -1 -2 -3\nv 3 6 4".data) blankData = some d ∧
      d.count_of_vertexes = 2 ∧ d.coord 1 0 = -1 ∧ d.coord 2 1 = 6 ∧
      (d.minX ≤ d.coord 1 0 ∧ d.coord 1 0 ≤ d.maxX) ∧
      (d.minY ≤ d.coord 2 1 ∧ d.coord 2 1 ≤ d.maxY) := by
  have hr : InRange "v -1 -2 -3\nv 3 6 4".data := by unfold InRange; decide
  obtain ⟨d, hd⟩ := (coreParser_box_contains zeroHeap _ blankData).1 hr
  have hl : (getlines "v -1 -2 -3\nv 3 6 4".data).filter isVertexLine
      = ["v -1 -2 -3".data, "v 3 6 4".data] := by decide
  obtain ⟨c, r1, r2, -, -⟩ :=
    coreParser_two_vertices hd hl (scanDoubles_run1 (α := ℚ)) scanDoubles_run3.2.2
  have h := (coreParser_box_contains zeroHeap _ blankData).2.1 d hd
  have q1 : d.coord 1 0 = -1 := by rw [coord_of_getElem? r1]; rfl
  have q2 : d.coord 2 1 = 6 := by rw [coord_of_getElem? r2]; rfl
  exact ⟨hr, d, hd, c, q1, q2, (h 1 (by decide) (by rw [c]; decide)).1,
    (h 2 (by decide) (by rw [c])).2.1⟩

end BoxRuns

/-! ## Rotations keep the distance from the origin -/

section NormClaims

variable {α : Type} [LinearOrderedField α]

/-- A rotation keeps the coordinate on its axis and the sum of the squares of
the three coordinates, for any `cos` and `sin` that satisfy the Pythagorean
identity at `a`. -/
theorem rotation_norm_of (cos sin : α → α) (d : Data α) (hw : d.WellFormed) (a : α)
    (hp : cos a ^ 2 + sin a ^ 2 = 1) (i : Nat) (h1 : 1 ≤ i) (h2 : i ≤ d.count_of_vertexes) :
    ((rotationX cos sin a d).coord i 0 = d.coord i 0 ∧
      (rotationX cos sin a d).coord i 0 ^ 2 + (rotationX cos sin a d).coord i 1 ^ 2 +
        (rotationX cos sin a d).coord i 2 ^ 2
        = d.coord i 0 ^ 2 + d.coord i 1 ^ 2 + d.coord i 2 ^ 2) ∧
    ((rotationY cos sin a d).coord i 1 = d.coord i 1 ∧
      (rotationY cos sin a d).coord i 0 ^ 2 + (rotationY cos sin a d).coord i 1 ^ 2 +
        (rotationY cos sin a d).coord i 2 ^ 2
        = d.coord i 0 ^ 2 + d.coord i 1 ^ 2 + d.coord i 2 ^ 2) ∧
    ((rotationZ cos sin a d).coord i 2 = d.coord i 2 ∧
      (rotationZ cos sin a d).coord i 0 ^ 2 + (rotationZ cos sin a d).coord i 1 ^ 2 +
        (rotationZ cos sin a d).coord i 2 ^ 2
        = d.coord i 0 ^ 2 + d.coord i 1 ^ 2 + d.coord i 2 ^ 2) := by
  obtain ⟨x, y, z, hr⟩ := hw.row h2
  have hc : ∀ c, d.coord i c = [x, y, z].getD c 0 := coord_of_getElem? hr
  have key := hw.loop_coord h1 h2 hr
  simp only [rotationX, rotationY, rotationZ, key, hc]
  simp only [List.getD_cons_zero, List.getD_cons_succ, List.set_cons_zero,
    List.set_cons_succ, true_and]
  refine ⟨?_, ?_, ?_⟩
  · linear_combination (y ^ 2 + z ^ 2) * hp
  · linear_combination (x ^ 2 + z ^ 2) * hp
  · linear_combination (x ^ 2 + y ^ 2) * hp

end NormClaims

section NormRuns

/-- C29: on every well-formed mesh with real coordinates, for every angle `a`
and every vertex index `i` in `1..vertexCount`, the rotation about X leaves the
X coordinate of vertex `i` unchanged and keeps `x ^ 2 + y ^ 2 + z ^ 2`; the
rotation about Y does so with the Y coordinate and the rotation about Z with the
Z coordinate; `cos` and `sin` are the real cosine and sine. -/
theorem rotation_norm (d : Data ℝ) (hw : d.WellFormed) (a : ℝ) (i : Nat) (h1 : 1 ≤ i)
    (h2 : i ≤ d.count_of_vertexes) :
    ((rotationX Real.cos Real.sin a d).coord i 0 = d.coord i 0 ∧
      (rotationX Real.cos Real.sin a d).coord i 0 ^ 2 +
        (rotationX Real.cos Real.sin a d).coord i 1 ^ 2 +
        (rotationX Real.cos Real.sin a d).coord i 2 ^ 2
        = d.coord i 0 ^ 2 + d.coord i 1 ^ 2 + d.coord i 2 ^ 2) ∧
    ((rotationY Real.cos Real.sin a d).coord i 1 = d.coord i 1 ∧
      (rotationY Real.cos Real.sin a d).coord i 0 ^ 2 +
        (rotationY Real.cos Real.sin a d).coord i 1 ^ 2 +
        (rotationY Real.cos Real.sin a d).coord i 2 ^ 2
        = d.coord i 0 ^ 2 + d.coord i 1 ^ 2 + d.coord i 2 ^ 2) ∧
    ((rotationZ Real.cos Real.sin a d).coord i 2 = d.coord i 2 ∧
      (rotationZ Real.cos Real.sin a d).coord i 0 ^ 2 +
        (rotationZ Real.cos Real.sin a d).coord i 1 ^ 2 +
        (rotationZ Real.cos Real.sin a d).coord i 2 ^ 2
        = d.coord i 0 ^ 2 + d.coord i 1 ^ 2 + d.coord i 2 ^ 2) :=
  rotation_norm_of Real.cos Real.sin d hw a (Real.cos_sq_add_sin_sq a) i h1 h2

theorem rotation_norm_witness :
    realMesh.WellFormed ∧ 1 ≤ 1 ∧ 1 ≤ realMesh.count_of_vertexes ∧
    (rotationX Real.cos Real.sin 1 realMesh).coord 1 0 = 1 ∧
    (rotationZ Real.cos Real.sin 1 realMesh).coord 1 0 ^ 2 +
      (rotationZ Real.cos Real.sin 1 realMesh).coord 1 1 ^ 2 +
      (rotationZ Real.cos Real.sin 1 realMesh).coord 1 2 ^ 2 = 14 := by
  have h := rotation_norm realMesh realMesh_wellFormed 1 1 (by decide) (by decide)
  have c0 : realMesh.coord 1 0 = 1 := by simp [Data.coord, realMesh]
  have c1 : realMesh.coord 1 1 = 2 := by simp [Data.coord, realMesh]
  have c2 : realMesh.coord 1 2 = 3 := by simp [Data.coord, realMesh]
  rw [c0, c1, c2] at h
  refine ⟨realMesh_wellFormed, by decide, by decide, h.1.1, ?_⟩
  rw [h.2.2.2]
  norm_num

end NormRuns

/-! ## Normalizing twice -/

section TwiceLemmas

variable {α : Type} [LinearOrderedField α]

/-- A second `setInCenter` on a well-formed mesh: the bounds, and with them the
centre and the scale, are those of the first call, and they are applied to the
coordinates that the first call left. -/
theorem Data.WellFormed.setInCenter_again {d : Data α} (hw : d.WellFormed) (hs : d.span ≠ 0) :
    ∃ d1 d2, setInCenter d = some d1 ∧ setInCenter d1 = some d2 ∧ SameFrame d d1 ∧
      ∀ i, 1 ≤ i → i ≤ d.count_of_vertexes →
        d2.coord i 0 = (d1.coord i 0 - (d.minX + (d.maxX - d.minX) / 2)) * (3 / d.span) ∧
        d2.coord i 1 = (d1.coord i 1 - (d.minY + (d.maxY - d.minY) / 2)) * (3 / d.span) ∧
        d2.coord i 2 = (d1.coord i 2 - (d.minZ + (d.maxZ - d.minZ) / 2)) * (3 / d.span) := by
  obtain ⟨d1, h1⟩ : ∃ d1, setInCenter d = some d1 := ⟨_, setInCenter_some hs⟩
  have e := (setInCenter_eq_some h1).2
  have hf : SameFrame d d1 := by rw [e]; exact sameFrame_loopRows d _ _ _
  have hw1 : d1.WellFormed := by rw [e]; exact hw.loopRows _ _ (by intro r hr; simp [hr])
  obtain ⟨c, -, -, b1, b2, b3, b4, b5, b6⟩ := id hf
  have hsp : d1.span = d.span := by simp only [Data.span, b1, b2, b3, b4, b5, b6]
  obtain ⟨d2, h2, hco⟩ := hw1.setInCenter_coord (by rw [hsp]; exact hs)
  rw [hsp, b1, b2, b3, b4, b5, b6, c] at hco
  exact ⟨d1, d2, h1, h2, hf, hco⟩

end TwiceLemmas

section TwiceClaims

variable {α : Type} [LinearOrderedField α] [FloorRing α]

/-- C30: `setInCenter` is not idempotent.  On every mesh that a load returned
and whose largest bounding-box extent is not zero, a first and a second call
both have a result, the first call leaves the six bounds as the load recorded
them, and the second call maps every coordinate `v` that the first call left to
`(v - center[axis]) * scaleFactor` with the centre and the scale factor of the
first call; and for the file with the two lines `v 1 2 3` and `v 3 6 4` the X
coordinate of vertex 1 is `-3/4` after one call and `-33/16` after two. -/
theorem setInCenter_twice (heap : Heap α) (d0 : Data α) :
    (∀ (content : List Char) (d : Data α), coreParser heap (some content) d0 = some d →
      fmax (fmax (d.maxX - d.minX) (d.maxY - d.minY)) (d.maxZ - d.minZ) ≠ 0 →
      ∃ d1 d2, setInCenter d = some d1 ∧ setInCenter d1 = some d2 ∧
        (d1.minX = d.minX ∧ d1.minY = d.minY ∧ d1.minZ = d.minZ ∧
          d1.maxX = d.maxX ∧ d1.maxY = d.maxY ∧ d1.maxZ = d.maxZ) ∧
        ∀ i, 1 ≤ i → i ≤ d.count_of_vertexes →
          d2.coord i 0 = (d1.coord i 0 - (d.minX + (d.maxX - d.minX) / 2)) *
            (3 / fmax (fmax (d.maxX - d.minX) (d.maxY - d.minY)) (d.maxZ - d.minZ)) ∧
          d2.coord i 1 = (d1.coord i 1 - (d.minY + (d.maxY - d.minY) / 2)) *
            (3 / fmax (fmax (d.maxX - d.minX) (d.maxY - d.minY)) (d.maxZ - d.minZ)) ∧
          d2.coord i 2 = (d1.coord i 2 - (d.minZ + (d.maxZ - d.minZ) / 2)) *
            (3 / fmax (fmax (d.maxX - d.minX) (d.maxY - d.minY)) (d.maxZ - d.minZ))) ∧
    ∃ d d1 d2, coreParser heap (some "v 1 2 3\nv 3 6 4".data) d0 = some d ∧
      setInCenter d = some d1 ∧ setInCenter d1 = some d2 ∧
      d.coord 1 0 = 1 ∧ d1.coord 1 0 = -3 / 4 ∧ d2.coord 1 0 = -33 / 16 ∧
      d2.coord 1 0 ≠ d1.coord 1 0 := by
  constructor
  · intro content d h hs
    obtain ⟨d1, d2, h1, h2, ⟨-, -, -, b⟩, hco⟩ :=
      (coreParser_wellFormed h).setInCenter_again hs
    exact ⟨d1, d2, h1, h2, b, hco⟩
  · obtain ⟨d, hd⟩ := coreParser_isSome heap "v 1 2 3\nv 3 6 4".data d0
      (by unfold InRange; decide)
    have hl : (getlines "v 1 2 3\nv 3 6 4".data).filter isVertexLine
        = ["v 1 2 3".data, "v 3 6 4".data] := by decide
    obtain ⟨c, r1, r2, ⟨mx, my, mz⟩, ⟨nx, ny, nz⟩⟩ :=
      coreParser_two_vertices hd hl (scanDoubles_run3 (α := α)).2.1 scanDoubles_run3.2.2
    have g : ∀ x : α, 1 ≤ x → x ≤ 100 → fmax x DBL_MIN = x ∧ fmin x DBL_MAX = x := by
      intro x h1 h2
      obtain ⟨a, b⟩ := DBL_range_small h1 h2
      exact ⟨fmax_DBL_MIN a, fmin_DBL_MAX b⟩
    rw [(g 1 (by norm_num) (by norm_num)).1] at mx
    rw [(g 2 (by norm_num) (by norm_num)).1] at my
    rw [(g 3 (by norm_num) (by norm_num)).1] at mz
    rw [(g 1 (by norm_num) (by norm_num)).2] at nx
    rw [(g 2 (by norm_num) (by norm_num)).2] at ny
    rw [(g 3 (by norm_num) (by norm_num)).2] at nz
    have e1 : d.maxX = 3 := by rw [mx]; norm_num [fmax]
    have e2 : d.maxY = 6 := by rw [my]; norm_num [fmax]
    have e3 : d.maxZ = 4 := by rw [mz]; norm_num [fmax]
    have e4 : d.minX = 1 := by rw [nx]; norm_num [fmin]
    have e5 : d.minY = 2 := by rw [ny]; norm_num [fmin]
    have e6 : d.minZ = 3 := by rw [nz]; norm_num [fmin]
    have hsp : d.span = 4 := by
      simp only [Data.span, e1, e2, e3, e4, e5, e6]; norm_num [fmax]
    have hw := coreParser_wellFormed hd
    obtain ⟨d1, d2, h1, h2, -, hco2⟩ := hw.setInCenter_again (by rw [hsp]; norm_num)
    obtain ⟨d1', h1', hco1⟩ := hw.setInCenter_coord (by rw [hsp]; norm_num)
    rw [h1] at h1'
    obtain rfl : d1 = d1' := Option.some.inj h1'
    have k1 := (hco1 1 (by decide) (by rw [c]; decide)).1
    have k2 := (hco2 1 (by decide) (by rw [c]; decide)).1
    have q : d.coord 1 0 = 1 := by rw [coord_of_getElem? r1]; rfl
    rw [q, hsp, e1, e4] at k1
    have k1' : d1.coord 1 0 = -3 / 4 := by rw [k1]; norm_num
    rw [k1', hsp, e1, e4] at k2
    have k2' : d2.coord 1 0 = -33 / 16 := by rw [k2]; norm_num
    refine ⟨d, d1, d2, hd, h1, h2, q, k1', k2', ?_⟩
    rw [k1', k2']
    norm_num

end TwiceClaims

section TwiceRuns

theorem setInCenter_twice_witness :
    ∃ d d1 d2, coreParser zeroHeap (some "v 1 2 3\nv 3 6 4".data) blankData = some d ∧
      fmax (fmax (d.maxX - d.minX) (d.maxY - d.minY)) (d.maxZ - d.minZ) ≠ 0 ∧
      setInCenter d = some d1 ∧ setInCenter d1 = some d2 ∧ d1.maxX = d.maxX ∧
      d2.coord 1 0 = (d1.coord 1 0 - (d.minX + (d.maxX - d.minX) / 2)) *
        (3 / fmax (fmax (d.maxX - d.minX) (d.maxY - d.minY)) (d.maxZ - d.minZ)) := by
  obtain ⟨d, d1, -, hd, h1, -, -, -, -, -⟩ := (setInCenter_twice zeroHeap blankData).2
  have hs : fmax (fmax (d.maxX - d.minX) (d.maxY - d.minY)) (d.maxZ - d.minZ) ≠ 0 := by
    intro hz
    rw [setInCenter_none hz] at h1
    simp at h1
  obtain ⟨e1, e2, g1, g2, b, hco⟩ := (setInCenter_twice zeroHeap blankData).1 _ d hd hs
  have hc : d.count_of_vertexes = 2 := by rw [(coreParser_shape hd).1]; decide
  exact ⟨d, e1, e2, hd, hs, g1, g2, b.2.2.2.1, (hco 1 (by decide) (by rw [hc]; decide)).1⟩

end TwiceRuns

end s21
